import Mathlib

/-!
Verification of the Escalier type-checker specification against a shallow
embedding of the repository's source code.

The development is organised in three namespaces mirroring the crates of the
repository:

* `Crochet` — the `crochet_infer` / `crochet_types` crates
  (`src/crates/crochet_infer/src/key_of.rs`,
   `src/crates/crochet_types/src/type.rs`);
* `Esc` — the `escalier_infer` / `escalier_ast` crates
  (`src/crates/escalier_infer/src/util.rs`, `checker.rs`, `infer_pattern.rs`,
   `src/crates/escalier_old_infer/src/infer_fn_param.rs`);
* `Hm` — the `escalier_hm` crate (`src/crates/escalier_hm/src/infer_pattern.rs`).

Rust `panic!` / `todo!` / `unwrap` failures are modelled by `Option`-valued or
dedicated result types (`none` / a `panics` constructor); `Result<T, E>` is
modelled by `Except` or an explicit error constructor.  Diagnostic-only fields
(`provenance`, source spans) are omitted throughout: the source threads them
through unchanged and never branches on them.
-/

/-- Join a list of strings with a separator (the `itertools::join` used by the
pretty printers). -/
def joinSep : List String → String → String
  | [], _ => ""
  | [s], _ => s
  | s :: rest, sep => s ++ sep ++ joinSep rest sep

/-- Lexicographic comparison of character lists (modelling Rust's `Ord` for
`String`). -/
def charListLe : List Char → List Char → Bool
  | [], _ => true
  | _ :: _, [] => false
  | c :: cs, d :: ds =>
    if c.val < d.val then true
    else if d.val < c.val then false
    else charListLe cs ds

/-- Lexicographic string comparison used when sorting rendered members. -/
def strLe (a b : String) : Bool := charListLe a.data b.data

/-- Stable insertion sort on strings (the `itertools::sorted` used by the
`Display` impl for unions and intersections). -/
def insertSorted (s : String) : List String → List String
  | [] => [s]
  | t :: ts => if strLe s t then s :: t :: ts else t :: insertSorted s ts

/-- Sort a list of strings (stable, ascending). -/
def sortStrings : List String → List String
  | [] => []
  | s :: ss => insertSorted s (sortStrings ss)

namespace Crochet

/-- Primitive types of `crochet_types` (`TPrim`): `Num`, `Bool`, `Str`. -/
inductive CPrim where
  | num
  | bool
  | str
  deriving DecidableEq, Repr

/-- Keyword types of `crochet_types` (`TKeyword`); `key_of` matches exactly
`Null`, `Symbol`, `Undefined`, `Never`. -/
inductive CKeyword where
  | null
  | symbol
  | undefined
  | never
  deriving DecidableEq, Repr

/-- Literal types of `crochet_types` (`TLit`); `key_of` matches exactly
`Num` (carrying its lexeme as a string), `Bool`, `Str`. -/
inductive CLit where
  | num (s : String)
  | bool (b : Bool)
  | str (s : String)
  deriving DecidableEq, Repr

mutual
/-- The `crochet_types` `Type` enum as consumed by `key_of`
(`crochet_infer/src/key_of.rs` matches exactly these variants).  The
`type_params` field of `TObject`, which `key_of` ignores (it is matched with
`_`), and the diagnostic-only data are omitted. -/
inductive CroTy where
  | var (id : Int)
  | ref (name : String) (typeArgs : Option (List CroTy))
  | object (elems : List CObjElem)
  | prim (p : CPrim)
  | lit (l : CLit)
  | tuple (ts : List CroTy)
  | array (t : CroTy)
  | lam (params : List CroFnParam) (ret : CroTy)
  | app (args : List CroTy) (ret : CroTy)
  | keyword (k : CKeyword)
  | union (ts : List CroTy)
  | intersection (ts : List CroTy)
  | rest (t : CroTy)
  | this
  | keyOf (t : CroTy)

/-- Object-type elements (`TObjElem`): call signatures, constructors, index
signatures and named properties (`TProp {name, optional, mutable, ty}`). -/
inductive CObjElem where
  | call (params : List CroFnParam) (ret : CroTy)
  | constructor (params : List CroFnParam) (ret : CroTy)
  | index (key : CroFnParam) (mutable : Bool) (t : CroTy)
  | prop (name : String) (optional : Bool) (mutable : Bool) (t : CroTy)

/-- Function parameters (`TFnParam {pat, ty, optional}`). -/
inductive CroFnParam where
  | mk (pat : CroTPat) (ty : CroTy) (optional : Bool)

/-- Parameter patterns (`TPat`), as in `crochet_types/src/type.rs`:
`Ident`, `Rest`, `Array`, `Object`. -/
inductive CroTPat where
  | ident (name : String) (mutable : Bool)
  | rest (arg : CroTPat)
  | array (elems : List (Option CroTPat))
  | object (props : List CroPatProp)

/-- Object-pattern properties (`TObjectPatProp`): `KeyValue`, `Assign`, `Rest`. -/
inductive CroPatProp where
  | keyValue (key : String) (value : CroTPat)
  | assign (key : String) (value : Option CroTy)
  | restProp (arg : CroTPat)
end

mutual
def dCroTy : (a b : CroTy) → Decidable (a = b)
  | .var x0, .var y0 =>
    match decEq x0 y0 with
    | isTrue h0 => isTrue (by rw [h0])
    | isFalse h0 => isFalse (by intro hh; cases hh; exact h0 rfl)
  | .ref x0 x1, .ref y0 y1 =>
    match decEq x0 y0, dOptListCroTy x1 y1 with
    | isTrue h0, isTrue h1 => isTrue (by rw [h0, h1])
    | isFalse h0, _ => isFalse (by intro hh; cases hh; exact h0 rfl)
    | _, isFalse h1 => isFalse (by intro hh; cases hh; exact h1 rfl)
  | .object x0, .object y0 =>
    match dListCObjElem x0 y0 with
    | isTrue h0 => isTrue (by rw [h0])
    | isFalse h0 => isFalse (by intro hh; cases hh; exact h0 rfl)
  | .prim x0, .prim y0 =>
    match decEq x0 y0 with
    | isTrue h0 => isTrue (by rw [h0])
    | isFalse h0 => isFalse (by intro hh; cases hh; exact h0 rfl)
  | .lit x0, .lit y0 =>
    match decEq x0 y0 with
    | isTrue h0 => isTrue (by rw [h0])
    | isFalse h0 => isFalse (by intro hh; cases hh; exact h0 rfl)
  | .tuple x0, .tuple y0 =>
    match dListCroTy x0 y0 with
    | isTrue h0 => isTrue (by rw [h0])
    | isFalse h0 => isFalse (by intro hh; cases hh; exact h0 rfl)
  | .array x0, .array y0 =>
    match dCroTy x0 y0 with
    | isTrue h0 => isTrue (by rw [h0])
    | isFalse h0 => isFalse (by intro hh; cases hh; exact h0 rfl)
  | .lam x0 x1, .lam y0 y1 =>
    match dListCroFnParam x0 y0, dCroTy x1 y1 with
    | isTrue h0, isTrue h1 => isTrue (by rw [h0, h1])
    | isFalse h0, _ => isFalse (by intro hh; cases hh; exact h0 rfl)
    | _, isFalse h1 => isFalse (by intro hh; cases hh; exact h1 rfl)
  | .app x0 x1, .app y0 y1 =>
    match dListCroTy x0 y0, dCroTy x1 y1 with
    | isTrue h0, isTrue h1 => isTrue (by rw [h0, h1])
    | isFalse h0, _ => isFalse (by intro hh; cases hh; exact h0 rfl)
    | _, isFalse h1 => isFalse (by intro hh; cases hh; exact h1 rfl)
  | .keyword x0, .keyword y0 =>
    match decEq x0 y0 with
    | isTrue h0 => isTrue (by rw [h0])
    | isFalse h0 => isFalse (by intro hh; cases hh; exact h0 rfl)
  | .union x0, .union y0 =>
    match dListCroTy x0 y0 with
    | isTrue h0 => isTrue (by rw [h0])
    | isFalse h0 => isFalse (by intro hh; cases hh; exact h0 rfl)
  | .intersection x0, .intersection y0 =>
    match dListCroTy x0 y0 with
    | isTrue h0 => isTrue (by rw [h0])
    | isFalse h0 => isFalse (by intro hh; cases hh; exact h0 rfl)
  | .rest x0, .rest y0 =>
    match dCroTy x0 y0 with
    | isTrue h0 => isTrue (by rw [h0])
    | isFalse h0 => isFalse (by intro hh; cases hh; exact h0 rfl)
  | .this, .this => isTrue rfl
  | .keyOf x0, .keyOf y0 =>
    match dCroTy x0 y0 with
    | isTrue h0 => isTrue (by rw [h0])
    | isFalse h0 => isFalse (by intro hh; cases hh; exact h0 rfl)
  | .var _, .ref _ _ => isFalse (by intro hh; cases hh)
  | .var _, .object _ => isFalse (by intro hh; cases hh)
  | .var _, .prim _ => isFalse (by intro hh; cases hh)
  | .var _, .lit _ => isFalse (by intro hh; cases hh)
  | .var _, .tuple _ => isFalse (by intro hh; cases hh)
  | .var _, .array _ => isFalse (by intro hh; cases hh)
  | .var _, .lam _ _ => isFalse (by intro hh; cases hh)
  | .var _, .app _ _ => isFalse (by intro hh; cases hh)
  | .var _, .keyword _ => isFalse (by intro hh; cases hh)
  | .var _, .union _ => isFalse (by intro hh; cases hh)
  | .var _, .intersection _ => isFalse (by intro hh; cases hh)
  | .var _, .rest _ => isFalse (by intro hh; cases hh)
  | .var _, .this => isFalse (by intro hh; cases hh)
  | .var _, .keyOf _ => isFalse (by intro hh; cases hh)
  | .ref _ _, .var _ => isFalse (by intro hh; cases hh)
  | .ref _ _, .object _ => isFalse (by intro hh; cases hh)
  | .ref _ _, .prim _ => isFalse (by intro hh; cases hh)
  | .ref _ _, .lit _ => isFalse (by intro hh; cases hh)
  | .ref _ _, .tuple _ => isFalse (by intro hh; cases hh)
  | .ref _ _, .array _ => isFalse (by intro hh; cases hh)
  | .ref _ _, .lam _ _ => isFalse (by intro hh; cases hh)
  | .ref _ _, .app _ _ => isFalse (by intro hh; cases hh)
  | .ref _ _, .keyword _ => isFalse (by intro hh; cases hh)
  | .ref _ _, .union _ => isFalse (by intro hh; cases hh)
  | .ref _ _, .intersection _ => isFalse (by intro hh; cases hh)
  | .ref _ _, .rest _ => isFalse (by intro hh; cases hh)
  | .ref _ _, .this => isFalse (by intro hh; cases hh)
  | .ref _ _, .keyOf _ => isFalse (by intro hh; cases hh)
  | .object _, .var _ => isFalse (by intro hh; cases hh)
  | .object _, .ref _ _ => isFalse (by intro hh; cases hh)
  | .object _, .prim _ => isFalse (by intro hh; cases hh)
  | .object _, .lit _ => isFalse (by intro hh; cases hh)
  | .object _, .tuple _ => isFalse (by intro hh; cases hh)
  | .object _, .array _ => isFalse (by intro hh; cases hh)
  | .object _, .lam _ _ => isFalse (by intro hh; cases hh)
  | .object _, .app _ _ => isFalse (by intro hh; cases hh)
  | .object _, .keyword _ => isFalse (by intro hh; cases hh)
  | .object _, .union _ => isFalse (by intro hh; cases hh)
  | .object _, .intersection _ => isFalse (by intro hh; cases hh)
  | .object _, .rest _ => isFalse (by intro hh; cases hh)
  | .object _, .this => isFalse (by intro hh; cases hh)
  | .object _, .keyOf _ => isFalse (by intro hh; cases hh)
  | .prim _, .var _ => isFalse (by intro hh; cases hh)
  | .prim _, .ref _ _ => isFalse (by intro hh; cases hh)
  | .prim _, .object _ => isFalse (by intro hh; cases hh)
  | .prim _, .lit _ => isFalse (by intro hh; cases hh)
  | .prim _, .tuple _ => isFalse (by intro hh; cases hh)
  | .prim _, .array _ => isFalse (by intro hh; cases hh)
  | .prim _, .lam _ _ => isFalse (by intro hh; cases hh)
  | .prim _, .app _ _ => isFalse (by intro hh; cases hh)
  | .prim _, .keyword _ => isFalse (by intro hh; cases hh)
  | .prim _, .union _ => isFalse (by intro hh; cases hh)
  | .prim _, .intersection _ => isFalse (by intro hh; cases hh)
  | .prim _, .rest _ => isFalse (by intro hh; cases hh)
  | .prim _, .this => isFalse (by intro hh; cases hh)
  | .prim _, .keyOf _ => isFalse (by intro hh; cases hh)
  | .lit _, .var _ => isFalse (by intro hh; cases hh)
  | .lit _, .ref _ _ => isFalse (by intro hh; cases hh)
  | .lit _, .object _ => isFalse (by intro hh; cases hh)
  | .lit _, .prim _ => isFalse (by intro hh; cases hh)
  | .lit _, .tuple _ => isFalse (by intro hh; cases hh)
  | .lit _, .array _ => isFalse (by intro hh; cases hh)
  | .lit _, .lam _ _ => isFalse (by intro hh; cases hh)
  | .lit _, .app _ _ => isFalse (by intro hh; cases hh)
  | .lit _, .keyword _ => isFalse (by intro hh; cases hh)
  | .lit _, .union _ => isFalse (by intro hh; cases hh)
  | .lit _, .intersection _ => isFalse (by intro hh; cases hh)
  | .lit _, .rest _ => isFalse (by intro hh; cases hh)
  | .lit _, .this => isFalse (by intro hh; cases hh)
  | .lit _, .keyOf _ => isFalse (by intro hh; cases hh)
  | .tuple _, .var _ => isFalse (by intro hh; cases hh)
  | .tuple _, .ref _ _ => isFalse (by intro hh; cases hh)
  | .tuple _, .object _ => isFalse (by intro hh; cases hh)
  | .tuple _, .prim _ => isFalse (by intro hh; cases hh)
  | .tuple _, .lit _ => isFalse (by intro hh; cases hh)
  | .tuple _, .array _ => isFalse (by intro hh; cases hh)
  | .tuple _, .lam _ _ => isFalse (by intro hh; cases hh)
  | .tuple _, .app _ _ => isFalse (by intro hh; cases hh)
  | .tuple _, .keyword _ => isFalse (by intro hh; cases hh)
  | .tuple _, .union _ => isFalse (by intro hh; cases hh)
  | .tuple _, .intersection _ => isFalse (by intro hh; cases hh)
  | .tuple _, .rest _ => isFalse (by intro hh; cases hh)
  | .tuple _, .this => isFalse (by intro hh; cases hh)
  | .tuple _, .keyOf _ => isFalse (by intro hh; cases hh)
  | .array _, .var _ => isFalse (by intro hh; cases hh)
  | .array _, .ref _ _ => isFalse (by intro hh; cases hh)
  | .array _, .object _ => isFalse (by intro hh; cases hh)
  | .array _, .prim _ => isFalse (by intro hh; cases hh)
  | .array _, .lit _ => isFalse (by intro hh; cases hh)
  | .array _, .tuple _ => isFalse (by intro hh; cases hh)
  | .array _, .lam _ _ => isFalse (by intro hh; cases hh)
  | .array _, .app _ _ => isFalse (by intro hh; cases hh)
  | .array _, .keyword _ => isFalse (by intro hh; cases hh)
  | .array _, .union _ => isFalse (by intro hh; cases hh)
  | .array _, .intersection _ => isFalse (by intro hh; cases hh)
  | .array _, .rest _ => isFalse (by intro hh; cases hh)
  | .array _, .this => isFalse (by intro hh; cases hh)
  | .array _, .keyOf _ => isFalse (by intro hh; cases hh)
  | .lam _ _, .var _ => isFalse (by intro hh; cases hh)
  | .lam _ _, .ref _ _ => isFalse (by intro hh; cases hh)
  | .lam _ _, .object _ => isFalse (by intro hh; cases hh)
  | .lam _ _, .prim _ => isFalse (by intro hh; cases hh)
  | .lam _ _, .lit _ => isFalse (by intro hh; cases hh)
  | .lam _ _, .tuple _ => isFalse (by intro hh; cases hh)
  | .lam _ _, .array _ => isFalse (by intro hh; cases hh)
  | .lam _ _, .app _ _ => isFalse (by intro hh; cases hh)
  | .lam _ _, .keyword _ => isFalse (by intro hh; cases hh)
  | .lam _ _, .union _ => isFalse (by intro hh; cases hh)
  | .lam _ _, .intersection _ => isFalse (by intro hh; cases hh)
  | .lam _ _, .rest _ => isFalse (by intro hh; cases hh)
  | .lam _ _, .this => isFalse (by intro hh; cases hh)
  | .lam _ _, .keyOf _ => isFalse (by intro hh; cases hh)
  | .app _ _, .var _ => isFalse (by intro hh; cases hh)
  | .app _ _, .ref _ _ => isFalse (by intro hh; cases hh)
  | .app _ _, .object _ => isFalse (by intro hh; cases hh)
  | .app _ _, .prim _ => isFalse (by intro hh; cases hh)
  | .app _ _, .lit _ => isFalse (by intro hh; cases hh)
  | .app _ _, .tuple _ => isFalse (by intro hh; cases hh)
  | .app _ _, .array _ => isFalse (by intro hh; cases hh)
  | .app _ _, .lam _ _ => isFalse (by intro hh; cases hh)
  | .app _ _, .keyword _ => isFalse (by intro hh; cases hh)
  | .app _ _, .union _ => isFalse (by intro hh; cases hh)
  | .app _ _, .intersection _ => isFalse (by intro hh; cases hh)
  | .app _ _, .rest _ => isFalse (by intro hh; cases hh)
  | .app _ _, .this => isFalse (by intro hh; cases hh)
  | .app _ _, .keyOf _ => isFalse (by intro hh; cases hh)
  | .keyword _, .var _ => isFalse (by intro hh; cases hh)
  | .keyword _, .ref _ _ => isFalse (by intro hh; cases hh)
  | .keyword _, .object _ => isFalse (by intro hh; cases hh)
  | .keyword _, .prim _ => isFalse (by intro hh; cases hh)
  | .keyword _, .lit _ => isFalse (by intro hh; cases hh)
  | .keyword _, .tuple _ => isFalse (by intro hh; cases hh)
  | .keyword _, .array _ => isFalse (by intro hh; cases hh)
  | .keyword _, .lam _ _ => isFalse (by intro hh; cases hh)
  | .keyword _, .app _ _ => isFalse (by intro hh; cases hh)
  | .keyword _, .union _ => isFalse (by intro hh; cases hh)
  | .keyword _, .intersection _ => isFalse (by intro hh; cases hh)
  | .keyword _, .rest _ => isFalse (by intro hh; cases hh)
  | .keyword _, .this => isFalse (by intro hh; cases hh)
  | .keyword _, .keyOf _ => isFalse (by intro hh; cases hh)
  | .union _, .var _ => isFalse (by intro hh; cases hh)
  | .union _, .ref _ _ => isFalse (by intro hh; cases hh)
  | .union _, .object _ => isFalse (by intro hh; cases hh)
  | .union _, .prim _ => isFalse (by intro hh; cases hh)
  | .union _, .lit _ => isFalse (by intro hh; cases hh)
  | .union _, .tuple _ => isFalse (by intro hh; cases hh)
  | .union _, .array _ => isFalse (by intro hh; cases hh)
  | .union _, .lam _ _ => isFalse (by intro hh; cases hh)
  | .union _, .app _ _ => isFalse (by intro hh; cases hh)
  | .union _, .keyword _ => isFalse (by intro hh; cases hh)
  | .union _, .intersection _ => isFalse (by intro hh; cases hh)
  | .union _, .rest _ => isFalse (by intro hh; cases hh)
  | .union _, .this => isFalse (by intro hh; cases hh)
  | .union _, .keyOf _ => isFalse (by intro hh; cases hh)
  | .intersection _, .var _ => isFalse (by intro hh; cases hh)
  | .intersection _, .ref _ _ => isFalse (by intro hh; cases hh)
  | .intersection _, .object _ => isFalse (by intro hh; cases hh)
  | .intersection _, .prim _ => isFalse (by intro hh; cases hh)
  | .intersection _, .lit _ => isFalse (by intro hh; cases hh)
  | .intersection _, .tuple _ => isFalse (by intro hh; cases hh)
  | .intersection _, .array _ => isFalse (by intro hh; cases hh)
  | .intersection _, .lam _ _ => isFalse (by intro hh; cases hh)
  | .intersection _, .app _ _ => isFalse (by intro hh; cases hh)
  | .intersection _, .keyword _ => isFalse (by intro hh; cases hh)
  | .intersection _, .union _ => isFalse (by intro hh; cases hh)
  | .intersection _, .rest _ => isFalse (by intro hh; cases hh)
  | .intersection _, .this => isFalse (by intro hh; cases hh)
  | .intersection _, .keyOf _ => isFalse (by intro hh; cases hh)
  | .rest _, .var _ => isFalse (by intro hh; cases hh)
  | .rest _, .ref _ _ => isFalse (by intro hh; cases hh)
  | .rest _, .object _ => isFalse (by intro hh; cases hh)
  | .rest _, .prim _ => isFalse (by intro hh; cases hh)
  | .rest _, .lit _ => isFalse (by intro hh; cases hh)
  | .rest _, .tuple _ => isFalse (by intro hh; cases hh)
  | .rest _, .array _ => isFalse (by intro hh; cases hh)
  | .rest _, .lam _ _ => isFalse (by intro hh; cases hh)
  | .rest _, .app _ _ => isFalse (by intro hh; cases hh)
  | .rest _, .keyword _ => isFalse (by intro hh; cases hh)
  | .rest _, .union _ => isFalse (by intro hh; cases hh)
  | .rest _, .intersection _ => isFalse (by intro hh; cases hh)
  | .rest _, .this => isFalse (by intro hh; cases hh)
  | .rest _, .keyOf _ => isFalse (by intro hh; cases hh)
  | .this, .var _ => isFalse (by intro hh; cases hh)
  | .this, .ref _ _ => isFalse (by intro hh; cases hh)
  | .this, .object _ => isFalse (by intro hh; cases hh)
  | .this, .prim _ => isFalse (by intro hh; cases hh)
  | .this, .lit _ => isFalse (by intro hh; cases hh)
  | .this, .tuple _ => isFalse (by intro hh; cases hh)
  | .this, .array _ => isFalse (by intro hh; cases hh)
  | .this, .lam _ _ => isFalse (by intro hh; cases hh)
  | .this, .app _ _ => isFalse (by intro hh; cases hh)
  | .this, .keyword _ => isFalse (by intro hh; cases hh)
  | .this, .union _ => isFalse (by intro hh; cases hh)
  | .this, .intersection _ => isFalse (by intro hh; cases hh)
  | .this, .rest _ => isFalse (by intro hh; cases hh)
  | .this, .keyOf _ => isFalse (by intro hh; cases hh)
  | .keyOf _, .var _ => isFalse (by intro hh; cases hh)
  | .keyOf _, .ref _ _ => isFalse (by intro hh; cases hh)
  | .keyOf _, .object _ => isFalse (by intro hh; cases hh)
  | .keyOf _, .prim _ => isFalse (by intro hh; cases hh)
  | .keyOf _, .lit _ => isFalse (by intro hh; cases hh)
  | .keyOf _, .tuple _ => isFalse (by intro hh; cases hh)
  | .keyOf _, .array _ => isFalse (by intro hh; cases hh)
  | .keyOf _, .lam _ _ => isFalse (by intro hh; cases hh)
  | .keyOf _, .app _ _ => isFalse (by intro hh; cases hh)
  | .keyOf _, .keyword _ => isFalse (by intro hh; cases hh)
  | .keyOf _, .union _ => isFalse (by intro hh; cases hh)
  | .keyOf _, .intersection _ => isFalse (by intro hh; cases hh)
  | .keyOf _, .rest _ => isFalse (by intro hh; cases hh)
  | .keyOf _, .this => isFalse (by intro hh; cases hh)
termination_by structural a _ => a

def dCObjElem : (a b : CObjElem) → Decidable (a = b)
  | .call x0 x1, .call y0 y1 =>
    match dListCroFnParam x0 y0, dCroTy x1 y1 with
    | isTrue h0, isTrue h1 => isTrue (by rw [h0, h1])
    | isFalse h0, _ => isFalse (by intro hh; cases hh; exact h0 rfl)
    | _, isFalse h1 => isFalse (by intro hh; cases hh; exact h1 rfl)
  | .constructor x0 x1, .constructor y0 y1 =>
    match dListCroFnParam x0 y0, dCroTy x1 y1 with
    | isTrue h0, isTrue h1 => isTrue (by rw [h0, h1])
    | isFalse h0, _ => isFalse (by intro hh; cases hh; exact h0 rfl)
    | _, isFalse h1 => isFalse (by intro hh; cases hh; exact h1 rfl)
  | .index x0 x1 x2, .index y0 y1 y2 =>
    match dCroFnParam x0 y0, decEq x1 y1, dCroTy x2 y2 with
    | isTrue h0, isTrue h1, isTrue h2 => isTrue (by rw [h0, h1, h2])
    | isFalse h0, _, _ => isFalse (by intro hh; cases hh; exact h0 rfl)
    | _, isFalse h1, _ => isFalse (by intro hh; cases hh; exact h1 rfl)
    | _, _, isFalse h2 => isFalse (by intro hh; cases hh; exact h2 rfl)
  | .prop x0 x1 x2 x3, .prop y0 y1 y2 y3 =>
    match decEq x0 y0, decEq x1 y1, decEq x2 y2, dCroTy x3 y3 with
    | isTrue h0, isTrue h1, isTrue h2, isTrue h3 => isTrue (by rw [h0, h1, h2, h3])
    | isFalse h0, _, _, _ => isFalse (by intro hh; cases hh; exact h0 rfl)
    | _, isFalse h1, _, _ => isFalse (by intro hh; cases hh; exact h1 rfl)
    | _, _, isFalse h2, _ => isFalse (by intro hh; cases hh; exact h2 rfl)
    | _, _, _, isFalse h3 => isFalse (by intro hh; cases hh; exact h3 rfl)
  | .call _ _, .constructor _ _ => isFalse (by intro hh; cases hh)
  | .call _ _, .index _ _ _ => isFalse (by intro hh; cases hh)
  | .call _ _, .prop _ _ _ _ => isFalse (by intro hh; cases hh)
  | .constructor _ _, .call _ _ => isFalse (by intro hh; cases hh)
  | .constructor _ _, .index _ _ _ => isFalse (by intro hh; cases hh)
  | .constructor _ _, .prop _ _ _ _ => isFalse (by intro hh; cases hh)
  | .index _ _ _, .call _ _ => isFalse (by intro hh; cases hh)
  | .index _ _ _, .constructor _ _ => isFalse (by intro hh; cases hh)
  | .index _ _ _, .prop _ _ _ _ => isFalse (by intro hh; cases hh)
  | .prop _ _ _ _, .call _ _ => isFalse (by intro hh; cases hh)
  | .prop _ _ _ _, .constructor _ _ => isFalse (by intro hh; cases hh)
  | .prop _ _ _ _, .index _ _ _ => isFalse (by intro hh; cases hh)
termination_by structural a _ => a

def dCroFnParam : (a b : CroFnParam) → Decidable (a = b)
  | .mk x0 x1 x2, .mk y0 y1 y2 =>
    match dCroTPat x0 y0, dCroTy x1 y1, decEq x2 y2 with
    | isTrue h0, isTrue h1, isTrue h2 => isTrue (by rw [h0, h1, h2])
    | isFalse h0, _, _ => isFalse (by intro hh; cases hh; exact h0 rfl)
    | _, isFalse h1, _ => isFalse (by intro hh; cases hh; exact h1 rfl)
    | _, _, isFalse h2 => isFalse (by intro hh; cases hh; exact h2 rfl)
termination_by structural a _ => a

def dCroTPat : (a b : CroTPat) → Decidable (a = b)
  | .ident x0 x1, .ident y0 y1 =>
    match decEq x0 y0, decEq x1 y1 with
    | isTrue h0, isTrue h1 => isTrue (by rw [h0, h1])
    | isFalse h0, _ => isFalse (by intro hh; cases hh; exact h0 rfl)
    | _, isFalse h1 => isFalse (by intro hh; cases hh; exact h1 rfl)
  | .rest x0, .rest y0 =>
    match dCroTPat x0 y0 with
    | isTrue h0 => isTrue (by rw [h0])
    | isFalse h0 => isFalse (by intro hh; cases hh; exact h0 rfl)
  | .array x0, .array y0 =>
    match dListOptCroTPat x0 y0 with
    | isTrue h0 => isTrue (by rw [h0])
    | isFalse h0 => isFalse (by intro hh; cases hh; exact h0 rfl)
  | .object x0, .object y0 =>
    match dListCroPatProp x0 y0 with
    | isTrue h0 => isTrue (by rw [h0])
    | isFalse h0 => isFalse (by intro hh; cases hh; exact h0 rfl)
  | .ident _ _, .rest _ => isFalse (by intro hh; cases hh)
  | .ident _ _, .array _ => isFalse (by intro hh; cases hh)
  | .ident _ _, .object _ => isFalse (by intro hh; cases hh)
  | .rest _, .ident _ _ => isFalse (by intro hh; cases hh)
  | .rest _, .array _ => isFalse (by intro hh; cases hh)
  | .rest _, .object _ => isFalse (by intro hh; cases hh)
  | .array _, .ident _ _ => isFalse (by intro hh; cases hh)
  | .array _, .rest _ => isFalse (by intro hh; cases hh)
  | .array _, .object _ => isFalse (by intro hh; cases hh)
  | .object _, .ident _ _ => isFalse (by intro hh; cases hh)
  | .object _, .rest _ => isFalse (by intro hh; cases hh)
  | .object _, .array _ => isFalse (by intro hh; cases hh)
termination_by structural a _ => a

def dCroPatProp : (a b : CroPatProp) → Decidable (a = b)
  | .keyValue x0 x1, .keyValue y0 y1 =>
    match decEq x0 y0, dCroTPat x1 y1 with
    | isTrue h0, isTrue h1 => isTrue (by rw [h0, h1])
    | isFalse h0, _ => isFalse (by intro hh; cases hh; exact h0 rfl)
    | _, isFalse h1 => isFalse (by intro hh; cases hh; exact h1 rfl)
  | .assign x0 x1, .assign y0 y1 =>
    match decEq x0 y0, dOptCroTy x1 y1 with
    | isTrue h0, isTrue h1 => isTrue (by rw [h0, h1])
    | isFalse h0, _ => isFalse (by intro hh; cases hh; exact h0 rfl)
    | _, isFalse h1 => isFalse (by intro hh; cases hh; exact h1 rfl)
  | .restProp x0, .restProp y0 =>
    match dCroTPat x0 y0 with
    | isTrue h0 => isTrue (by rw [h0])
    | isFalse h0 => isFalse (by intro hh; cases hh; exact h0 rfl)
  | .keyValue _ _, .assign _ _ => isFalse (by intro hh; cases hh)
  | .keyValue _ _, .restProp _ => isFalse (by intro hh; cases hh)
  | .assign _ _, .keyValue _ _ => isFalse (by intro hh; cases hh)
  | .assign _ _, .restProp _ => isFalse (by intro hh; cases hh)
  | .restProp _, .keyValue _ _ => isFalse (by intro hh; cases hh)
  | .restProp _, .assign _ _ => isFalse (by intro hh; cases hh)
termination_by structural a _ => a

def dListCroTy : (a b : List CroTy) → Decidable (a = b)
  | [], [] => isTrue rfl
  | t :: ts, u :: us =>
    match dCroTy t u, dListCroTy ts us with
    | isTrue h1, isTrue h2 => isTrue (by rw [h1, h2])
    | isFalse h1, _ => isFalse (by intro hh; cases hh; exact h1 rfl)
    | _, isFalse h2 => isFalse (by intro hh; cases hh; exact h2 rfl)
  | [], _ :: _ => isFalse (by intro hh; cases hh)
  | _ :: _, [] => isFalse (by intro hh; cases hh)
termination_by structural a _ => a

def dOptListCroTy : (a b : Option (List CroTy)) → Decidable (a = b)
  | none, none => isTrue rfl
  | some t, some u =>
    match dListCroTy t u with
    | isTrue h => isTrue (by rw [h])
    | isFalse h => isFalse (by intro hh; cases hh; exact h rfl)
  | none, some _ => isFalse (by intro hh; cases hh)
  | some _, none => isFalse (by intro hh; cases hh)
termination_by structural a _ => a

def dOptCroTy : (a b : Option CroTy) → Decidable (a = b)
  | none, none => isTrue rfl
  | some t, some u =>
    match dCroTy t u with
    | isTrue h => isTrue (by rw [h])
    | isFalse h => isFalse (by intro hh; cases hh; exact h rfl)
  | none, some _ => isFalse (by intro hh; cases hh)
  | some _, none => isFalse (by intro hh; cases hh)
termination_by structural a _ => a

def dListCObjElem : (a b : List CObjElem) → Decidable (a = b)
  | [], [] => isTrue rfl
  | t :: ts, u :: us =>
    match dCObjElem t u, dListCObjElem ts us with
    | isTrue h1, isTrue h2 => isTrue (by rw [h1, h2])
    | isFalse h1, _ => isFalse (by intro hh; cases hh; exact h1 rfl)
    | _, isFalse h2 => isFalse (by intro hh; cases hh; exact h2 rfl)
  | [], _ :: _ => isFalse (by intro hh; cases hh)
  | _ :: _, [] => isFalse (by intro hh; cases hh)
termination_by structural a _ => a

def dListCroFnParam : (a b : List CroFnParam) → Decidable (a = b)
  | [], [] => isTrue rfl
  | t :: ts, u :: us =>
    match dCroFnParam t u, dListCroFnParam ts us with
    | isTrue h1, isTrue h2 => isTrue (by rw [h1, h2])
    | isFalse h1, _ => isFalse (by intro hh; cases hh; exact h1 rfl)
    | _, isFalse h2 => isFalse (by intro hh; cases hh; exact h2 rfl)
  | [], _ :: _ => isFalse (by intro hh; cases hh)
  | _ :: _, [] => isFalse (by intro hh; cases hh)
termination_by structural a _ => a

def dOptCroTPat : (a b : Option CroTPat) → Decidable (a = b)
  | none, none => isTrue rfl
  | some t, some u =>
    match dCroTPat t u with
    | isTrue h => isTrue (by rw [h])
    | isFalse h => isFalse (by intro hh; cases hh; exact h rfl)
  | none, some _ => isFalse (by intro hh; cases hh)
  | some _, none => isFalse (by intro hh; cases hh)
termination_by structural a _ => a

def dListOptCroTPat : (a b : List (Option CroTPat)) → Decidable (a = b)
  | [], [] => isTrue rfl
  | t :: ts, u :: us =>
    match dOptCroTPat t u, dListOptCroTPat ts us with
    | isTrue h1, isTrue h2 => isTrue (by rw [h1, h2])
    | isFalse h1, _ => isFalse (by intro hh; cases hh; exact h1 rfl)
    | _, isFalse h2 => isFalse (by intro hh; cases hh; exact h2 rfl)
  | [], _ :: _ => isFalse (by intro hh; cases hh)
  | _ :: _, [] => isFalse (by intro hh; cases hh)
termination_by structural a _ => a

def dListCroPatProp : (a b : List CroPatProp) → Decidable (a = b)
  | [], [] => isTrue rfl
  | t :: ts, u :: us =>
    match dCroPatProp t u, dListCroPatProp ts us with
    | isTrue h1, isTrue h2 => isTrue (by rw [h1, h2])
    | isFalse h1, _ => isFalse (by intro hh; cases hh; exact h1 rfl)
    | _, isFalse h2 => isFalse (by intro hh; cases hh; exact h2 rfl)
  | [], _ :: _ => isFalse (by intro hh; cases hh)
  | _ :: _, [] => isFalse (by intro hh; cases hh)
termination_by structural a _ => a

end

instance : DecidableEq CroTy := dCroTy
instance : DecidableEq CObjElem := dCObjElem


/-- Result of running a `crochet_infer` function that may `panic!`/`todo!`
(`panics`), return `Err` (`errs`, mirroring `Result<_, String>`), or succeed
(`ok`).  `fuelOut` marks exhaustion of the explicit recursion fuel used to
model the source's unbounded recursion through context lookups. -/
inductive CRes (α : Type) where
  | panics
  | fuelOut
  | errs (msg : String)
  | ok (a : α)
  deriving DecidableEq

/-- Modelled from the spec: the `crochet_infer` `Context`
(`crochet_infer/src/context.rs` is not in the source tree).  `key_of` uses only
its `lookup_alias` and `lookup_type_and_instantiate` operations, both returning
`Result<Type, String>`; they are modelled as abstract lookup functions. -/
structure CroCtx where
  lookupAlias : String → Option (List CroTy) → Except String CroTy
  lookupInst : String → Except String CroTy

mutual
/-- `flatten_types`: a union type flattens to the concatenation of its
members' flattenings; any other type is a singleton. -/
def flatten_types : CroTy → List CroTy
  | .union ts => flattenList ts
  | t => [t]
termination_by structural t => t

/-- List version of `flatten_types` (`types.iter().flat_map(flatten_types)`). -/
def flattenList : List CroTy → List CroTy
  | [] => []
  | t :: ts => flatten_types t ++ flattenList ts
termination_by structural ts => ts
end

/-- Occurrence-order deduplication, modelling collection of an iterator into a
set.  (The Rust code collects into a `BTreeSet`, whose iteration order follows
the derived `Ord` of a type declaration that is not in the source tree; all
properties proved below are insensitive to the order of the deduplicated
list.) -/
def dedupOcc : List CroTy → List CroTy :=
  go []
where
  go (acc : List CroTy) : List CroTy → List CroTy
    | [] => acc.reverse
    | t :: ts => if t ∈ acc then go acc ts else go (t :: acc) ts

/-- The base primitive of a literal type (`Num`/`Bool`/`Str` literals are
subtypes of `number`/`boolean`/`string`). -/
def litBase : CLit → CPrim
  | .num _ => .num
  | .bool _ => .bool
  | .str _ => .str

/-- Modelled from the spec: `union_many_types` of `crochet_infer/src/util.rs`
(not in the source tree; its `escalier_infer` successor is embedded in the
`Esc` namespace).  Simplifying a union flattens nested unions, removes
`Never`, drops every literal type whose base primitive is also present,
deduplicates, and collapses the empty and singleton cases.  `croKeep` is the
member filter: drop `Never` and literals whose base primitive is present. -/
def croKeep (typesSet : List CroTy) (t : CroTy) : Bool :=
  match t with
  | .keyword .never => false
  | .lit l => decide (CroTy.prim (litBase l) ∉ typesSet)
  | _ => true

/-- The simplification of `union_many_types` over the flattened, deduplicated
member list. -/
def union_many_types (ts : List CroTy) : CroTy :=
  let types := flattenList ts
  let typesSet := dedupOcc types
  let kept := typesSet.filter (croKeep typesSet)
  match kept with
  | [] => .keyword .never
  | [t] => t
  | _ => .union kept

/-- The key-collection pass of `key_of` over an object's elements: `Call` and
`Constructor` elements are skipped, an `Index` element hits a `todo!()`
(modelled as `none`), and each `Prop` contributes its name as a string-literal
type. -/
def collectKeys : List CObjElem → Option (List CroTy)
  | [] => some []
  | .call _ _ :: rest => collectKeys rest
  | .constructor _ _ :: rest => collectKeys rest
  | .index _ _ _ :: _ => none
  | .prop name _ _ _ :: rest => (collectKeys rest).map (CroTy.lit (.str name) :: ·)

/-- Sequencing of `key_of` over a list (the `collect::<Result<Vec<_>, _>>()`
in the `Intersection` arm): the first panic or error aborts. -/
def key_of_list (k : CroTy → CRes CroTy) : List CroTy → CRes (List CroTy)
  | [] => .ok []
  | t :: ts =>
    match k t with
    | .panics => .panics
    | .fuelOut => .fuelOut
    | .errs e => .errs e
    | .ok kt =>
      match key_of_list k ts with
      | .panics => .panics
      | .fuelOut => .fuelOut
      | .errs e => .errs e
      | .ok kts => .ok (kt :: kts)

/-- Chain a context lookup (`Result<Type, String>`) into a continuation,
propagating `Err` as the `?` operator does. -/
def bindLookup (r : Except String CroTy) (k : CroTy → CRes CroTy) : CRes CroTy :=
  match r with
  | .error e => .errs e
  | .ok t => k t

/-- Chain one `CRes` computation into another (the `?` operator on a nested
`key_of` call). -/
def bindRes (r : CRes CroTy) (k : CroTy → CRes CroTy) : CRes CroTy :=
  match r with
  | .panics => .panics
  | .fuelOut => .fuelOut
  | .errs e => .errs e
  | .ok t => k t

/-- `key_of` of `crochet_infer/src/key_of.rs`, with explicit recursion fuel
(the source recurses through unboundedly expandable context lookups).  All
`todo!()` arms (`Index` object elements, `App`, `Union`, `Rest`, `This`)
produce `panics`. -/
def key_of (fuel : Nat) (t : CroTy) (ctx : CroCtx) : CRes CroTy :=
  match fuel with
  | 0 => .fuelOut
  | fuel + 1 =>
    match t with
    | .var _ => .errs "There isn't a way to infer a type from its keys"
    | .ref name typeArgs =>
      bindLookup (ctx.lookupAlias name typeArgs) fun t => key_of fuel t ctx
    | .object elems =>
      match collectKeys elems with
      | none => .panics
      | some keys => .ok (union_many_types keys)
    | .prim p =>
      let name := match p with
        | .num => "Number"
        | .bool => "Boolean"
        | .str => "String"
      bindLookup (ctx.lookupInst name) fun t => key_of fuel t ctx
    | .lit l =>
      let name := match l with
        | .num _ => "Number"
        | .bool _ => "Boolean"
        | .str _ => "String"
      bindLookup (ctx.lookupInst name) fun t => key_of fuel t ctx
    | .tuple ts =>
      let idxLits := (List.range ts.length).map fun i => CroTy.lit (.num (toString i))
      bindLookup (ctx.lookupInst "ReadonlyArray") fun ra =>
        bindRes (key_of fuel ra ctx) fun k =>
          .ok (union_many_types (idxLits ++ [k]))
    | .array _ =>
      bindLookup (ctx.lookupInst "ReadonlyArray") fun ra =>
        bindRes (key_of fuel ra ctx) fun k =>
          .ok (union_many_types [.prim .num, k])
    | .lam _ _ =>
      bindLookup (ctx.lookupInst "Function") fun t => key_of fuel t ctx
    | .app _ _ => .panics
    | .keyword .null => .ok (.keyword .never)
    | .keyword .symbol =>
      bindLookup (ctx.lookupInst "Symbol") fun t => key_of fuel t ctx
    | .keyword .undefined => .ok (.keyword .never)
    | .keyword .never => .ok (.keyword .never)
    | .union _ => .panics
    | .intersection elems =>
      match key_of_list (fun t => key_of fuel t ctx) elems with
      | .panics => .panics
      | .fuelOut => .fuelOut
      | .errs e => .errs e
      | .ok ks => .ok (union_many_types ks)
    | .rest _ => .panics
    | .this => .panics
    | .keyOf t =>
      bindRes (key_of fuel t ctx) fun k => key_of fuel k ctx

/-- Whether an object's element list contains no index signature (the case in
which `key_of` does not hit the `Index` `todo!()`). -/
def noIndex (elems : List CObjElem) : Bool :=
  elems.all fun e =>
    match e with
    | .index _ _ _ => false
    | _ => true

/-- The string-literal types of an object's property names, in order (the
`filter_map` of the `Object` arm of `key_of`). -/
def propNameLits (elems : List CObjElem) : List CroTy :=
  elems.filterMap fun e =>
    match e with
    | .prop name _ _ _ => some (CroTy.lit (.str name))
    | _ => none

/-- The object type of the end-to-end `keyof` scenario:
`type t = {x: number, y: number}`. -/
def exObjC1 : CroTy :=
  .object [.prop "x" false false (.prim .num), .prop "y" false false (.prim .num)]

/-- A context binding the alias `t` to `exObjC1` (the context produced by
inferring `type t = {x: number, y: number};`). -/
def exCtxC1 : CroCtx where
  lookupAlias := fun name _ => if name = "t" then .ok exObjC1 else .error "unknown alias"
  lookupInst := fun _ => .error "unknown type"

mutual
/-- The `Display` rendering of a `crochet_types` type, following the `impl
fmt::Display for Type` of `crochet_types/src/type.rs`: unions and
intersections sort their members' rendered strings before joining. -/
def croFmt : CroTy → String
  | .var id => "t" ++ toString id
  | .ref name typeArgs =>
    match typeArgs with
    | some args => name ++ "<" ++ joinSep (croFmtList args) ", " ++ ">"
    | none => name
  | .object elems => "\x7b" ++ joinSep (croFmtElems elems) ", " ++ "\x7d"
  | .prim p =>
    match p with
    | .num => "number"
    | .bool => "boolean"
    | .str => "string"
  | .lit l =>
    match l with
    | .num s => s
    | .bool b => if b then "true" else "false"
    | .str s => "\"" ++ s ++ "\""
  | .tuple ts => "[" ++ joinSep (croFmtList ts) ", " ++ "]"
  | .array t => croFmt t ++ "[]"
  | .lam params ret =>
    "(" ++ joinSep (croFmtParams params) ", " ++ ") => " ++ croFmt ret
  | .app args ret => "(" ++ joinSep (croFmtList args) ", " ++ ") => " ++ croFmt ret
  | .keyword k =>
    match k with
    | .null => "null"
    | .symbol => "symbol"
    | .undefined => "undefined"
    | .never => "never"
  | .union ts => joinSep (sortStrings (croFmtList ts)) " | "
  | .intersection ts => joinSep (sortStrings (croFmtList ts)) " & "
  | .rest t => "..." ++ croFmt t
  | .this => "this"
  | .keyOf t => "keyof " ++ croFmt t
termination_by structural t => t

def croFmtList : List CroTy → List String
  | [] => []
  | t :: ts => croFmt t :: croFmtList ts
termination_by structural ts => ts

def croFmtElems : List CObjElem → List String
  | [] => []
  | .call params ret :: rest =>
    ("(" ++ joinSep (croFmtParams params) ", " ++ ") => " ++ croFmt ret) :: croFmtElems rest
  | .constructor params ret :: rest =>
    ("new (" ++ joinSep (croFmtParams params) ", " ++ ") => " ++ croFmt ret) :: croFmtElems rest
  | .index key m t :: rest =>
    ((if m then "mut " else "") ++ "[" ++ croFmtParam key ++ "]: " ++ croFmt t) :: croFmtElems rest
  | .prop name opt m t :: rest =>
    ((if m then "mut " else "") ++ name ++ (if opt then "?" else "") ++ ": " ++ croFmt t)
      :: croFmtElems rest
termination_by structural es => es

def croFmtParams : List CroFnParam → List String
  | [] => []
  | p :: ps => croFmtParam p :: croFmtParams ps
termination_by structural ps => ps

def croFmtParam : CroFnParam → String
  | .mk pat ty optional => croFmtPat pat ++ (if optional then "?" else "") ++ ": " ++ croFmt ty
termination_by structural p => p

def croFmtPat : CroTPat → String
  | .ident name m => (if m then "mut " else "") ++ name
  | .rest arg => "..." ++ croFmtPat arg
  | .array elems => "[" ++ joinSep (croFmtOptPats elems) ", " ++ "]"
  | .object props => "\x7b" ++ joinSep (croFmtPatProps props) ", " ++ "\x7d"
termination_by structural p => p

def croFmtOptPats : List (Option CroTPat) → List String
  | [] => []
  | none :: rest => " " :: croFmtOptPats rest
  | some p :: rest => croFmtPat p :: croFmtOptPats rest
termination_by structural ps => ps

def croFmtPatProps : List CroPatProp → List String
  | [] => []
  | .keyValue key value :: rest => (key ++ ": " ++ croFmtPat value) :: croFmtPatProps rest
  | .assign key none :: rest => key :: croFmtPatProps rest
  | .assign key (some v) :: rest => (key ++ " = " ++ croFmt v) :: croFmtPatProps rest
  | .restProp arg :: rest => ("..." ++ croFmtPat arg) :: croFmtPatProps rest
termination_by structural ps => ps
end

end Crochet

namespace Esc

/-- Keyword types of `escalier_ast` (`TKeyword`); `union_many_types` uses
`Number`, `Boolean`, `String` and `Never`, `get_property_type` uses
`Undefined`. -/
inductive TKeyword where
  | number
  | boolean
  | string
  | null
  | undefined
  | symbol
  | never
  | unknown
  deriving DecidableEq, Repr

/-- Literal types of `escalier_ast` (`TLit`): the match in `union_many_types`
covers exactly `Num` (lexeme string), `Bool`, `Str`. -/
inductive TLit where
  | num (s : String)
  | bool (b : Bool)
  | str (s : String)
  deriving DecidableEq, Repr

/-- Property keys (`TPropKey`): `StringKey` or `NumberKey`. -/
inductive TPropKey where
  | stringKey (s : String)
  | numberKey (s : String)
  deriving DecidableEq, Repr

/-- Mapped-type modifiers (`+`/`-` on `?` and `mut`), carried opaquely by the
functions embedded here. -/
inductive TMappedModifier where
  | add
  | remove
  deriving DecidableEq, Repr

mutual
/-- The `escalier_ast` `Type` struct: a `TypeKind` plus the `mutable` flag.
The diagnostic-only `provenance` field is omitted (the embedded functions
thread it through unchanged and never branch on it). -/
inductive Ty where
  | mk (kind : TypeKind) (mutable : Bool)

/-- The `escalier_ast` `TypeKind` enum, with the variants matched by
`escalier_infer/src/util.rs` (`norm_type` matches all of them). -/
inductive TypeKind where
  | var (id : Int) (constraint : Option Ty)
  | app (args : List Ty) (ret : Ty) (typeArgs : Option (List Ty))
  | lam (typeParams : Option (List TypeParam)) (params : List TFnParam) (ret : Ty)
  | lit (l : TLit)
  | keyword (k : TKeyword)
  | union (ts : List Ty)
  | intersection (ts : List Ty)
  | object (elems : List TObjElem) (isInterface : Bool)
  | ref (name : String) (typeArgs : Option (List Ty))
  | tuple (ts : List Ty)
  | array (t : Ty)
  | rest (t : Ty)
  | this
  | keyOf (t : Ty)
  | indexAccess (obj : Ty) (index : Ty)
  | mappedType (t : Ty) (typeParam : TypeParam) (optional : Option TMappedModifier)
      (mutable : Option TMappedModifier)
  | conditionalType (checkType : Ty) (extendsType : Ty) (trueType : Ty) (falseType : Ty)
  | inferType (name : String)

/-- Type parameters (`TypeParam {name, constraint, default}`). -/
inductive TypeParam where
  | mk (name : String) (constraint : Option Ty) (default : Option Ty)

/-- Function parameters (`TFnParam {pat, t, optional}`). -/
inductive TFnParam where
  | mk (pat : TPat) (t : Ty) (optional : Bool)

/-- Type-level patterns (`escalier_ast` `TPat`), as produced by
`pattern_to_tpat` in `escalier_old_infer/src/infer_fn_param.rs`. -/
inductive TPat where
  | ident (name : String) (mutable : Bool)
  | rest (arg : TPat)
  | array (elems : List (Option TPat))
  | object (props : List TObjectPatProp)

/-- Object-pattern properties (`TObjectPatProp`). -/
inductive TObjectPatProp where
  | keyValue (key : String) (value : TPat)
  | assign (key : String) (value : Option Ty)
  | restProp (arg : TPat)

/-- Object-type elements (`TObjElem`), as matched by `norm_type`,
`simplify_intersection` and `immutable_obj_type`. -/
inductive TObjElem where
  | call (typeParams : Option (List TypeParam)) (params : List TFnParam) (ret : Ty)
  | constructor (typeParams : Option (List TypeParam)) (params : List TFnParam) (ret : Ty)
  | index (key : TFnParam) (mutable : Bool) (t : Ty)
  | prop (name : TPropKey) (optional : Bool) (mutable : Bool) (t : Ty)
  | method (name : TPropKey) (typeParams : Option (List TypeParam)) (params : List TFnParam)
      (ret : Ty) (isMutating : Bool)
  | getter (name : TPropKey) (ret : Ty)
  | setter (name : TPropKey) (param : TFnParam)
end

/-- The `kind` accessor of `Ty`. -/
def Ty.kind : Ty → TypeKind
  | .mk k _ => k

/-- The `mutable` flag accessor of `Ty`. -/
def Ty.mutableFlag : Ty → Bool
  | .mk _ m => m

/-- `Type::from(kind)`: a type with the given kind and default flags. -/
def Ty.from (k : TypeKind) : Ty := .mk k false

mutual
def dTy : (a b : Ty) → Decidable (a = b)
  | .mk x0 x1, .mk y0 y1 =>
    match dTypeKind x0 y0, decEq x1 y1 with
    | isTrue h0, isTrue h1 => isTrue (by rw [h0, h1])
    | isFalse h0, _ => isFalse (by intro hh; cases hh; exact h0 rfl)
    | _, isFalse h1 => isFalse (by intro hh; cases hh; exact h1 rfl)
termination_by structural a _ => a

def dTypeKind : (a b : TypeKind) → Decidable (a = b)
  | .var x0 x1, .var y0 y1 =>
    match decEq x0 y0, dOptTy x1 y1 with
    | isTrue h0, isTrue h1 => isTrue (by rw [h0, h1])
    | isFalse h0, _ => isFalse (by intro hh; cases hh; exact h0 rfl)
    | _, isFalse h1 => isFalse (by intro hh; cases hh; exact h1 rfl)
  | .app x0 x1 x2, .app y0 y1 y2 =>
    match dListTy x0 y0, dTy x1 y1, dOptListTy x2 y2 with
    | isTrue h0, isTrue h1, isTrue h2 => isTrue (by rw [h0, h1, h2])
    | isFalse h0, _, _ => isFalse (by intro hh; cases hh; exact h0 rfl)
    | _, isFalse h1, _ => isFalse (by intro hh; cases hh; exact h1 rfl)
    | _, _, isFalse h2 => isFalse (by intro hh; cases hh; exact h2 rfl)
  | .lam x0 x1 x2, .lam y0 y1 y2 =>
    match dOptListTypeParam x0 y0, dListTFnParam x1 y1, dTy x2 y2 with
    | isTrue h0, isTrue h1, isTrue h2 => isTrue (by rw [h0, h1, h2])
    | isFalse h0, _, _ => isFalse (by intro hh; cases hh; exact h0 rfl)
    | _, isFalse h1, _ => isFalse (by intro hh; cases hh; exact h1 rfl)
    | _, _, isFalse h2 => isFalse (by intro hh; cases hh; exact h2 rfl)
  | .lit x0, .lit y0 =>
    match decEq x0 y0 with
    | isTrue h0 => isTrue (by rw [h0])
    | isFalse h0 => isFalse (by intro hh; cases hh; exact h0 rfl)
  | .keyword x0, .keyword y0 =>
    match decEq x0 y0 with
    | isTrue h0 => isTrue (by rw [h0])
    | isFalse h0 => isFalse (by intro hh; cases hh; exact h0 rfl)
  | .union x0, .union y0 =>
    match dListTy x0 y0 with
    | isTrue h0 => isTrue (by rw [h0])
    | isFalse h0 => isFalse (by intro hh; cases hh; exact h0 rfl)
  | .intersection x0, .intersection y0 =>
    match dListTy x0 y0 with
    | isTrue h0 => isTrue (by rw [h0])
    | isFalse h0 => isFalse (by intro hh; cases hh; exact h0 rfl)
  | .object x0 x1, .object y0 y1 =>
    match dListTObjElem x0 y0, decEq x1 y1 with
    | isTrue h0, isTrue h1 => isTrue (by rw [h0, h1])
    | isFalse h0, _ => isFalse (by intro hh; cases hh; exact h0 rfl)
    | _, isFalse h1 => isFalse (by intro hh; cases hh; exact h1 rfl)
  | .ref x0 x1, .ref y0 y1 =>
    match decEq x0 y0, dOptListTy x1 y1 with
    | isTrue h0, isTrue h1 => isTrue (by rw [h0, h1])
    | isFalse h0, _ => isFalse (by intro hh; cases hh; exact h0 rfl)
    | _, isFalse h1 => isFalse (by intro hh; cases hh; exact h1 rfl)
  | .tuple x0, .tuple y0 =>
    match dListTy x0 y0 with
    | isTrue h0 => isTrue (by rw [h0])
    | isFalse h0 => isFalse (by intro hh; cases hh; exact h0 rfl)
  | .array x0, .array y0 =>
    match dTy x0 y0 with
    | isTrue h0 => isTrue (by rw [h0])
    | isFalse h0 => isFalse (by intro hh; cases hh; exact h0 rfl)
  | .rest x0, .rest y0 =>
    match dTy x0 y0 with
    | isTrue h0 => isTrue (by rw [h0])
    | isFalse h0 => isFalse (by intro hh; cases hh; exact h0 rfl)
  | .this, .this => isTrue rfl
  | .keyOf x0, .keyOf y0 =>
    match dTy x0 y0 with
    | isTrue h0 => isTrue (by rw [h0])
    | isFalse h0 => isFalse (by intro hh; cases hh; exact h0 rfl)
  | .indexAccess x0 x1, .indexAccess y0 y1 =>
    match dTy x0 y0, dTy x1 y1 with
    | isTrue h0, isTrue h1 => isTrue (by rw [h0, h1])
    | isFalse h0, _ => isFalse (by intro hh; cases hh; exact h0 rfl)
    | _, isFalse h1 => isFalse (by intro hh; cases hh; exact h1 rfl)
  | .mappedType x0 x1 x2 x3, .mappedType y0 y1 y2 y3 =>
    match dTy x0 y0, dTypeParam x1 y1, decEq x2 y2, decEq x3 y3 with
    | isTrue h0, isTrue h1, isTrue h2, isTrue h3 => isTrue (by rw [h0, h1, h2, h3])
    | isFalse h0, _, _, _ => isFalse (by intro hh; cases hh; exact h0 rfl)
    | _, isFalse h1, _, _ => isFalse (by intro hh; cases hh; exact h1 rfl)
    | _, _, isFalse h2, _ => isFalse (by intro hh; cases hh; exact h2 rfl)
    | _, _, _, isFalse h3 => isFalse (by intro hh; cases hh; exact h3 rfl)
  | .conditionalType x0 x1 x2 x3, .conditionalType y0 y1 y2 y3 =>
    match dTy x0 y0, dTy x1 y1, dTy x2 y2, dTy x3 y3 with
    | isTrue h0, isTrue h1, isTrue h2, isTrue h3 => isTrue (by rw [h0, h1, h2, h3])
    | isFalse h0, _, _, _ => isFalse (by intro hh; cases hh; exact h0 rfl)
    | _, isFalse h1, _, _ => isFalse (by intro hh; cases hh; exact h1 rfl)
    | _, _, isFalse h2, _ => isFalse (by intro hh; cases hh; exact h2 rfl)
    | _, _, _, isFalse h3 => isFalse (by intro hh; cases hh; exact h3 rfl)
  | .inferType x0, .inferType y0 =>
    match decEq x0 y0 with
    | isTrue h0 => isTrue (by rw [h0])
    | isFalse h0 => isFalse (by intro hh; cases hh; exact h0 rfl)
  | .var _ _, .app _ _ _ => isFalse (by intro hh; cases hh)
  | .var _ _, .lam _ _ _ => isFalse (by intro hh; cases hh)
  | .var _ _, .lit _ => isFalse (by intro hh; cases hh)
  | .var _ _, .keyword _ => isFalse (by intro hh; cases hh)
  | .var _ _, .union _ => isFalse (by intro hh; cases hh)
  | .var _ _, .intersection _ => isFalse (by intro hh; cases hh)
  | .var _ _, .object _ _ => isFalse (by intro hh; cases hh)
  | .var _ _, .ref _ _ => isFalse (by intro hh; cases hh)
  | .var _ _, .tuple _ => isFalse (by intro hh; cases hh)
  | .var _ _, .array _ => isFalse (by intro hh; cases hh)
  | .var _ _, .rest _ => isFalse (by intro hh; cases hh)
  | .var _ _, .this => isFalse (by intro hh; cases hh)
  | .var _ _, .keyOf _ => isFalse (by intro hh; cases hh)
  | .var _ _, .indexAccess _ _ => isFalse (by intro hh; cases hh)
  | .var _ _, .mappedType _ _ _ _ => isFalse (by intro hh; cases hh)
  | .var _ _, .conditionalType _ _ _ _ => isFalse (by intro hh; cases hh)
  | .var _ _, .inferType _ => isFalse (by intro hh; cases hh)
  | .app _ _ _, .var _ _ => isFalse (by intro hh; cases hh)
  | .app _ _ _, .lam _ _ _ => isFalse (by intro hh; cases hh)
  | .app _ _ _, .lit _ => isFalse (by intro hh; cases hh)
  | .app _ _ _, .keyword _ => isFalse (by intro hh; cases hh)
  | .app _ _ _, .union _ => isFalse (by intro hh; cases hh)
  | .app _ _ _, .intersection _ => isFalse (by intro hh; cases hh)
  | .app _ _ _, .object _ _ => isFalse (by intro hh; cases hh)
  | .app _ _ _, .ref _ _ => isFalse (by intro hh; cases hh)
  | .app _ _ _, .tuple _ => isFalse (by intro hh; cases hh)
  | .app _ _ _, .array _ => isFalse (by intro hh; cases hh)
  | .app _ _ _, .rest _ => isFalse (by intro hh; cases hh)
  | .app _ _ _, .this => isFalse (by intro hh; cases hh)
  | .app _ _ _, .keyOf _ => isFalse (by intro hh; cases hh)
  | .app _ _ _, .indexAccess _ _ => isFalse (by intro hh; cases hh)
  | .app _ _ _, .mappedType _ _ _ _ => isFalse (by intro hh; cases hh)
  | .app _ _ _, .conditionalType _ _ _ _ => isFalse (by intro hh; cases hh)
  | .app _ _ _, .inferType _ => isFalse (by intro hh; cases hh)
  | .lam _ _ _, .var _ _ => isFalse (by intro hh; cases hh)
  | .lam _ _ _, .app _ _ _ => isFalse (by intro hh; cases hh)
  | .lam _ _ _, .lit _ => isFalse (by intro hh; cases hh)
  | .lam _ _ _, .keyword _ => isFalse (by intro hh; cases hh)
  | .lam _ _ _, .union _ => isFalse (by intro hh; cases hh)
  | .lam _ _ _, .intersection _ => isFalse (by intro hh; cases hh)
  | .lam _ _ _, .object _ _ => isFalse (by intro hh; cases hh)
  | .lam _ _ _, .ref _ _ => isFalse (by intro hh; cases hh)
  | .lam _ _ _, .tuple _ => isFalse (by intro hh; cases hh)
  | .lam _ _ _, .array _ => isFalse (by intro hh; cases hh)
  | .lam _ _ _, .rest _ => isFalse (by intro hh; cases hh)
  | .lam _ _ _, .this => isFalse (by intro hh; cases hh)
  | .lam _ _ _, .keyOf _ => isFalse (by intro hh; cases hh)
  | .lam _ _ _, .indexAccess _ _ => isFalse (by intro hh; cases hh)
  | .lam _ _ _, .mappedType _ _ _ _ => isFalse (by intro hh; cases hh)
  | .lam _ _ _, .conditionalType _ _ _ _ => isFalse (by intro hh; cases hh)
  | .lam _ _ _, .inferType _ => isFalse (by intro hh; cases hh)
  | .lit _, .var _ _ => isFalse (by intro hh; cases hh)
  | .lit _, .app _ _ _ => isFalse (by intro hh; cases hh)
  | .lit _, .lam _ _ _ => isFalse (by intro hh; cases hh)
  | .lit _, .keyword _ => isFalse (by intro hh; cases hh)
  | .lit _, .union _ => isFalse (by intro hh; cases hh)
  | .lit _, .intersection _ => isFalse (by intro hh; cases hh)
  | .lit _, .object _ _ => isFalse (by intro hh; cases hh)
  | .lit _, .ref _ _ => isFalse (by intro hh; cases hh)
  | .lit _, .tuple _ => isFalse (by intro hh; cases hh)
  | .lit _, .array _ => isFalse (by intro hh; cases hh)
  | .lit _, .rest _ => isFalse (by intro hh; cases hh)
  | .lit _, .this => isFalse (by intro hh; cases hh)
  | .lit _, .keyOf _ => isFalse (by intro hh; cases hh)
  | .lit _, .indexAccess _ _ => isFalse (by intro hh; cases hh)
  | .lit _, .mappedType _ _ _ _ => isFalse (by intro hh; cases hh)
  | .lit _, .conditionalType _ _ _ _ => isFalse (by intro hh; cases hh)
  | .lit _, .inferType _ => isFalse (by intro hh; cases hh)
  | .keyword _, .var _ _ => isFalse (by intro hh; cases hh)
  | .keyword _, .app _ _ _ => isFalse (by intro hh; cases hh)
  | .keyword _, .lam _ _ _ => isFalse (by intro hh; cases hh)
  | .keyword _, .lit _ => isFalse (by intro hh; cases hh)
  | .keyword _, .union _ => isFalse (by intro hh; cases hh)
  | .keyword _, .intersection _ => isFalse (by intro hh; cases hh)
  | .keyword _, .object _ _ => isFalse (by intro hh; cases hh)
  | .keyword _, .ref _ _ => isFalse (by intro hh; cases hh)
  | .keyword _, .tuple _ => isFalse (by intro hh; cases hh)
  | .keyword _, .array _ => isFalse (by intro hh; cases hh)
  | .keyword _, .rest _ => isFalse (by intro hh; cases hh)
  | .keyword _, .this => isFalse (by intro hh; cases hh)
  | .keyword _, .keyOf _ => isFalse (by intro hh; cases hh)
  | .keyword _, .indexAccess _ _ => isFalse (by intro hh; cases hh)
  | .keyword _, .mappedType _ _ _ _ => isFalse (by intro hh; cases hh)
  | .keyword _, .conditionalType _ _ _ _ => isFalse (by intro hh; cases hh)
  | .keyword _, .inferType _ => isFalse (by intro hh; cases hh)
  | .union _, .var _ _ => isFalse (by intro hh; cases hh)
  | .union _, .app _ _ _ => isFalse (by intro hh; cases hh)
  | .union _, .lam _ _ _ => isFalse (by intro hh; cases hh)
  | .union _, .lit _ => isFalse (by intro hh; cases hh)
  | .union _, .keyword _ => isFalse (by intro hh; cases hh)
  | .union _, .intersection _ => isFalse (by intro hh; cases hh)
  | .union _, .object _ _ => isFalse (by intro hh; cases hh)
  | .union _, .ref _ _ => isFalse (by intro hh; cases hh)
  | .union _, .tuple _ => isFalse (by intro hh; cases hh)
  | .union _, .array _ => isFalse (by intro hh; cases hh)
  | .union _, .rest _ => isFalse (by intro hh; cases hh)
  | .union _, .this => isFalse (by intro hh; cases hh)
  | .union _, .keyOf _ => isFalse (by intro hh; cases hh)
  | .union _, .indexAccess _ _ => isFalse (by intro hh; cases hh)
  | .union _, .mappedType _ _ _ _ => isFalse (by intro hh; cases hh)
  | .union _, .conditionalType _ _ _ _ => isFalse (by intro hh; cases hh)
  | .union _, .inferType _ => isFalse (by intro hh; cases hh)
  | .intersection _, .var _ _ => isFalse (by intro hh; cases hh)
  | .intersection _, .app _ _ _ => isFalse (by intro hh; cases hh)
  | .intersection _, .lam _ _ _ => isFalse (by intro hh; cases hh)
  | .intersection _, .lit _ => isFalse (by intro hh; cases hh)
  | .intersection _, .keyword _ => isFalse (by intro hh; cases hh)
  | .intersection _, .union _ => isFalse (by intro hh; cases hh)
  | .intersection _, .object _ _ => isFalse (by intro hh; cases hh)
  | .intersection _, .ref _ _ => isFalse (by intro hh; cases hh)
  | .intersection _, .tuple _ => isFalse (by intro hh; cases hh)
  | .intersection _, .array _ => isFalse (by intro hh; cases hh)
  | .intersection _, .rest _ => isFalse (by intro hh; cases hh)
  | .intersection _, .this => isFalse (by intro hh; cases hh)
  | .intersection _, .keyOf _ => isFalse (by intro hh; cases hh)
  | .intersection _, .indexAccess _ _ => isFalse (by intro hh; cases hh)
  | .intersection _, .mappedType _ _ _ _ => isFalse (by intro hh; cases hh)
  | .intersection _, .conditionalType _ _ _ _ => isFalse (by intro hh; cases hh)
  | .intersection _, .inferType _ => isFalse (by intro hh; cases hh)
  | .object _ _, .var _ _ => isFalse (by intro hh; cases hh)
  | .object _ _, .app _ _ _ => isFalse (by intro hh; cases hh)
  | .object _ _, .lam _ _ _ => isFalse (by intro hh; cases hh)
  | .object _ _, .lit _ => isFalse (by intro hh; cases hh)
  | .object _ _, .keyword _ => isFalse (by intro hh; cases hh)
  | .object _ _, .union _ => isFalse (by intro hh; cases hh)
  | .object _ _, .intersection _ => isFalse (by intro hh; cases hh)
  | .object _ _, .ref _ _ => isFalse (by intro hh; cases hh)
  | .object _ _, .tuple _ => isFalse (by intro hh; cases hh)
  | .object _ _, .array _ => isFalse (by intro hh; cases hh)
  | .object _ _, .rest _ => isFalse (by intro hh; cases hh)
  | .object _ _, .this => isFalse (by intro hh; cases hh)
  | .object _ _, .keyOf _ => isFalse (by intro hh; cases hh)
  | .object _ _, .indexAccess _ _ => isFalse (by intro hh; cases hh)
  | .object _ _, .mappedType _ _ _ _ => isFalse (by intro hh; cases hh)
  | .object _ _, .conditionalType _ _ _ _ => isFalse (by intro hh; cases hh)
  | .object _ _, .inferType _ => isFalse (by intro hh; cases hh)
  | .ref _ _, .var _ _ => isFalse (by intro hh; cases hh)
  | .ref _ _, .app _ _ _ => isFalse (by intro hh; cases hh)
  | .ref _ _, .lam _ _ _ => isFalse (by intro hh; cases hh)
  | .ref _ _, .lit _ => isFalse (by intro hh; cases hh)
  | .ref _ _, .keyword _ => isFalse (by intro hh; cases hh)
  | .ref _ _, .union _ => isFalse (by intro hh; cases hh)
  | .ref _ _, .intersection _ => isFalse (by intro hh; cases hh)
  | .ref _ _, .object _ _ => isFalse (by intro hh; cases hh)
  | .ref _ _, .tuple _ => isFalse (by intro hh; cases hh)
  | .ref _ _, .array _ => isFalse (by intro hh; cases hh)
  | .ref _ _, .rest _ => isFalse (by intro hh; cases hh)
  | .ref _ _, .this => isFalse (by intro hh; cases hh)
  | .ref _ _, .keyOf _ => isFalse (by intro hh; cases hh)
  | .ref _ _, .indexAccess _ _ => isFalse (by intro hh; cases hh)
  | .ref _ _, .mappedType _ _ _ _ => isFalse (by intro hh; cases hh)
  | .ref _ _, .conditionalType _ _ _ _ => isFalse (by intro hh; cases hh)
  | .ref _ _, .inferType _ => isFalse (by intro hh; cases hh)
  | .tuple _, .var _ _ => isFalse (by intro hh; cases hh)
  | .tuple _, .app _ _ _ => isFalse (by intro hh; cases hh)
  | .tuple _, .lam _ _ _ => isFalse (by intro hh; cases hh)
  | .tuple _, .lit _ => isFalse (by intro hh; cases hh)
  | .tuple _, .keyword _ => isFalse (by intro hh; cases hh)
  | .tuple _, .union _ => isFalse (by intro hh; cases hh)
  | .tuple _, .intersection _ => isFalse (by intro hh; cases hh)
  | .tuple _, .object _ _ => isFalse (by intro hh; cases hh)
  | .tuple _, .ref _ _ => isFalse (by intro hh; cases hh)
  | .tuple _, .array _ => isFalse (by intro hh; cases hh)
  | .tuple _, .rest _ => isFalse (by intro hh; cases hh)
  | .tuple _, .this => isFalse (by intro hh; cases hh)
  | .tuple _, .keyOf _ => isFalse (by intro hh; cases hh)
  | .tuple _, .indexAccess _ _ => isFalse (by intro hh; cases hh)
  | .tuple _, .mappedType _ _ _ _ => isFalse (by intro hh; cases hh)
  | .tuple _, .conditionalType _ _ _ _ => isFalse (by intro hh; cases hh)
  | .tuple _, .inferType _ => isFalse (by intro hh; cases hh)
  | .array _, .var _ _ => isFalse (by intro hh; cases hh)
  | .array _, .app _ _ _ => isFalse (by intro hh; cases hh)
  | .array _, .lam _ _ _ => isFalse (by intro hh; cases hh)
  | .array _, .lit _ => isFalse (by intro hh; cases hh)
  | .array _, .keyword _ => isFalse (by intro hh; cases hh)
  | .array _, .union _ => isFalse (by intro hh; cases hh)
  | .array _, .intersection _ => isFalse (by intro hh; cases hh)
  | .array _, .object _ _ => isFalse (by intro hh; cases hh)
  | .array _, .ref _ _ => isFalse (by intro hh; cases hh)
  | .array _, .tuple _ => isFalse (by intro hh; cases hh)
  | .array _, .rest _ => isFalse (by intro hh; cases hh)
  | .array _, .this => isFalse (by intro hh; cases hh)
  | .array _, .keyOf _ => isFalse (by intro hh; cases hh)
  | .array _, .indexAccess _ _ => isFalse (by intro hh; cases hh)
  | .array _, .mappedType _ _ _ _ => isFalse (by intro hh; cases hh)
  | .array _, .conditionalType _ _ _ _ => isFalse (by intro hh; cases hh)
  | .array _, .inferType _ => isFalse (by intro hh; cases hh)
  | .rest _, .var _ _ => isFalse (by intro hh; cases hh)
  | .rest _, .app _ _ _ => isFalse (by intro hh; cases hh)
  | .rest _, .lam _ _ _ => isFalse (by intro hh; cases hh)
  | .rest _, .lit _ => isFalse (by intro hh; cases hh)
  | .rest _, .keyword _ => isFalse (by intro hh; cases hh)
  | .rest _, .union _ => isFalse (by intro hh; cases hh)
  | .rest _, .intersection _ => isFalse (by intro hh; cases hh)
  | .rest _, .object _ _ => isFalse (by intro hh; cases hh)
  | .rest _, .ref _ _ => isFalse (by intro hh; cases hh)
  | .rest _, .tuple _ => isFalse (by intro hh; cases hh)
  | .rest _, .array _ => isFalse (by intro hh; cases hh)
  | .rest _, .this => isFalse (by intro hh; cases hh)
  | .rest _, .keyOf _ => isFalse (by intro hh; cases hh)
  | .rest _, .indexAccess _ _ => isFalse (by intro hh; cases hh)
  | .rest _, .mappedType _ _ _ _ => isFalse (by intro hh; cases hh)
  | .rest _, .conditionalType _ _ _ _ => isFalse (by intro hh; cases hh)
  | .rest _, .inferType _ => isFalse (by intro hh; cases hh)
  | .this, .var _ _ => isFalse (by intro hh; cases hh)
  | .this, .app _ _ _ => isFalse (by intro hh; cases hh)
  | .this, .lam _ _ _ => isFalse (by intro hh; cases hh)
  | .this, .lit _ => isFalse (by intro hh; cases hh)
  | .this, .keyword _ => isFalse (by intro hh; cases hh)
  | .this, .union _ => isFalse (by intro hh; cases hh)
  | .this, .intersection _ => isFalse (by intro hh; cases hh)
  | .this, .object _ _ => isFalse (by intro hh; cases hh)
  | .this, .ref _ _ => isFalse (by intro hh; cases hh)
  | .this, .tuple _ => isFalse (by intro hh; cases hh)
  | .this, .array _ => isFalse (by intro hh; cases hh)
  | .this, .rest _ => isFalse (by intro hh; cases hh)
  | .this, .keyOf _ => isFalse (by intro hh; cases hh)
  | .this, .indexAccess _ _ => isFalse (by intro hh; cases hh)
  | .this, .mappedType _ _ _ _ => isFalse (by intro hh; cases hh)
  | .this, .conditionalType _ _ _ _ => isFalse (by intro hh; cases hh)
  | .this, .inferType _ => isFalse (by intro hh; cases hh)
  | .keyOf _, .var _ _ => isFalse (by intro hh; cases hh)
  | .keyOf _, .app _ _ _ => isFalse (by intro hh; cases hh)
  | .keyOf _, .lam _ _ _ => isFalse (by intro hh; cases hh)
  | .keyOf _, .lit _ => isFalse (by intro hh; cases hh)
  | .keyOf _, .keyword _ => isFalse (by intro hh; cases hh)
  | .keyOf _, .union _ => isFalse (by intro hh; cases hh)
  | .keyOf _, .intersection _ => isFalse (by intro hh; cases hh)
  | .keyOf _, .object _ _ => isFalse (by intro hh; cases hh)
  | .keyOf _, .ref _ _ => isFalse (by intro hh; cases hh)
  | .keyOf _, .tuple _ => isFalse (by intro hh; cases hh)
  | .keyOf _, .array _ => isFalse (by intro hh; cases hh)
  | .keyOf _, .rest _ => isFalse (by intro hh; cases hh)
  | .keyOf _, .this => isFalse (by intro hh; cases hh)
  | .keyOf _, .indexAccess _ _ => isFalse (by intro hh; cases hh)
  | .keyOf _, .mappedType _ _ _ _ => isFalse (by intro hh; cases hh)
  | .keyOf _, .conditionalType _ _ _ _ => isFalse (by intro hh; cases hh)
  | .keyOf _, .inferType _ => isFalse (by intro hh; cases hh)
  | .indexAccess _ _, .var _ _ => isFalse (by intro hh; cases hh)
  | .indexAccess _ _, .app _ _ _ => isFalse (by intro hh; cases hh)
  | .indexAccess _ _, .lam _ _ _ => isFalse (by intro hh; cases hh)
  | .indexAccess _ _, .lit _ => isFalse (by intro hh; cases hh)
  | .indexAccess _ _, .keyword _ => isFalse (by intro hh; cases hh)
  | .indexAccess _ _, .union _ => isFalse (by intro hh; cases hh)
  | .indexAccess _ _, .intersection _ => isFalse (by intro hh; cases hh)
  | .indexAccess _ _, .object _ _ => isFalse (by intro hh; cases hh)
  | .indexAccess _ _, .ref _ _ => isFalse (by intro hh; cases hh)
  | .indexAccess _ _, .tuple _ => isFalse (by intro hh; cases hh)
  | .indexAccess _ _, .array _ => isFalse (by intro hh; cases hh)
  | .indexAccess _ _, .rest _ => isFalse (by intro hh; cases hh)
  | .indexAccess _ _, .this => isFalse (by intro hh; cases hh)
  | .indexAccess _ _, .keyOf _ => isFalse (by intro hh; cases hh)
  | .indexAccess _ _, .mappedType _ _ _ _ => isFalse (by intro hh; cases hh)
  | .indexAccess _ _, .conditionalType _ _ _ _ => isFalse (by intro hh; cases hh)
  | .indexAccess _ _, .inferType _ => isFalse (by intro hh; cases hh)
  | .mappedType _ _ _ _, .var _ _ => isFalse (by intro hh; cases hh)
  | .mappedType _ _ _ _, .app _ _ _ => isFalse (by intro hh; cases hh)
  | .mappedType _ _ _ _, .lam _ _ _ => isFalse (by intro hh; cases hh)
  | .mappedType _ _ _ _, .lit _ => isFalse (by intro hh; cases hh)
  | .mappedType _ _ _ _, .keyword _ => isFalse (by intro hh; cases hh)
  | .mappedType _ _ _ _, .union _ => isFalse (by intro hh; cases hh)
  | .mappedType _ _ _ _, .intersection _ => isFalse (by intro hh; cases hh)
  | .mappedType _ _ _ _, .object _ _ => isFalse (by intro hh; cases hh)
  | .mappedType _ _ _ _, .ref _ _ => isFalse (by intro hh; cases hh)
  | .mappedType _ _ _ _, .tuple _ => isFalse (by intro hh; cases hh)
  | .mappedType _ _ _ _, .array _ => isFalse (by intro hh; cases hh)
  | .mappedType _ _ _ _, .rest _ => isFalse (by intro hh; cases hh)
  | .mappedType _ _ _ _, .this => isFalse (by intro hh; cases hh)
  | .mappedType _ _ _ _, .keyOf _ => isFalse (by intro hh; cases hh)
  | .mappedType _ _ _ _, .indexAccess _ _ => isFalse (by intro hh; cases hh)
  | .mappedType _ _ _ _, .conditionalType _ _ _ _ => isFalse (by intro hh; cases hh)
  | .mappedType _ _ _ _, .inferType _ => isFalse (by intro hh; cases hh)
  | .conditionalType _ _ _ _, .var _ _ => isFalse (by intro hh; cases hh)
  | .conditionalType _ _ _ _, .app _ _ _ => isFalse (by intro hh; cases hh)
  | .conditionalType _ _ _ _, .lam _ _ _ => isFalse (by intro hh; cases hh)
  | .conditionalType _ _ _ _, .lit _ => isFalse (by intro hh; cases hh)
  | .conditionalType _ _ _ _, .keyword _ => isFalse (by intro hh; cases hh)
  | .conditionalType _ _ _ _, .union _ => isFalse (by intro hh; cases hh)
  | .conditionalType _ _ _ _, .intersection _ => isFalse (by intro hh; cases hh)
  | .conditionalType _ _ _ _, .object _ _ => isFalse (by intro hh; cases hh)
  | .conditionalType _ _ _ _, .ref _ _ => isFalse (by intro hh; cases hh)
  | .conditionalType _ _ _ _, .tuple _ => isFalse (by intro hh; cases hh)
  | .conditionalType _ _ _ _, .array _ => isFalse (by intro hh; cases hh)
  | .conditionalType _ _ _ _, .rest _ => isFalse (by intro hh; cases hh)
  | .conditionalType _ _ _ _, .this => isFalse (by intro hh; cases hh)
  | .conditionalType _ _ _ _, .keyOf _ => isFalse (by intro hh; cases hh)
  | .conditionalType _ _ _ _, .indexAccess _ _ => isFalse (by intro hh; cases hh)
  | .conditionalType _ _ _ _, .mappedType _ _ _ _ => isFalse (by intro hh; cases hh)
  | .conditionalType _ _ _ _, .inferType _ => isFalse (by intro hh; cases hh)
  | .inferType _, .var _ _ => isFalse (by intro hh; cases hh)
  | .inferType _, .app _ _ _ => isFalse (by intro hh; cases hh)
  | .inferType _, .lam _ _ _ => isFalse (by intro hh; cases hh)
  | .inferType _, .lit _ => isFalse (by intro hh; cases hh)
  | .inferType _, .keyword _ => isFalse (by intro hh; cases hh)
  | .inferType _, .union _ => isFalse (by intro hh; cases hh)
  | .inferType _, .intersection _ => isFalse (by intro hh; cases hh)
  | .inferType _, .object _ _ => isFalse (by intro hh; cases hh)
  | .inferType _, .ref _ _ => isFalse (by intro hh; cases hh)
  | .inferType _, .tuple _ => isFalse (by intro hh; cases hh)
  | .inferType _, .array _ => isFalse (by intro hh; cases hh)
  | .inferType _, .rest _ => isFalse (by intro hh; cases hh)
  | .inferType _, .this => isFalse (by intro hh; cases hh)
  | .inferType _, .keyOf _ => isFalse (by intro hh; cases hh)
  | .inferType _, .indexAccess _ _ => isFalse (by intro hh; cases hh)
  | .inferType _, .mappedType _ _ _ _ => isFalse (by intro hh; cases hh)
  | .inferType _, .conditionalType _ _ _ _ => isFalse (by intro hh; cases hh)
termination_by structural a _ => a

def dTypeParam : (a b : TypeParam) → Decidable (a = b)
  | .mk x0 x1 x2, .mk y0 y1 y2 =>
    match decEq x0 y0, dOptTy x1 y1, dOptTy x2 y2 with
    | isTrue h0, isTrue h1, isTrue h2 => isTrue (by rw [h0, h1, h2])
    | isFalse h0, _, _ => isFalse (by intro hh; cases hh; exact h0 rfl)
    | _, isFalse h1, _ => isFalse (by intro hh; cases hh; exact h1 rfl)
    | _, _, isFalse h2 => isFalse (by intro hh; cases hh; exact h2 rfl)
termination_by structural a _ => a

def dTFnParam : (a b : TFnParam) → Decidable (a = b)
  | .mk x0 x1 x2, .mk y0 y1 y2 =>
    match dTPat x0 y0, dTy x1 y1, decEq x2 y2 with
    | isTrue h0, isTrue h1, isTrue h2 => isTrue (by rw [h0, h1, h2])
    | isFalse h0, _, _ => isFalse (by intro hh; cases hh; exact h0 rfl)
    | _, isFalse h1, _ => isFalse (by intro hh; cases hh; exact h1 rfl)
    | _, _, isFalse h2 => isFalse (by intro hh; cases hh; exact h2 rfl)
termination_by structural a _ => a

def dTPat : (a b : TPat) → Decidable (a = b)
  | .ident x0 x1, .ident y0 y1 =>
    match decEq x0 y0, decEq x1 y1 with
    | isTrue h0, isTrue h1 => isTrue (by rw [h0, h1])
    | isFalse h0, _ => isFalse (by intro hh; cases hh; exact h0 rfl)
    | _, isFalse h1 => isFalse (by intro hh; cases hh; exact h1 rfl)
  | .rest x0, .rest y0 =>
    match dTPat x0 y0 with
    | isTrue h0 => isTrue (by rw [h0])
    | isFalse h0 => isFalse (by intro hh; cases hh; exact h0 rfl)
  | .array x0, .array y0 =>
    match dListOptTPat x0 y0 with
    | isTrue h0 => isTrue (by rw [h0])
    | isFalse h0 => isFalse (by intro hh; cases hh; exact h0 rfl)
  | .object x0, .object y0 =>
    match dListTObjectPatProp x0 y0 with
    | isTrue h0 => isTrue (by rw [h0])
    | isFalse h0 => isFalse (by intro hh; cases hh; exact h0 rfl)
  | .ident _ _, .rest _ => isFalse (by intro hh; cases hh)
  | .ident _ _, .array _ => isFalse (by intro hh; cases hh)
  | .ident _ _, .object _ => isFalse (by intro hh; cases hh)
  | .rest _, .ident _ _ => isFalse (by intro hh; cases hh)
  | .rest _, .array _ => isFalse (by intro hh; cases hh)
  | .rest _, .object _ => isFalse (by intro hh; cases hh)
  | .array _, .ident _ _ => isFalse (by intro hh; cases hh)
  | .array _, .rest _ => isFalse (by intro hh; cases hh)
  | .array _, .object _ => isFalse (by intro hh; cases hh)
  | .object _, .ident _ _ => isFalse (by intro hh; cases hh)
  | .object _, .rest _ => isFalse (by intro hh; cases hh)
  | .object _, .array _ => isFalse (by intro hh; cases hh)
termination_by structural a _ => a

def dTObjectPatProp : (a b : TObjectPatProp) → Decidable (a = b)
  | .keyValue x0 x1, .keyValue y0 y1 =>
    match decEq x0 y0, dTPat x1 y1 with
    | isTrue h0, isTrue h1 => isTrue (by rw [h0, h1])
    | isFalse h0, _ => isFalse (by intro hh; cases hh; exact h0 rfl)
    | _, isFalse h1 => isFalse (by intro hh; cases hh; exact h1 rfl)
  | .assign x0 x1, .assign y0 y1 =>
    match decEq x0 y0, dOptTy x1 y1 with
    | isTrue h0, isTrue h1 => isTrue (by rw [h0, h1])
    | isFalse h0, _ => isFalse (by intro hh; cases hh; exact h0 rfl)
    | _, isFalse h1 => isFalse (by intro hh; cases hh; exact h1 rfl)
  | .restProp x0, .restProp y0 =>
    match dTPat x0 y0 with
    | isTrue h0 => isTrue (by rw [h0])
    | isFalse h0 => isFalse (by intro hh; cases hh; exact h0 rfl)
  | .keyValue _ _, .assign _ _ => isFalse (by intro hh; cases hh)
  | .keyValue _ _, .restProp _ => isFalse (by intro hh; cases hh)
  | .assign _ _, .keyValue _ _ => isFalse (by intro hh; cases hh)
  | .assign _ _, .restProp _ => isFalse (by intro hh; cases hh)
  | .restProp _, .keyValue _ _ => isFalse (by intro hh; cases hh)
  | .restProp _, .assign _ _ => isFalse (by intro hh; cases hh)
termination_by structural a _ => a

def dTObjElem : (a b : TObjElem) → Decidable (a = b)
  | .call x0 x1 x2, .call y0 y1 y2 =>
    match dOptListTypeParam x0 y0, dListTFnParam x1 y1, dTy x2 y2 with
    | isTrue h0, isTrue h1, isTrue h2 => isTrue (by rw [h0, h1, h2])
    | isFalse h0, _, _ => isFalse (by intro hh; cases hh; exact h0 rfl)
    | _, isFalse h1, _ => isFalse (by intro hh; cases hh; exact h1 rfl)
    | _, _, isFalse h2 => isFalse (by intro hh; cases hh; exact h2 rfl)
  | .constructor x0 x1 x2, .constructor y0 y1 y2 =>
    match dOptListTypeParam x0 y0, dListTFnParam x1 y1, dTy x2 y2 with
    | isTrue h0, isTrue h1, isTrue h2 => isTrue (by rw [h0, h1, h2])
    | isFalse h0, _, _ => isFalse (by intro hh; cases hh; exact h0 rfl)
    | _, isFalse h1, _ => isFalse (by intro hh; cases hh; exact h1 rfl)
    | _, _, isFalse h2 => isFalse (by intro hh; cases hh; exact h2 rfl)
  | .index x0 x1 x2, .index y0 y1 y2 =>
    match dTFnParam x0 y0, decEq x1 y1, dTy x2 y2 with
    | isTrue h0, isTrue h1, isTrue h2 => isTrue (by rw [h0, h1, h2])
    | isFalse h0, _, _ => isFalse (by intro hh; cases hh; exact h0 rfl)
    | _, isFalse h1, _ => isFalse (by intro hh; cases hh; exact h1 rfl)
    | _, _, isFalse h2 => isFalse (by intro hh; cases hh; exact h2 rfl)
  | .prop x0 x1 x2 x3, .prop y0 y1 y2 y3 =>
    match decEq x0 y0, decEq x1 y1, decEq x2 y2, dTy x3 y3 with
    | isTrue h0, isTrue h1, isTrue h2, isTrue h3 => isTrue (by rw [h0, h1, h2, h3])
    | isFalse h0, _, _, _ => isFalse (by intro hh; cases hh; exact h0 rfl)
    | _, isFalse h1, _, _ => isFalse (by intro hh; cases hh; exact h1 rfl)
    | _, _, isFalse h2, _ => isFalse (by intro hh; cases hh; exact h2 rfl)
    | _, _, _, isFalse h3 => isFalse (by intro hh; cases hh; exact h3 rfl)
  | .method x0 x1 x2 x3 x4, .method y0 y1 y2 y3 y4 =>
    match decEq x0 y0, dOptListTypeParam x1 y1, dListTFnParam x2 y2, dTy x3 y3, decEq x4 y4 with
    | isTrue h0, isTrue h1, isTrue h2, isTrue h3, isTrue h4 => isTrue (by rw [h0, h1, h2, h3, h4])
    | isFalse h0, _, _, _, _ => isFalse (by intro hh; cases hh; exact h0 rfl)
    | _, isFalse h1, _, _, _ => isFalse (by intro hh; cases hh; exact h1 rfl)
    | _, _, isFalse h2, _, _ => isFalse (by intro hh; cases hh; exact h2 rfl)
    | _, _, _, isFalse h3, _ => isFalse (by intro hh; cases hh; exact h3 rfl)
    | _, _, _, _, isFalse h4 => isFalse (by intro hh; cases hh; exact h4 rfl)
  | .getter x0 x1, .getter y0 y1 =>
    match decEq x0 y0, dTy x1 y1 with
    | isTrue h0, isTrue h1 => isTrue (by rw [h0, h1])
    | isFalse h0, _ => isFalse (by intro hh; cases hh; exact h0 rfl)
    | _, isFalse h1 => isFalse (by intro hh; cases hh; exact h1 rfl)
  | .setter x0 x1, .setter y0 y1 =>
    match decEq x0 y0, dTFnParam x1 y1 with
    | isTrue h0, isTrue h1 => isTrue (by rw [h0, h1])
    | isFalse h0, _ => isFalse (by intro hh; cases hh; exact h0 rfl)
    | _, isFalse h1 => isFalse (by intro hh; cases hh; exact h1 rfl)
  | .call _ _ _, .constructor _ _ _ => isFalse (by intro hh; cases hh)
  | .call _ _ _, .index _ _ _ => isFalse (by intro hh; cases hh)
  | .call _ _ _, .prop _ _ _ _ => isFalse (by intro hh; cases hh)
  | .call _ _ _, .method _ _ _ _ _ => isFalse (by intro hh; cases hh)
  | .call _ _ _, .getter _ _ => isFalse (by intro hh; cases hh)
  | .call _ _ _, .setter _ _ => isFalse (by intro hh; cases hh)
  | .constructor _ _ _, .call _ _ _ => isFalse (by intro hh; cases hh)
  | .constructor _ _ _, .index _ _ _ => isFalse (by intro hh; cases hh)
  | .constructor _ _ _, .prop _ _ _ _ => isFalse (by intro hh; cases hh)
  | .constructor _ _ _, .method _ _ _ _ _ => isFalse (by intro hh; cases hh)
  | .constructor _ _ _, .getter _ _ => isFalse (by intro hh; cases hh)
  | .constructor _ _ _, .setter _ _ => isFalse (by intro hh; cases hh)
  | .index _ _ _, .call _ _ _ => isFalse (by intro hh; cases hh)
  | .index _ _ _, .constructor _ _ _ => isFalse (by intro hh; cases hh)
  | .index _ _ _, .prop _ _ _ _ => isFalse (by intro hh; cases hh)
  | .index _ _ _, .method _ _ _ _ _ => isFalse (by intro hh; cases hh)
  | .index _ _ _, .getter _ _ => isFalse (by intro hh; cases hh)
  | .index _ _ _, .setter _ _ => isFalse (by intro hh; cases hh)
  | .prop _ _ _ _, .call _ _ _ => isFalse (by intro hh; cases hh)
  | .prop _ _ _ _, .constructor _ _ _ => isFalse (by intro hh; cases hh)
  | .prop _ _ _ _, .index _ _ _ => isFalse (by intro hh; cases hh)
  | .prop _ _ _ _, .method _ _ _ _ _ => isFalse (by intro hh; cases hh)
  | .prop _ _ _ _, .getter _ _ => isFalse (by intro hh; cases hh)
  | .prop _ _ _ _, .setter _ _ => isFalse (by intro hh; cases hh)
  | .method _ _ _ _ _, .call _ _ _ => isFalse (by intro hh; cases hh)
  | .method _ _ _ _ _, .constructor _ _ _ => isFalse (by intro hh; cases hh)
  | .method _ _ _ _ _, .index _ _ _ => isFalse (by intro hh; cases hh)
  | .method _ _ _ _ _, .prop _ _ _ _ => isFalse (by intro hh; cases hh)
  | .method _ _ _ _ _, .getter _ _ => isFalse (by intro hh; cases hh)
  | .method _ _ _ _ _, .setter _ _ => isFalse (by intro hh; cases hh)
  | .getter _ _, .call _ _ _ => isFalse (by intro hh; cases hh)
  | .getter _ _, .constructor _ _ _ => isFalse (by intro hh; cases hh)
  | .getter _ _, .index _ _ _ => isFalse (by intro hh; cases hh)
  | .getter _ _, .prop _ _ _ _ => isFalse (by intro hh; cases hh)
  | .getter _ _, .method _ _ _ _ _ => isFalse (by intro hh; cases hh)
  | .getter _ _, .setter _ _ => isFalse (by intro hh; cases hh)
  | .setter _ _, .call _ _ _ => isFalse (by intro hh; cases hh)
  | .setter _ _, .constructor _ _ _ => isFalse (by intro hh; cases hh)
  | .setter _ _, .index _ _ _ => isFalse (by intro hh; cases hh)
  | .setter _ _, .prop _ _ _ _ => isFalse (by intro hh; cases hh)
  | .setter _ _, .method _ _ _ _ _ => isFalse (by intro hh; cases hh)
  | .setter _ _, .getter _ _ => isFalse (by intro hh; cases hh)
termination_by structural a _ => a

def dListTy : (a b : List Ty) → Decidable (a = b)
  | [], [] => isTrue rfl
  | t :: ts, u :: us =>
    match dTy t u, dListTy ts us with
    | isTrue h1, isTrue h2 => isTrue (by rw [h1, h2])
    | isFalse h1, _ => isFalse (by intro hh; cases hh; exact h1 rfl)
    | _, isFalse h2 => isFalse (by intro hh; cases hh; exact h2 rfl)
  | [], _ :: _ => isFalse (by intro hh; cases hh)
  | _ :: _, [] => isFalse (by intro hh; cases hh)
termination_by structural a _ => a

def dOptTy : (a b : Option Ty) → Decidable (a = b)
  | none, none => isTrue rfl
  | some t, some u =>
    match dTy t u with
    | isTrue h => isTrue (by rw [h])
    | isFalse h => isFalse (by intro hh; cases hh; exact h rfl)
  | none, some _ => isFalse (by intro hh; cases hh)
  | some _, none => isFalse (by intro hh; cases hh)
termination_by structural a _ => a

def dOptListTy : (a b : Option (List Ty)) → Decidable (a = b)
  | none, none => isTrue rfl
  | some t, some u =>
    match dListTy t u with
    | isTrue h => isTrue (by rw [h])
    | isFalse h => isFalse (by intro hh; cases hh; exact h rfl)
  | none, some _ => isFalse (by intro hh; cases hh)
  | some _, none => isFalse (by intro hh; cases hh)
termination_by structural a _ => a

def dListTypeParam : (a b : List TypeParam) → Decidable (a = b)
  | [], [] => isTrue rfl
  | t :: ts, u :: us =>
    match dTypeParam t u, dListTypeParam ts us with
    | isTrue h1, isTrue h2 => isTrue (by rw [h1, h2])
    | isFalse h1, _ => isFalse (by intro hh; cases hh; exact h1 rfl)
    | _, isFalse h2 => isFalse (by intro hh; cases hh; exact h2 rfl)
  | [], _ :: _ => isFalse (by intro hh; cases hh)
  | _ :: _, [] => isFalse (by intro hh; cases hh)
termination_by structural a _ => a

def dOptListTypeParam : (a b : Option (List TypeParam)) → Decidable (a = b)
  | none, none => isTrue rfl
  | some t, some u =>
    match dListTypeParam t u with
    | isTrue h => isTrue (by rw [h])
    | isFalse h => isFalse (by intro hh; cases hh; exact h rfl)
  | none, some _ => isFalse (by intro hh; cases hh)
  | some _, none => isFalse (by intro hh; cases hh)
termination_by structural a _ => a

def dListTFnParam : (a b : List TFnParam) → Decidable (a = b)
  | [], [] => isTrue rfl
  | t :: ts, u :: us =>
    match dTFnParam t u, dListTFnParam ts us with
    | isTrue h1, isTrue h2 => isTrue (by rw [h1, h2])
    | isFalse h1, _ => isFalse (by intro hh; cases hh; exact h1 rfl)
    | _, isFalse h2 => isFalse (by intro hh; cases hh; exact h2 rfl)
  | [], _ :: _ => isFalse (by intro hh; cases hh)
  | _ :: _, [] => isFalse (by intro hh; cases hh)
termination_by structural a _ => a

def dListTObjElem : (a b : List TObjElem) → Decidable (a = b)
  | [], [] => isTrue rfl
  | t :: ts, u :: us =>
    match dTObjElem t u, dListTObjElem ts us with
    | isTrue h1, isTrue h2 => isTrue (by rw [h1, h2])
    | isFalse h1, _ => isFalse (by intro hh; cases hh; exact h1 rfl)
    | _, isFalse h2 => isFalse (by intro hh; cases hh; exact h2 rfl)
  | [], _ :: _ => isFalse (by intro hh; cases hh)
  | _ :: _, [] => isFalse (by intro hh; cases hh)
termination_by structural a _ => a

def dOptTPat : (a b : Option TPat) → Decidable (a = b)
  | none, none => isTrue rfl
  | some t, some u =>
    match dTPat t u with
    | isTrue h => isTrue (by rw [h])
    | isFalse h => isFalse (by intro hh; cases hh; exact h rfl)
  | none, some _ => isFalse (by intro hh; cases hh)
  | some _, none => isFalse (by intro hh; cases hh)
termination_by structural a _ => a

def dListOptTPat : (a b : List (Option TPat)) → Decidable (a = b)
  | [], [] => isTrue rfl
  | t :: ts, u :: us =>
    match dOptTPat t u, dListOptTPat ts us with
    | isTrue h1, isTrue h2 => isTrue (by rw [h1, h2])
    | isFalse h1, _ => isFalse (by intro hh; cases hh; exact h1 rfl)
    | _, isFalse h2 => isFalse (by intro hh; cases hh; exact h2 rfl)
  | [], _ :: _ => isFalse (by intro hh; cases hh)
  | _ :: _, [] => isFalse (by intro hh; cases hh)
termination_by structural a _ => a

def dListTObjectPatProp : (a b : List TObjectPatProp) → Decidable (a = b)
  | [], [] => isTrue rfl
  | t :: ts, u :: us =>
    match dTObjectPatProp t u, dListTObjectPatProp ts us with
    | isTrue h1, isTrue h2 => isTrue (by rw [h1, h2])
    | isFalse h1, _ => isFalse (by intro hh; cases hh; exact h1 rfl)
    | _, isFalse h2 => isFalse (by intro hh; cases hh; exact h2 rfl)
  | [], _ :: _ => isFalse (by intro hh; cases hh)
  | _ :: _, [] => isFalse (by intro hh; cases hh)
termination_by structural a _ => a

end

instance : DecidableEq Ty := dTy
instance : DecidableEq TypeKind := dTypeKind
instance : DecidableEq TObjElem := dTObjElem
instance : DecidableEq TPat := dTPat
instance : DecidableEq TFnParam := dTFnParam
instance : DecidableEq TypeParam := dTypeParam


/-- A substitution (`Subst`): a finite map from type-variable ids to types,
modelled as an association list where the first entry for an id wins (so
`extend`, which lets the updating map's entries override, is list
prepending). -/
abbrev Subst : Type := List (Int × Ty)

/-- Lookup in a substitution. -/
def lookupSub (s : Subst) (id : Int) : Option Ty :=
  match s with
  | [] => none
  | p :: rest => if p.1 = id then some p.2 else lookupSub rest id

mutual
/-- One pass of `apply` (see `applyTy` below): it walks a type and replaces
each `Var(id)` whose id appears in the substitution by that id's image,
without stepping into the replacement; an unbound variable keeps its id and
its constraint is walked.  Binder metadata is not walked: a lambda's
`type_params` list, an index signature's `key` and the types stored inside
parameter patterns are carried unchanged, exactly the positions `norm_type`
(which is in the source tree) also leaves untouched. -/
def applyOnceTy (s : Subst) : Ty → Ty
  | .mk (.var id c) mu =>
    match lookupSub s id with
    | some u => u
    | none => .mk (.var id (applyOnceOpt s c)) mu
  | .mk (.app args ret typeArgs) mu =>
    .mk (.app (applyOnceList s args) (applyOnceTy s ret) (applyOnceOptList s typeArgs)) mu
  | .mk (.lam typeParams params ret) mu =>
    .mk (.lam typeParams (applyOnceParams s params) (applyOnceTy s ret)) mu
  | .mk (.lit l) mu => .mk (.lit l) mu
  | .mk (.keyword k) mu => .mk (.keyword k) mu
  | .mk (.union ts) mu => .mk (.union (applyOnceList s ts)) mu
  | .mk (.intersection ts) mu => .mk (.intersection (applyOnceList s ts)) mu
  | .mk (.object elems iface) mu => .mk (.object (applyOnceElems s elems) iface) mu
  | .mk (.ref name typeArgs) mu => .mk (.ref name (applyOnceOptList s typeArgs)) mu
  | .mk (.tuple ts) mu => .mk (.tuple (applyOnceList s ts)) mu
  | .mk (.array t) mu => .mk (.array (applyOnceTy s t)) mu
  | .mk (.rest t) mu => .mk (.rest (applyOnceTy s t)) mu
  | .mk .this mu => .mk .this mu
  | .mk (.keyOf t) mu => .mk (.keyOf (applyOnceTy s t)) mu
  | .mk (.indexAccess o i) mu => .mk (.indexAccess (applyOnceTy s o) (applyOnceTy s i)) mu
  | .mk (.mappedType t tp opt mtb) mu =>
    .mk (.mappedType (applyOnceTy s t) (applyOnceTypeParam s tp) opt mtb) mu
  | .mk (.conditionalType c e tt ff) mu =>
    .mk (.conditionalType (applyOnceTy s c) (applyOnceTy s e)
      (applyOnceTy s tt) (applyOnceTy s ff)) mu
  | .mk (.inferType name) mu => .mk (.inferType name) mu
termination_by structural t => t

def applyOnceOpt (s : Subst) : Option Ty → Option Ty
  | none => none
  | some t => some (applyOnceTy s t)
termination_by structural c => c

def applyOnceList (s : Subst) : List Ty → List Ty
  | [] => []
  | t :: ts => applyOnceTy s t :: applyOnceList s ts
termination_by structural ts => ts

def applyOnceOptList (s : Subst) : Option (List Ty) → Option (List Ty)
  | none => none
  | some ts => some (applyOnceList s ts)
termination_by structural ts => ts

def applyOnceParams (s : Subst) : List TFnParam → List TFnParam
  | [] => []
  | .mk pat t optional :: rest => .mk pat (applyOnceTy s t) optional :: applyOnceParams s rest
termination_by structural ps => ps

def applyOnceTypeParam (s : Subst) : TypeParam → TypeParam
  | .mk name c d => .mk name (applyOnceOpt s c) (applyOnceOpt s d)
termination_by structural tp => tp

def applyOnceElems (s : Subst) : List TObjElem → List TObjElem
  | [] => []
  | .call tps params ret :: rest =>
    .call tps (applyOnceParams s params) (applyOnceTy s ret) :: applyOnceElems s rest
  | .constructor tps params ret :: rest =>
    .constructor tps (applyOnceParams s params) (applyOnceTy s ret) :: applyOnceElems s rest
  | .index key m t :: rest => .index key m (applyOnceTy s t) :: applyOnceElems s rest
  | .prop name o m t :: rest => .prop name o m (applyOnceTy s t) :: applyOnceElems s rest
  | .method name tps params ret im :: rest =>
    .method name tps (applyOnceParams s params) (applyOnceTy s ret) im :: applyOnceElems s rest
  | .getter name ret :: rest => .getter name (applyOnceTy s ret) :: applyOnceElems s rest
  | .setter name param :: rest =>
    (.setter name (match param with | .mk pat t optional => .mk pat (applyOnceTy s t) optional))
      :: applyOnceElems s rest
termination_by structural es => es
end

/-- Iteration of the one-pass traversal: each further pass steps once more
into the replacements inserted by the previous pass. -/
def applyIter : Nat → Subst → Ty → Ty
  | 0, _, t => t
  | n + 1, s, t => applyIter n s (applyOnceTy s t)

/-- Modelled from the spec: `apply` of the `Substitutable` trait
(`escalier_infer/src/substitutable.rs` is not in the source tree).  It
replaces each `Var(id)` whose id appears in the substitution by that id's
image, "recursing into the replacement to honor transitive bindings" "for a
limited number of steps (bounded by chain length; chains are flattened as
they are walked)".  Modelled as one traversal pass per substitution entry
plus one: the first pass replaces each bound variable by its image and every
further pass steps once into the replacements, so each chain — whose length
is at most the number of entries — is fully resolved. -/
def applyTy (s : Subst) (t : Ty) : Ty := applyIter (s.length + 1) s t

/-- A free type variable as returned by `ftv`: its id together with its
declared constraint (`TVar {id, constraint}`). -/
structure TVar where
  id : Int
  constraint : Option Ty
  deriving DecidableEq

mutual
/-- Modelled from the spec: `ftv` of the `Substitutable` trait
(`escalier_infer/src/substitutable.rs` is not in the source tree): the free
type variables reachable from a type, in order of first occurrence, over
exactly the positions `apply` walks. -/
def ftvRaw : Ty → List TVar
  | .mk (.var id c) _ => ⟨id, c⟩ :: ftvRawOpt c
  | .mk (.app args ret typeArgs) _ => ftvRawList args ++ ftvRaw ret ++ ftvRawOptList typeArgs
  | .mk (.lam _ params ret) _ => ftvRawParams params ++ ftvRaw ret
  | .mk (.lit _) _ => []
  | .mk (.keyword _) _ => []
  | .mk (.union ts) _ => ftvRawList ts
  | .mk (.intersection ts) _ => ftvRawList ts
  | .mk (.object elems _) _ => ftvRawElems elems
  | .mk (.ref _ typeArgs) _ => ftvRawOptList typeArgs
  | .mk (.tuple ts) _ => ftvRawList ts
  | .mk (.array t) _ => ftvRaw t
  | .mk (.rest t) _ => ftvRaw t
  | .mk .this _ => []
  | .mk (.keyOf t) _ => ftvRaw t
  | .mk (.indexAccess o i) _ => ftvRaw o ++ ftvRaw i
  | .mk (.mappedType t tp _ _) _ => ftvRaw t ++ ftvRawTypeParam tp
  | .mk (.conditionalType c e tt ff) _ => ftvRaw c ++ ftvRaw e ++ ftvRaw tt ++ ftvRaw ff
  | .mk (.inferType _) _ => []
termination_by structural t => t

def ftvRawOpt : Option Ty → List TVar
  | none => []
  | some t => ftvRaw t
termination_by structural c => c

def ftvRawList : List Ty → List TVar
  | [] => []
  | t :: ts => ftvRaw t ++ ftvRawList ts
termination_by structural ts => ts

def ftvRawOptList : Option (List Ty) → List TVar
  | none => []
  | some ts => ftvRawList ts
termination_by structural ts => ts

def ftvRawParams : List TFnParam → List TVar
  | [] => []
  | .mk _ t _ :: rest => ftvRaw t ++ ftvRawParams rest
termination_by structural ps => ps

def ftvRawTypeParam : TypeParam → List TVar
  | .mk _ c d => ftvRawOpt c ++ ftvRawOpt d
termination_by structural tp => tp

def ftvRawElems : List TObjElem → List TVar
  | [] => []
  | .call _ params ret :: rest => ftvRawParams params ++ ftvRaw ret ++ ftvRawElems rest
  | .constructor _ params ret :: rest => ftvRawParams params ++ ftvRaw ret ++ ftvRawElems rest
  | .index _ _ t :: rest => ftvRaw t ++ ftvRawElems rest
  | .prop _ _ _ t :: rest => ftvRaw t ++ ftvRawElems rest
  | .method _ _ params ret _ :: rest => ftvRawParams params ++ ftvRaw ret ++ ftvRawElems rest
  | .getter _ ret :: rest => ftvRaw ret ++ ftvRawElems rest
  | .setter _ (.mk _ t _) :: rest => ftvRaw t ++ ftvRawElems rest
termination_by structural es => es
end

/-- Deduplicate a list of free variables by id, keeping first occurrences
(`ftv` returns a set of variables). -/
def dedupById : List TVar → List TVar :=
  go []
where
  go (seen : List Int) : List TVar → List TVar
    | [] => []
    | tv :: rest => if tv.id ∈ seen then go seen rest else tv :: go (tv.id :: seen) rest

/-- `t.ftv()`: the deduplicated free-variable list of a type. -/
def ftv (t : Ty) : List TVar := dedupById (ftvRaw t)

mutual
/-- `flatten_types` of `escalier_infer/src/util.rs`: a union flattens to the
concatenation of its members' flattenings; any other type is a singleton. -/
def flatten_types : Ty → List Ty
  | .mk (.union ts) _ => flattenList ts
  | t => [t]
termination_by structural t => t

def flattenList : List Ty → List Ty
  | [] => []
  | t :: ts => flatten_types t ++ flattenList ts
termination_by structural ts => ts
end

/-- Occurrence-order deduplication, modelling collection into a `BTreeSet`.
(The `BTreeSet` iterates in the order of the derived `Ord` of `Type`, whose
declaration is not in the source tree; every property proved below is
insensitive to the order of the deduplicated list.) -/
def dedupOcc : List Ty → List Ty :=
  go []
where
  go (acc : List Ty) : List Ty → List Ty
    | [] => acc.reverse
    | t :: ts => if t ∈ acc then go acc ts else go (t :: acc) ts

/-- The keyword kind corresponding to a literal (`Num`/`Bool`/`Str` literals
are subsumed by `number`/`boolean`/`string`). -/
def litKeyword : TLit → TKeyword
  | .num _ => .number
  | .bool _ => .boolean
  | .str _ => .string

/-- The first filter of `union_many_types`: keyword types. -/
def isKeywordTy (t : Ty) : Bool :=
  match t.kind with
  | .keyword _ => true
  | _ => false

/-- The second filter of `union_many_types`: literal types whose
corresponding keyword type is not among the collected keyword types. -/
def isUnsubsumedLit (keywordTypes : List Ty) (t : Ty) : Bool :=
  match t.kind with
  | .lit l => decide (Ty.from (.keyword (litKeyword l)) ∉ keywordTypes)
  | _ => false

/-- The third filter of `union_many_types`: neither literal nor keyword. -/
def isOtherTy (t : Ty) : Bool :=
  match t.kind with
  | .lit _ => false
  | .keyword _ => false
  | _ => true

/-- The final filter of `union_many_types`: everything but `Never`. -/
def isNotNever (t : Ty) : Bool :=
  match t.kind with
  | .keyword k => decide (k ≠ .never)
  | _ => true

/-- `union_many_types` of `escalier_infer/src/util.rs`: flatten nested unions,
collect into a set, drop literal types whose corresponding keyword type is
also present, drop `Never`, and collapse the empty and singleton cases. -/
def union_many_types (ts : List Ty) : Ty :=
  let types := flattenList ts
  let typesSet := dedupOcc types
  let keywordTypes := typesSet.filter isKeywordTy
  let litTypes := typesSet.filter (isUnsubsumedLit keywordTypes)
  let otherTypes := typesSet.filter isOtherTy
  let types := (keywordTypes ++ litTypes ++ otherTypes).filter isNotNever
  match types with
  | [] => Ty.from (.keyword .never)
  | [t] => t
  | _ => Ty.from (.union types)

/-- `union_types`: binary wrapper around `union_many_types`. -/
def union_types (t1 t2 : Ty) : Ty := union_many_types [t1, t2]

/-- `compose_subs(s2, s1)`: apply `s2` to every right-hand side of `s1`, then
extend with `s2` (entries of `s2` override colliding ids, hence `s2` comes
first in the association list). -/
def compose_subs (s2 s1 : Subst) : Subst :=
  s2 ++ s1.map fun p => (p.1, applyTy s2 p.2)

/-- `get_mapping`: renumber the free variables of a type consecutively from
zero, keeping their constraints. -/
def get_mapping (t : Ty) : List (Int × Ty) :=
  (ftv t).enum.map fun p => (p.2.id, Ty.from (.var (Int.ofNat p.1) p.2.constraint))

/-- The property-key string of a `TPropKey` (both arms of the match in
`simplify_intersection` yield the carried string). -/
def propKeyString : TPropKey → String
  | .stringKey k => k
  | .numberKey k => k

/-- Insert a property type into the per-key map of `simplify_intersection`
(`DefaultHashMap<String, BTreeSet<Type>>`): new keys are appended, and the
per-key set ignores duplicate types. -/
def insertPropType : List (String × List Ty) → String → Ty → List (String × List Ty)
  | [], k, t => [(k, [t])]
  | (k', ts) :: rest, k, t =>
    if k' = k then (k', if t ∈ ts then ts else ts ++ [t]) :: rest
    else (k', ts) :: insertPropType rest k t

/-- Collect the properties of one object's elements into the per-key map;
any `Call`, `Constructor`, `Method`, `Getter`, `Setter` or `Index` element
hits a `todo!()` (`none`). -/
def collectPropsElems : List TObjElem → List (String × List Ty) → Option (List (String × List Ty))
  | [], m => some m
  | .prop name _ _ t :: rest, m => collectPropsElems rest (insertPropType m (propKeyString name) t)
  | .call _ _ _ :: _, _ => none
  | .constructor _ _ _ :: _, _ => none
  | .index _ _ _ :: _, _ => none
  | .method _ _ _ _ _ :: _, _ => none
  | .getter _ _ :: _, _ => none
  | .setter _ _ :: _, _ => none

/-- Collect the properties of all object members. -/
def collectPropsObjs : List (List TObjElem) → List (String × List Ty) →
    Option (List (String × List Ty))
  | [], m => some m
  | elems :: rest, m =>
    match collectPropsElems elems m with
    | none => none
    | some m' => collectPropsObjs rest m'

/-- Insertion into a key-sorted association list (the
`elems.sort_by_key(prop.name)` of `simplify_intersection`; all built props
carry `StringKey`s, compared lexicographically). -/
def insertByKey (p : String × List Ty) : List (String × List Ty) → List (String × List Ty)
  | [] => [p]
  | q :: rest => if strLe p.1 q.1 then p :: q :: rest else q :: insertByKey p rest

/-- Sort the per-key map by key. -/
def sortByKey : List (String × List Ty) → List (String × List Ty)
  | [] => []
  | p :: rest => insertByKey p (sortByKey rest)

/-- The object elements of an object type (the `filter_map` of
`simplify_intersection`). -/
def objElemsOf (t : Ty) : Option (List TObjElem) :=
  match t.kind with
  | .object elems _ => some elems
  | _ => none

/-- A type that is not an object type (the non-object members kept by
`simplify_intersection`). -/
def isNotObjTy (t : Ty) : Bool :=
  match t.kind with
  | .object _ _ => false
  | _ => true

/-- Build one merged property from a per-key entry: a single type stands
alone, several are intersected. -/
def buildProp (p : String × List Ty) : TObjElem :=
  let t : Ty := match p.2 with
    | [t] => t
    | ts => Ty.from (.intersection ts)
  TObjElem.prop (.stringKey p.1) false false t

/-- `simplify_intersection` of `escalier_infer/src/util.rs`: merge the
properties of the object members (by name, intersecting differing types),
keep non-object members, and rebuild.  Any non-`Prop` object element hits a
`todo!()` (`none`). -/
def simplify_intersection (inTypes : List Ty) : Option Ty :=
  match collectPropsObjs (inTypes.filterMap objElemsOf) [] with
  | none => none
  | some m =>
    let elems := (sortByKey m).map buildProp
    let notObjTypes := inTypes.filter isNotObjTy
    let outTypes := notObjTypes ++ (if elems.isEmpty then [] else [Ty.from (.object elems false)])
    match outTypes with
    | [t] => some t
    | ts => some (Ty.from (.intersection ts))

/-- Lookup in the renumbering map of `normalize`. -/
def lookupMapping (m : List (Int × Ty)) (id : Int) : Option Ty :=
  match m with
  | [] => none
  | p :: rest => if p.1 = id then some p.2 else lookupMapping rest id

/-- Overwrite the `mutable` flag of a type (`result.mutable = t.mutable` in
the intersection arm of `norm_type`). -/
def Ty.setMutable : Ty → Bool → Ty
  | .mk k _, mu => .mk k mu

mutual
/-- `norm_type` of `escalier_infer/src/util.rs`: rewrite variables through the
renumbering map (an unmapped variable keeps its id, with its constraint
normalized), recurse structurally, and simplify intersections.  The `todo!()`
arms for `Method`, `Getter` and `Setter` object elements yield `none`;
`type_args` of `App`, a lambda's `type_params` and index keys are carried
unchanged, as in the source. -/
def normTy (m : List (Int × Ty)) : Ty → Option Ty
  | .mk (.var id c) mu =>
    match lookupMapping m id with
    | some t => some t
    | none =>
      match normOpt m c with
      | some c' => some (.mk (.var id c') mu)
      | none => none
  | .mk (.app args ret typeArgs) mu =>
    match normList m args, normTy m ret with
    | some args', some ret' => some (.mk (.app args' ret' typeArgs) mu)
    | _, _ => none
  | .mk (.lam typeParams params ret) mu =>
    match normParams m params, normTy m ret with
    | some params', some ret' => some (.mk (.lam typeParams params' ret') mu)
    | _, _ => none
  | .mk (.lit l) mu => some (.mk (.lit l) mu)
  | .mk (.keyword k) mu => some (.mk (.keyword k) mu)
  | .mk (.union ts) mu =>
    match normList m ts with
    | some ts' => some (.mk (.union ts') mu)
    | none => none
  | .mk (.intersection ts) mu =>
    match normList m ts with
    | some ts' =>
      match simplify_intersection ts' with
      | some r => some (r.setMutable mu)
      | none => none
    | none => none
  | .mk (.object elems iface) mu =>
    match normElems m elems with
    | some elems' => some (.mk (.object elems' iface) mu)
    | none => none
  | .mk (.ref name typeArgs) mu =>
    match normOptList m typeArgs with
    | some typeArgs' => some (.mk (.ref name typeArgs') mu)
    | none => none
  | .mk (.tuple ts) mu =>
    match normList m ts with
    | some ts' => some (.mk (.tuple ts') mu)
    | none => none
  | .mk (.array t) mu =>
    match normTy m t with
    | some t' => some (.mk (.array t') mu)
    | none => none
  | .mk (.rest t) mu =>
    match normTy m t with
    | some t' => some (.mk (.rest t') mu)
    | none => none
  | .mk .this mu => some (.mk .this mu)
  | .mk (.keyOf t) mu =>
    match normTy m t with
    | some t' => some (.mk (.keyOf t') mu)
    | none => none
  | .mk (.indexAccess o i) mu =>
    match normTy m o, normTy m i with
    | some o', some i' => some (.mk (.indexAccess o' i') mu)
    | _, _ => none
  | .mk (.mappedType t tp opt mtb) mu =>
    match normTy m t, normTypeParam m tp with
    | some t', some tp' => some (.mk (.mappedType t' tp' opt mtb) mu)
    | _, _ => none
  | .mk (.conditionalType c e tt ff) mu =>
    match normTy m c, normTy m e, normTy m tt, normTy m ff with
    | some c', some e', some tt', some ff' => some (.mk (.conditionalType c' e' tt' ff') mu)
    | _, _, _, _ => none
  | .mk (.inferType name) mu => some (.mk (.inferType name) mu)
termination_by structural t => t

def normOpt (m : List (Int × Ty)) : Option Ty → Option (Option Ty)
  | none => some none
  | some t =>
    match normTy m t with
    | some t' => some (some t')
    | none => none
termination_by structural c => c

def normList (m : List (Int × Ty)) : List Ty → Option (List Ty)
  | [] => some []
  | t :: ts =>
    match normTy m t, normList m ts with
    | some t', some ts' => some (t' :: ts')
    | _, _ => none
termination_by structural ts => ts

def normOptList (m : List (Int × Ty)) : Option (List Ty) → Option (Option (List Ty))
  | none => some none
  | some ts =>
    match normList m ts with
    | some ts' => some (some ts')
    | none => none
termination_by structural ts => ts

def normParams (m : List (Int × Ty)) : List TFnParam → Option (List TFnParam)
  | [] => some []
  | .mk pat t optional :: rest =>
    match normTy m t, normParams m rest with
    | some t', some rest' => some (.mk pat t' optional :: rest')
    | _, _ => none
termination_by structural ps => ps

def normTypeParam (m : List (Int × Ty)) : TypeParam → Option TypeParam
  | .mk name c d =>
    match normOpt m c, normOpt m d with
    | some c', some d' => some (.mk name c' d')
    | _, _ => none
termination_by structural tp => tp

def normElems (m : List (Int × Ty)) : List TObjElem → Option (List TObjElem)
  | [] => some []
  | .call tps params ret :: rest =>
    match normParams m params, normTy m ret, normElems m rest with
    | some params', some ret', some rest' => some (.call tps params' ret' :: rest')
    | _, _, _ => none
  | .constructor tps params ret :: rest =>
    match normParams m params, normTy m ret, normElems m rest with
    | some params', some ret', some rest' => some (.constructor tps params' ret' :: rest')
    | _, _, _ => none
  | .index key mtb t :: rest =>
    match normTy m t, normElems m rest with
    | some t', some rest' => some (.index key mtb t' :: rest')
    | _, _ => none
  | .prop name o mtb t :: rest =>
    match normTy m t, normElems m rest with
    | some t', some rest' => some (.prop name o mtb t' :: rest')
    | _, _ => none
  | .method _ _ _ _ _ :: _ => none
  | .getter _ _ :: _ => none
  | .setter _ _ :: _ => none
termination_by structural es => es
end

/-- The (opaque) `Context` parameter of `normalize` and `close_over`;
`norm_type` receives it but never uses it. -/
inductive Context where
  | mk

/-- `normalize`: renumber a type's free variables consecutively and normalize
it structurally. -/
def normalize (t : Ty) (_ctx : Context) : Option Ty :=
  normTy (get_mapping t) t

/-- The name of the `i`-th generated type parameter: consecutive characters
starting at code point 65 (`A`, `B`, `C`, …). -/
def letterName (i : Nat) : String := (Char.ofNat (65 + i)).toString

/-- The loop of `close_over` building the substitution: the `i`-th free
variable is sent to a reference to the `i`-th generated type parameter. -/
def letterSubAux (i : Nat) : List TVar → Subst
  | [] => []
  | tv :: rest => (tv.id, Ty.from (.ref (letterName i) none)) :: letterSubAux (i + 1) rest

/-- The substitution sending each free variable to a reference to its
generated type parameter. -/
def letterSub (tvs : List TVar) : Subst := letterSubAux 0 tvs

/-- The loop of `close_over` building the type-parameter list: one parameter
per free variable, keeping the variable's constraint. -/
def letterParamsAux (i : Nat) : List TVar → List TypeParam
  | [] => []
  | tv :: rest => .mk (letterName i) tv.constraint none :: letterParamsAux (i + 1) rest

/-- The generated type parameters, one per free variable. -/
def letterParams (tvs : List TVar) : List TypeParam := letterParamsAux 0 tvs

/-- `close_over` of `escalier_infer/src/util.rs`: apply the substitution, and
if the result has free type variables, generalize — a lambda gets one type
parameter per free variable (named `A`, `B`, `C`, … in order of occurrence)
and the variables are rewritten to references to those parameters; a non-lambda
with free variables panics (`none`).  The result is finally normalized. -/
def close_over (s : Subst) (t : Ty) (ctx : Context) : Option Ty :=
  let t1 := applyTy s t
  let tvs := ftv t1
  if tvs.isEmpty then normalize t1 ctx
  else
    match t1 with
    | .mk (.lam _ params ret) _ =>
      let sub := letterSub tvs
      let typeParams := letterParams tvs
      let t2 := Ty.from (.lam (if typeParams.isEmpty then none else some typeParams) params ret)
      normalize (applyTy sub t2) ctx
    | _ => none

/-- One step of `immutable_obj_type` over an element list, returning the
rewritten elements together with the `changed` flag: mutating methods and all
setters are dropped, index signatures and properties are made immutable. -/
def immutElems : List TObjElem → (List TObjElem × Bool)
  | [] => ([], false)
  | e :: rest =>
    let r := immutElems rest
    match e with
    | .call tps params ret => (.call tps params ret :: r.1, r.2)
    | .constructor tps params ret => (.constructor tps params ret :: r.1, r.2)
    | .method name tps params ret im =>
      if im then (r.1, true) else (.method name tps params ret im :: r.1, r.2)
    | .getter name ret => (.getter name ret :: r.1, r.2)
    | .setter _ _ => (r.1, true)
    | .index key m t => (.index key false t :: r.1, r.2 || m)
    | .prop name o m t => (.prop name o false t :: r.1, r.2 || m)

/-- `immutable_obj_type` of `escalier_infer/src/util.rs`: the readonly view of
an object type, or `None` when nothing changed. -/
def immutable_obj_type (elems : List TObjElem) (isInterface : Bool) :
    Option (List TObjElem × Bool) :=
  let r := immutElems elems
  if r.2 then some (r.1, isInterface) else none


/-- Modelled from the spec: a `Scheme` (`escalier_infer/src/scheme.rs` is not
in the source tree): a body type plus quantified type parameters. -/
structure Scheme where
  typeParams : Option (List TypeParam)
  t : Ty

/-- A value binding (`Binding {t, mutable}`). -/
structure Binding where
  t : Ty
  mutable : Bool
  deriving DecidableEq

/-- Modelled from the spec: a `Scope` (`escalier_infer/src/scope.rs` is not in
the source tree): name-to-binding, name-to-scheme and name-to-type maps plus
the `is_async` flag.  `push_scope` / `pop_scope` treat it as an opaque
clonable value apart from `is_async`. -/
structure Scope where
  is_async : Bool
  bindings : List (String × Binding)
  schemes : List (String × Scheme)
  types : List (String × Ty)

/-- A diagnostic (its contents are irrelevant to the embedded operations). -/
inductive Diagnostic where
  | mk

/-- Scope kinds (`ScopeKind`): `Inherit`, `Async`, `Sync`. -/
inductive ScopeKind where
  | inherit
  | async
  | sync

/-- The `Checker` state (`escalier_infer/src/checker.rs`).  The Rust `Vec`
stacks push and pop at the end; they are modelled as lists pushing and popping
at the head. -/
structure Checker where
  next_id : Int
  current_scope : Scope
  parent_scopes : List Scope
  diagnostics : List Diagnostic
  current_report : List Diagnostic
  parent_reports : List (List Diagnostic)

/-- `push_scope`: swap a clone of the current scope in, push the original onto
the parent stack, and adjust the new current scope's `is_async` according to
the scope kind. -/
def push_scope (c : Checker) (kind : ScopeKind) : Checker :=
  let scope := c.current_scope
  { c with
    parent_scopes := c.current_scope :: c.parent_scopes
    current_scope :=
      match kind with
      | .inherit => scope
      | .async => { scope with is_async := true }
      | .sync => { scope with is_async := false } }

/-- `pop_scope`: restore the top of the parent stack; the `unwrap` on an empty
stack panics (`none`). -/
def pop_scope (c : Checker) : Option Checker :=
  match c.parent_scopes with
  | [] => none
  | s :: rest => some { c with current_scope := s, parent_scopes := rest }

/-- Surface literals (`escalier_ast::values::Lit`): numbers (lexeme),
booleans, strings, `null`, `undefined`. -/
inductive ELit where
  | num (s : String)
  | bool (b : Bool)
  | str (s : String)
  | null
  | undefined
  deriving DecidableEq, Repr

mutual
/-- Surface patterns (`escalier_ast::values::Pattern`), as matched by
`infer_pattern_rec` in `escalier_infer/src/infer_pattern.rs`: `Ident`,
`Wildcard`, `Lit`, `Is`, `Rest`, `Array` (elements may be holes), `Object`.
Spans, default-value initializers (which the source explicitly ignores) and
the writable `inferred_type` attribute are omitted. -/
inductive EPat where
  | ident (name : String) (mutable : Bool)
  | wildcard
  | lit (l : ELit)
  | isPat (identName : String) (isName : String)
  | rest (arg : EPat)
  | array (elems : List (Option EPat))
  | object (props : List EPatProp)

/-- Object-pattern properties (`ObjectPatProp`): key/value, shorthand, rest. -/
inductive EPatProp where
  | keyValue (key : String) (value : EPat)
  | shorthand (identName : String)
  | restProp (arg : EPat)
end

/-- The `escalier_infer` error kinds reachable from pattern inference. -/
inductive TypeError where
  | duplicateIdentInPat (name : String)
  deriving DecidableEq, Repr

/-- Result of an inference step that may `panic!` / `todo!` (`panics`) or
return `Err(Vec<TypeError>)` (`errs`). -/
inductive PRes (α : Type) where
  | panics
  | errs (es : List TypeError)
  | ok (a : α)
  deriving DecidableEq

/-- The assumption map of pattern inference (`Assump = HashMap<String,
Binding>`), modelled as an association list with unique keys. -/
abbrev Assump : Type := List (String × Binding)

/-- `HashMap::insert`: replace any existing entry for the key and return the
old value when one was present. -/
def insertAssump (name : String) (b : Binding) : Assump → Assump × Option Binding
  | [] => ([(name, b)], none)
  | (n', b') :: rest =>
    if n' = name then ((n', b) :: rest, some b')
    else
      let r := insertAssump name b rest
      ((n', b') :: r.1, r.2)

/-- Lookup in an assumption map. -/
def lookupAssump (a : Assump) (name : String) : Option Binding :=
  match a with
  | [] => none
  | p :: rest => if p.1 = name then some p.2 else lookupAssump rest name

/-- Modelled from the spec: the `Type::from(lit)` conversion of surface
literals (the `From` impl is not in the source tree): `Num` / `Bool` / `Str`
become the corresponding literal types, `null` and `undefined` the
corresponding keyword types. -/
def litToTy : ELit → Ty
  | .num s => Ty.from (.lit (.num s))
  | .bool b => Ty.from (.lit (.bool b))
  | .str s => Ty.from (.lit (.str s))
  | .null => Ty.from (.keyword .null)
  | .undefined => Ty.from (.keyword .undefined)

/-- The type bound by an `is`-pattern: the primitive keyword for `string` /
`number` / `boolean`, otherwise a reference to the named alias. -/
def isPatTy (isName : String) : Ty :=
  if isName = "string" then Ty.from (.keyword .string)
  else if isName = "number" then Ty.from (.keyword .number)
  else if isName = "boolean" then Ty.from (.keyword .boolean)
  else Ty.from (.ref isName none)

mutual
/-- `infer_pattern_rec` of `escalier_infer/src/infer_pattern.rs`.  `n` is the
context's fresh-variable counter (`ctx.fresh_var()`), threaded explicitly;
the result carries the pattern type, the next counter and the updated
assumption map.  A duplicate `Ident` or `Is` binding returns
`DuplicateIdentInPat`; a duplicate `Shorthand` binding hits
`todo!("return an error")`, a second object rest pattern hits a `panic!`, and
an `Array` hole hits a `todo!()` (all `panics`).  The `inferred_type` /
`provenance` writes of the source, which nothing embedded here reads, are
omitted. -/
def infer_pattern_rec : EPat → Int → Assump → PRes (Ty × Int × Assump)
  | .ident name m, n, a =>
    let tv := Ty.from (.var n none)
    let r := insertAssump name ⟨tv, m⟩ a
    match r.2 with
    | some _ => .errs [.duplicateIdentInPat name]
    | none => .ok (tv, n + 1, r.1)
  | .wildcard, n, a => .ok (Ty.from (.var n none), n + 1, a)
  | .lit l, n, a => .ok (litToTy l, n, a)
  | .isPat identName isName, n, a =>
    let t := isPatTy isName
    let r := insertAssump identName ⟨t, false⟩ a
    match r.2 with
    | some _ => .errs [.duplicateIdentInPat identName]
    | none => .ok (t, n, r.1)
  | .rest arg, n, a =>
    match infer_pattern_rec arg n a with
    | .panics => .panics
    | .errs es => .errs es
    | .ok (t, n', a') => .ok (Ty.from (.rest t), n', a')
  | .array elems, n, a =>
    match inferArrayElems elems n a with
    | .panics => .panics
    | .errs es => .errs es
    | .ok (ts, n', a') => .ok (Ty.from (.tuple ts), n', a')
  | .object props, n, a =>
    match inferObjProps props n a none with
    | .panics => .panics
    | .errs es => .errs es
    | .ok (elems, restOpt, n', a') =>
      let objT := Ty.from (.object elems false)
      match restOpt with
      | some restTy => .ok (Ty.from (.intersection [objT, restTy]), n', a')
      | none => .ok (objT, n', a')
termination_by structural p => p

def inferArrayElems : List (Option EPat) → Int → Assump → PRes (List Ty × Int × Assump)
  | [], n, a => .ok ([], n, a)
  | none :: _, _, _ => .panics
  | some p :: rest, n, a =>
    match p with
    | .rest rp =>
      match infer_pattern_rec rp n a with
      | .panics => .panics
      | .errs es => .errs es
      | .ok (t, n', a') =>
        match inferArrayElems rest n' a' with
        | .panics => .panics
        | .errs es => .errs es
        | .ok (ts, n'', a'') => .ok (Ty.from (.rest t) :: ts, n'', a'')
    | q =>
      match infer_pattern_rec q n a with
      | .panics => .panics
      | .errs es => .errs es
      | .ok (t, n', a') =>
        match inferArrayElems rest n' a' with
        | .panics => .panics
        | .errs es => .errs es
        | .ok (ts, n'', a'') => .ok (t :: ts, n'', a'')
termination_by structural es => es

def inferObjProps : List EPatProp → Int → Assump → Option Ty →
    PRes (List TObjElem × Option Ty × Int × Assump)
  | [], n, a, restOpt => .ok ([], restOpt, n, a)
  | .keyValue key value :: rest, n, a, restOpt =>
    match infer_pattern_rec value n a with
    | .panics => .panics
    | .errs es => .errs es
    | .ok (t, n', a') =>
      match inferObjProps rest n' a' restOpt with
      | .panics => .panics
      | .errs es => .errs es
      | .ok (elems, ro, n'', a'') =>
        .ok (.prop (.stringKey key) false false t :: elems, ro, n'', a'')
  | .shorthand name :: rest, n, a, restOpt =>
    let tv := Ty.from (.var n none)
    let r := insertAssump name ⟨tv, false⟩ a
    match r.2 with
    | some _ => .panics
    | none =>
      match inferObjProps rest (n + 1) r.1 restOpt with
      | .panics => .panics
      | .errs es => .errs es
      | .ok (elems, ro, n'', a'') =>
        .ok (.prop (.stringKey name) false false tv :: elems, ro, n'', a'')
  | .restProp arg :: rest, n, a, restOpt =>
    match restOpt with
    | some _ => .panics
    | none =>
      match infer_pattern_rec arg n a with
      | .panics => .panics
      | .errs es => .errs es
      | .ok (t, n', a') => inferObjProps rest n' a' (some t)
termination_by structural ps => ps
end

/-- `infer_pattern` of `escalier_infer/src/infer_pattern.rs` for a pattern
without a type annotation: run `infer_pattern_rec` with a fresh assumption
map and return the empty substitution, the bindings and the pattern type. -/
def infer_pattern_no_ann (p : EPat) (n : Int) : PRes (Subst × Assump × Ty × Int) :=
  match infer_pattern_rec p n [] with
  | .panics => .panics
  | .errs es => .errs es
  | .ok (t, n', a) => .ok ([], a, t, n')

mutual
/-- `pattern_to_tpat` of `escalier_old_infer/src/infer_fn_param.rs`: convert a
function-parameter pattern to a type-level pattern.  `Lit`, `Is` and
`Wildcard` patterns always `panic!` (`none`). -/
def pattern_to_tpat : EPat → Option TPat
  | .ident name m => some (.ident name m)
  | .rest r =>
    match pattern_to_tpat r with
    | some tp => some (.rest tp)
    | none => none
  | .object props =>
    match tpatProps props with
    | some tps => some (.object tps)
    | none => none
  | .array elems =>
    match tpatElems elems with
    | some tes => some (.array tes)
    | none => none
  | .lit _ => none
  | .isPat _ _ => none
  | .wildcard => none
termination_by structural p => p

def tpatProps : List EPatProp → Option (List TObjectPatProp)
  | [] => some []
  | .keyValue key value :: rest =>
    match pattern_to_tpat value, tpatProps rest with
    | some v, some r => some (.keyValue key v :: r)
    | _, _ => none
  | .shorthand name :: rest =>
    match tpatProps rest with
    | some r => some (.assign name none :: r)
    | none => none
  | .restProp arg :: rest =>
    match pattern_to_tpat arg, tpatProps rest with
    | some v, some r => some (.restProp v :: r)
    | _, _ => none
termination_by structural ps => ps

def tpatElems : List (Option EPat) → Option (List (Option TPat))
  | [] => some []
  | none :: rest =>
    match tpatElems rest with
    | some r => some (none :: r)
    | none => none
  | some p :: rest =>
    match pattern_to_tpat p, tpatElems rest with
    | some v, some r => some (some v :: r)
    | _, _ => none
termination_by structural es => es
end

/-- The optional-parameter rewrite of `infer_fn_param`
(`escalier_old_infer/src/infer_fn_param.rs`, the `if param.optional` block):
find a binding whose type equals the parameter type and replace it with a
binding whose type is the union of its type and `undefined`. -/
def optional_rewrite (pa : Assump) (pt : Ty) : Assump :=
  match pa.find? fun p => p.2.t = pt with
  | some p =>
    (insertAssump p.1 ⟨Ty.from (.union [p.2.t, Ty.from (.keyword .undefined)]), p.2.mutable⟩ pa).1
  | none => pa

/-- `infer_fn_param` of `escalier_old_infer/src/infer_fn_param.rs` for an
unannotated parameter.  The pattern inference it delegates to
(`escalier_old_infer`'s `infer_pattern`, not in the source tree) is modelled
by its in-tree sibling `escalier_infer/src/infer_pattern.rs`.  A top-level
`Rest` parameter type is canonicalized to an array; if the parameter is
optional the binding whose type equals the parameter type is rewritten via
`optional_rewrite`; the parameter's pattern is converted by
`pattern_to_tpat`. -/
def infer_fn_param (pat : EPat) (optional : Bool) (n : Int) :
    PRes (TFnParam × Assump × Int) :=
  match infer_pattern_no_ann pat n with
  | .panics => .panics
  | .errs es => .errs es
  | .ok (_s, pa, pt, n') =>
    let pt := match pt with
      | .mk (.rest arg) _ => Ty.from (.array arg)
      | other => other
    let pa := if optional then optional_rewrite pa pt else pa
    match pattern_to_tpat pat with
    | none => .panics
    | some tpat => .ok (.mk tpat pt optional, pa, n')

mutual
/-- Whether a pattern contains a literal, `is` or wildcard sub-pattern in a
position `pattern_to_tpat` recurses into. -/
def containsRefutable : EPat → Bool
  | .lit _ => true
  | .isPat _ _ => true
  | .wildcard => true
  | .ident _ _ => false
  | .rest arg => containsRefutable arg
  | .array elems => containsRefutableElems elems
  | .object props => containsRefutableProps props
termination_by structural p => p

def containsRefutableElems : List (Option EPat) → Bool
  | [] => false
  | none :: rest => containsRefutableElems rest
  | some p :: rest => containsRefutable p || containsRefutableElems rest
termination_by structural es => es

def containsRefutableProps : List EPatProp → Bool
  | [] => false
  | .keyValue _ value :: rest => containsRefutable value || containsRefutableProps rest
  | .shorthand _ :: rest => containsRefutableProps rest
  | .restProp arg :: rest => containsRefutable arg || containsRefutableProps rest
termination_by structural ps => ps
end

end Esc

namespace Hm

mutual
/-- Surface patterns of the `escalier_hm` crate (`escalier_ast::Pattern` as
matched by `escalier_hm/src/infer_pattern.rs`): `Ident`, `Rest`, `Object`,
`Tuple` (elements may be holes), `Lit`, `Is`, `Wildcard`.  Spans and ignored
initializers are omitted. -/
inductive HmPat where
  | ident (name : String) (mutable : Bool)
  | rest (arg : HmPat)
  | object (props : List HmPatProp)
  | tuple (elems : List (Option HmPat))
  | lit (l : Esc.ELit)
  | isPat (identName : String) (isId : String)
  | wildcard

/-- Object-pattern properties: key/value, shorthand, rest. -/
inductive HmPatProp where
  | keyValue (key : String) (value : HmPat)
  | shorthand (identName : String)
  | restProp (arg : HmPat)
end

mutual
/-- Type-level patterns (the `escalier_hm` `TPat`), as produced by its
`pattern_to_tpat`. -/
inductive HmTPat where
  | ident (name : String) (mutable : Bool)
  | rest (arg : HmTPat)
  | object (props : List HmTObjPatProp)
  | tuple (elems : List (Option HmTPat))
  | lit (l : Esc.ELit)
  | isPat (identName : String) (isId : String)
  | wildcard

/-- Type-level object-pattern properties; the `value` of an `Assign` property
is always set to `None` by `pattern_to_tpat` and is omitted. -/
inductive HmTObjPatProp where
  | keyValue (key : String) (value : HmTPat)
  | assign (key : String)
  | restProp (arg : HmTPat)
end

mutual
/-- `pattern_to_tpat` of `escalier_hm/src/infer_pattern.rs`: convert a pattern
to a type-level pattern.  When `is_func_param` is set, `Lit`, `Is` and
`Wildcard` patterns `panic!` (`none`); otherwise they convert to the
corresponding `TPat`. -/
def pattern_to_tpat (p : HmPat) (is_func_param : Bool) : Option HmTPat :=
  match p with
  | .ident name m => some (.ident name m)
  | .rest r =>
    match pattern_to_tpat r is_func_param with
    | some tp => some (.rest tp)
    | none => none
  | .object props =>
    match tpatProps props is_func_param with
    | some tps => some (.object tps)
    | none => none
  | .tuple elems =>
    match tpatElems elems is_func_param with
    | some tes => some (.tuple tes)
    | none => none
  | .lit l => if is_func_param then none else some (.lit l)
  | .isPat identName isId => if is_func_param then none else some (.isPat identName isId)
  | .wildcard => if is_func_param then none else some .wildcard
termination_by structural p

def tpatProps (ps : List HmPatProp) (is_func_param : Bool) : Option (List HmTObjPatProp) :=
  match ps with
  | [] => some []
  | .keyValue key value :: rest =>
    match pattern_to_tpat value is_func_param, tpatProps rest is_func_param with
    | some v, some r => some (.keyValue key v :: r)
    | _, _ => none
  | .shorthand name :: rest =>
    match tpatProps rest is_func_param with
    | some r => some (.assign name :: r)
    | none => none
  | .restProp arg :: rest =>
    match pattern_to_tpat arg is_func_param, tpatProps rest is_func_param with
    | some v, some r => some (.restProp v :: r)
    | _, _ => none
termination_by structural ps

def tpatElems (es : List (Option HmPat)) (is_func_param : Bool) :
    Option (List (Option HmTPat)) :=
  match es with
  | [] => some []
  | none :: rest =>
    match tpatElems rest is_func_param with
    | some r => some (none :: r)
    | none => none
  | some p :: rest =>
    match pattern_to_tpat p is_func_param, tpatElems rest is_func_param with
    | some v, some r => some (some v :: r)
    | _, _ => none
termination_by structural es
end

mutual
/-- Whether a pattern contains a literal, `is` or wildcard sub-pattern in a
position `pattern_to_tpat` recurses into. -/
def containsRefutable : HmPat → Bool
  | .lit _ => true
  | .isPat _ _ => true
  | .wildcard => true
  | .ident _ _ => false
  | .rest arg => containsRefutable arg
  | .tuple elems => containsRefutableElems elems
  | .object props => containsRefutableProps props
termination_by structural p => p

def containsRefutableElems : List (Option HmPat) → Bool
  | [] => false
  | none :: rest => containsRefutableElems rest
  | some p :: rest => containsRefutable p || containsRefutableElems rest
termination_by structural es => es

def containsRefutableProps : List HmPatProp → Bool
  | [] => false
  | .keyValue _ value :: rest => containsRefutable value || containsRefutableProps rest
  | .shorthand _ :: rest => containsRefutableProps rest
  | .restProp arg :: rest => containsRefutable arg || containsRefutableProps rest
termination_by structural ps => ps
end

end Hm

/-!
## Theorems

Helper lemmas first, then one theorem per claim (with witnesses or
counterexamples where required).
-/

/-- Applying `immutable_obj_type`'s element pass to its own output changes
nothing: the output has no setters, no mutating methods and no mutable
index signatures or properties. -/
theorem immutElems_second (elems : List Esc.TObjElem) :
    Esc.immutElems (Esc.immutElems elems).1 = ((Esc.immutElems elems).1, false) := by
  induction elems with
  | nil => rfl
  | cons e rest ih =>
    cases e with
    | call tps params ret => simp [Esc.immutElems, ih]
    | constructor tps params ret => simp [Esc.immutElems, ih]
    | method name tps params ret im =>
      cases im with
      | true => simp [Esc.immutElems, ih]
      | false => simp [Esc.immutElems, ih]
    | getter name ret => simp [Esc.immutElems, ih]
    | setter name param => simp [Esc.immutElems, ih]
    | index key m t => simp [Esc.immutElems, ih]
    | prop name o m t => simp [Esc.immutElems, ih]

/-- C7: the readonly view is idempotent — whenever `immutable_obj_type`
reports a change, applying it to the produced object type reports no change
(`None`), so taking the readonly view twice equals taking it once. -/
theorem c7_immutable_obj_type_idempotent :
    ∀ (elems : List Esc.TObjElem) (iface : Bool) (elems' : List Esc.TObjElem) (iface' : Bool),
      Esc.immutable_obj_type elems iface = some (elems', iface') →
      Esc.immutable_obj_type elems' iface' = none := by
  intro elems iface elems' iface' h
  unfold Esc.immutable_obj_type at h ⊢
  by_cases hc : (Esc.immutElems elems).2
  · simp [hc] at h
    rw [← h.1, immutElems_second]
    simp
  · simp [hc] at h

/-- Witness for C7 at a concrete object type with one mutable property. -/
theorem c7_witness :
    Esc.immutable_obj_type
        [.prop (.stringKey "x") false false (Esc.Ty.from (.keyword .number))] false = none :=
  c7_immutable_obj_type_idempotent
    [.prop (.stringKey "x") false true (Esc.Ty.from (.keyword .number))] false
    [.prop (.stringKey "x") false false (Esc.Ty.from (.keyword .number))] false
    (by decide)

/-- C9: `push_scope` followed by `pop_scope` restores the checker exactly
(in particular `current_scope` and `parent_scopes`), for every scope kind;
`pop_scope` on an empty parent stack panics (`none`). -/
theorem c9_push_pop_scope :
    (∀ (c : Esc.Checker) (k : Esc.ScopeKind),
        Esc.pop_scope (Esc.push_scope c k) = some c)
    ∧ ∀ c : Esc.Checker, Esc.pop_scope { c with parent_scopes := [] } = none := by
  constructor
  · intro c k
    cases k <;> rfl
  · intro c
    rfl

/-- C5: pattern inference on the object pattern `{x, x}` — which introduces
the binding `x` twice through object shorthands — hits
`todo!("return an error")` and panics instead of returning
`DuplicateIdentInPat`; the same duplication through plain identifier bindings
does return the error. -/
theorem c5_duplicate_shorthand_panics :
    Esc.infer_pattern_rec (.object [.shorthand "x", .shorthand "x"]) 0 [] = .panics
    ∧ Esc.infer_pattern_rec (.array [some (.ident "x" false), some (.ident "x" false)]) 0 []
        = .errs [.duplicateIdentInPat "x"] := by
  exact ⟨rfl, rfl⟩

mutual
/-- A function-parameter pattern containing a literal, `is` or wildcard
sub-pattern makes `escalier_hm`'s `pattern_to_tpat` panic. -/
theorem hm_ctp_refutable : ∀ (p : Hm.HmPat),
    Hm.containsRefutable p = true → Hm.pattern_to_tpat p true = none
  | .lit _, _ => rfl
  | .isPat _ _, _ => rfl
  | .wildcard, _ => rfl
  | .ident _ _, h => by simp [Hm.containsRefutable] at h
  | .rest arg, h => by
    simp only [Hm.containsRefutable] at h
    simp [Hm.pattern_to_tpat, hm_ctp_refutable arg h]
  | .tuple elems, h => by
    simp only [Hm.containsRefutable] at h
    simp [Hm.pattern_to_tpat, hm_ctpe_refutable elems h]
  | .object props, h => by
    simp only [Hm.containsRefutable] at h
    simp [Hm.pattern_to_tpat, hm_ctpp_refutable props h]

theorem hm_ctpe_refutable : ∀ (es : List (Option Hm.HmPat)),
    Hm.containsRefutableElems es = true → Hm.tpatElems es true = none
  | [], h => by simp [Hm.containsRefutableElems] at h
  | none :: rest, h => by
    simp only [Hm.containsRefutableElems] at h
    simp [Hm.tpatElems, hm_ctpe_refutable rest h]
  | some p :: rest, h => by
    simp only [Hm.containsRefutableElems, Bool.or_eq_true] at h
    rcases h with h | h
    · cases hrest : Hm.tpatElems rest true <;>
        simp [Hm.tpatElems, hm_ctp_refutable p h, hrest]
    · cases hp : Hm.pattern_to_tpat p true <;>
        simp [Hm.tpatElems, hm_ctpe_refutable rest h, hp]

theorem hm_ctpp_refutable : ∀ (ps : List Hm.HmPatProp),
    Hm.containsRefutableProps ps = true → Hm.tpatProps ps true = none
  | [], h => by simp [Hm.containsRefutableProps] at h
  | .keyValue key value :: rest, h => by
    simp only [Hm.containsRefutableProps, Bool.or_eq_true] at h
    rcases h with h | h
    · cases hrest : Hm.tpatProps rest true <;>
        simp [Hm.tpatProps, hm_ctp_refutable value h, hrest]
    · cases hp : Hm.pattern_to_tpat value true <;>
        simp [Hm.tpatProps, hm_ctpp_refutable rest h, hp]
  | .shorthand name :: rest, h => by
    simp only [Hm.containsRefutableProps] at h
    simp [Hm.tpatProps, hm_ctpp_refutable rest h]
  | .restProp arg :: rest, h => by
    simp only [Hm.containsRefutableProps, Bool.or_eq_true] at h
    rcases h with h | h
    · cases hrest : Hm.tpatProps rest true <;>
        simp [Hm.tpatProps, hm_ctp_refutable arg h, hrest]
    · cases hp : Hm.pattern_to_tpat arg true <;>
        simp [Hm.tpatProps, hm_ctpp_refutable rest h, hp]
end

mutual
/-- A parameter pattern containing a literal, `is` or wildcard sub-pattern
makes `escalier_old_infer`'s `pattern_to_tpat` panic. -/
theorem esc_ctp_refutable : ∀ (p : Esc.EPat),
    Esc.containsRefutable p = true → Esc.pattern_to_tpat p = none
  | .lit _, _ => rfl
  | .isPat _ _, _ => rfl
  | .wildcard, _ => rfl
  | .ident _ _, h => by simp [Esc.containsRefutable] at h
  | .rest arg, h => by
    simp only [Esc.containsRefutable] at h
    simp [Esc.pattern_to_tpat, esc_ctp_refutable arg h]
  | .array elems, h => by
    simp only [Esc.containsRefutable] at h
    simp [Esc.pattern_to_tpat, esc_ctpe_refutable elems h]
  | .object props, h => by
    simp only [Esc.containsRefutable] at h
    simp [Esc.pattern_to_tpat, esc_ctpp_refutable props h]

theorem esc_ctpe_refutable : ∀ (es : List (Option Esc.EPat)),
    Esc.containsRefutableElems es = true → Esc.tpatElems es = none
  | [], h => by simp [Esc.containsRefutableElems] at h
  | none :: rest, h => by
    simp only [Esc.containsRefutableElems] at h
    simp [Esc.tpatElems, esc_ctpe_refutable rest h]
  | some p :: rest, h => by
    simp only [Esc.containsRefutableElems, Bool.or_eq_true] at h
    rcases h with h | h
    · cases hrest : Esc.tpatElems rest <;>
        simp [Esc.tpatElems, esc_ctp_refutable p h, hrest]
    · cases hp : Esc.pattern_to_tpat p <;>
        simp [Esc.tpatElems, esc_ctpe_refutable rest h, hp]

theorem esc_ctpp_refutable : ∀ (ps : List Esc.EPatProp),
    Esc.containsRefutableProps ps = true → Esc.tpatProps ps = none
  | [], h => by simp [Esc.containsRefutableProps] at h
  | .keyValue key value :: rest, h => by
    simp only [Esc.containsRefutableProps, Bool.or_eq_true] at h
    rcases h with h | h
    · cases hrest : Esc.tpatProps rest <;>
        simp [Esc.tpatProps, esc_ctp_refutable value h, hrest]
    · cases hp : Esc.pattern_to_tpat value <;>
        simp [Esc.tpatProps, esc_ctpp_refutable rest h, hp]
  | .shorthand name :: rest, h => by
    simp only [Esc.containsRefutableProps] at h
    simp [Esc.tpatProps, esc_ctpp_refutable rest h]
  | .restProp arg :: rest, h => by
    simp only [Esc.containsRefutableProps, Bool.or_eq_true] at h
    rcases h with h | h
    · cases hrest : Esc.tpatProps rest <;>
        simp [Esc.tpatProps, esc_ctp_refutable arg h, hrest]
    · cases hp : Esc.pattern_to_tpat arg <;>
        simp [Esc.tpatProps, esc_ctpp_refutable rest h, hp]
end

/-- C10: both `pattern_to_tpat` implementations panic on any
function-parameter pattern containing a literal pattern, an `is` pattern or a
wildcard pattern (in `escalier_hm` when `is_func_param` is set; in
`escalier_old_infer` unconditionally, as it is only called on function
parameters). -/
theorem c10_pattern_to_tpat_panics :
    (∀ p : Hm.HmPat, Hm.containsRefutable p = true → Hm.pattern_to_tpat p true = none)
    ∧ ∀ q : Esc.EPat, Esc.containsRefutable q = true → Esc.pattern_to_tpat q = none :=
  ⟨fun p h => hm_ctp_refutable p h, fun q h => esc_ctp_refutable q h⟩

/-- Witness for C10: concrete parameter patterns containing a nested literal
and a nested wildcard make both conversions panic. -/
theorem c10_witness :
    Hm.pattern_to_tpat (.object [.keyValue "a" (.lit (.num "5"))]) true = none
    ∧ Esc.pattern_to_tpat (.array [some .wildcard]) = none :=
  ⟨c10_pattern_to_tpat_panics.1 (.object [.keyValue "a" (.lit (.num "5"))]) (by decide),
   c10_pattern_to_tpat_panics.2 (.array [some .wildcard]) (by decide)⟩

/-- Lookup distributes over substitution concatenation (first list wins). -/
theorem lookupSub_append (a b : Esc.Subst) (id : Int) :
    Esc.lookupSub (a ++ b) id =
      (match Esc.lookupSub a id with
       | some t => some t
       | none => Esc.lookupSub b id) := by
  induction a with
  | nil => simp [Esc.lookupSub]
  | cons p rest ih =>
    by_cases hp : p.1 = id
    · simp [Esc.lookupSub, hp]
    · simp [Esc.lookupSub, hp, ih]

/-- Lookup after mapping a function over the right-hand sides. -/
theorem lookupSub_map (f : Esc.Ty → Esc.Ty) (s : Esc.Subst) (id : Int) :
    Esc.lookupSub (s.map fun p => (p.1, f p.2)) id = (Esc.lookupSub s id).map f := by
  induction s with
  | nil => simp [Esc.lookupSub]
  | cons p rest ih =>
    by_cases hp : p.1 = id
    · simp [Esc.lookupSub, hp]
    · simp [Esc.lookupSub, hp, ih]

/-- Lookup in `compose_subs s2 s1`: `s2`'s entry if any, otherwise `s1`'s
entry with `s2` applied to it. -/
theorem lookupSub_compose (s2 s1 : Esc.Subst) (id : Int) :
    Esc.lookupSub (Esc.compose_subs s2 s1) id =
      (match Esc.lookupSub s2 id with
       | some t => some t
       | none => (Esc.lookupSub s1 id).map (Esc.applyTy s2)) := by
  unfold Esc.compose_subs
  rw [lookupSub_append, lookupSub_map]

/-- A successful lookup exhibits a member of the substitution. -/
theorem lookupSub_mem (s : Esc.Subst) (id : Int) (u : Esc.Ty) :
    Esc.lookupSub s id = some u → (id, u) ∈ s := by
  induction s with
  | nil => intro h; exact Option.noConfusion h
  | cons p rest ih =>
    intro h
    simp only [Esc.lookupSub] at h
    by_cases hp : p.1 = id
    · rw [if_pos hp] at h
      have hpe : p = (id, u) := by rw [← hp, ← Option.some.inj h]
      rw [hpe]
      exact List.mem_cons_self _ _
    · rw [if_neg hp] at h
      exact List.mem_cons_of_mem _ (ih h)

mutual
/-- The one-pass traversal is the identity on a variable-free type. -/
theorem applyOnceTy_id (s : Esc.Subst) :
    ∀ t : Esc.Ty, Esc.ftvRaw t = [] → Esc.applyOnceTy s t = t
  | .mk (.var id c) mu, h => by simp [Esc.ftvRaw] at h
  | .mk (.app args ret targs) mu, h => by
    simp only [Esc.ftvRaw, List.append_eq_nil] at h
    simp [Esc.applyOnceTy, applyOnceList_id s args h.1.1, applyOnceTy_id s ret h.1.2,
      applyOnceOptList_id s targs h.2]
  | .mk (.lam tps params ret) mu, h => by
    simp only [Esc.ftvRaw, List.append_eq_nil] at h
    simp [Esc.applyOnceTy, applyOnceParams_id s params h.1, applyOnceTy_id s ret h.2]
  | .mk (.lit l) mu, h => rfl
  | .mk (.keyword k) mu, h => rfl
  | .mk (.union ts) mu, h => by
    simp only [Esc.ftvRaw] at h
    simp [Esc.applyOnceTy, applyOnceList_id s ts h]
  | .mk (.intersection ts) mu, h => by
    simp only [Esc.ftvRaw] at h
    simp [Esc.applyOnceTy, applyOnceList_id s ts h]
  | .mk (.object elems iface) mu, h => by
    simp only [Esc.ftvRaw] at h
    simp [Esc.applyOnceTy, applyOnceElems_id s elems h]
  | .mk (.ref name targs) mu, h => by
    simp only [Esc.ftvRaw] at h
    simp [Esc.applyOnceTy, applyOnceOptList_id s targs h]
  | .mk (.tuple ts) mu, h => by
    simp only [Esc.ftvRaw] at h
    simp [Esc.applyOnceTy, applyOnceList_id s ts h]
  | .mk (.array t) mu, h => by
    simp only [Esc.ftvRaw] at h
    simp [Esc.applyOnceTy, applyOnceTy_id s t h]
  | .mk (.rest t) mu, h => by
    simp only [Esc.ftvRaw] at h
    simp [Esc.applyOnceTy, applyOnceTy_id s t h]
  | .mk .this mu, h => rfl
  | .mk (.keyOf t) mu, h => by
    simp only [Esc.ftvRaw] at h
    simp [Esc.applyOnceTy, applyOnceTy_id s t h]
  | .mk (.indexAccess o i) mu, h => by
    simp only [Esc.ftvRaw, List.append_eq_nil] at h
    simp [Esc.applyOnceTy, applyOnceTy_id s o h.1, applyOnceTy_id s i h.2]
  | .mk (.mappedType t tp opt mtb) mu, h => by
    simp only [Esc.ftvRaw, List.append_eq_nil] at h
    simp [Esc.applyOnceTy, applyOnceTy_id s t h.1, applyOnceTypeParam_id s tp h.2]
  | .mk (.conditionalType c e tt ff) mu, h => by
    simp only [Esc.ftvRaw, List.append_eq_nil] at h
    simp [Esc.applyOnceTy, applyOnceTy_id s c h.1.1.1, applyOnceTy_id s e h.1.1.2,
      applyOnceTy_id s tt h.1.2, applyOnceTy_id s ff h.2]
  | .mk (.inferType name) mu, h => rfl

theorem applyOnceOpt_id (s : Esc.Subst) :
    ∀ c : Option Esc.Ty, Esc.ftvRawOpt c = [] → Esc.applyOnceOpt s c = c
  | none, _ => rfl
  | some t, h => by
    simp only [Esc.ftvRawOpt] at h
    simp [Esc.applyOnceOpt, applyOnceTy_id s t h]

theorem applyOnceList_id (s : Esc.Subst) :
    ∀ ts : List Esc.Ty, Esc.ftvRawList ts = [] → Esc.applyOnceList s ts = ts
  | [], _ => rfl
  | t :: ts, h => by
    simp only [Esc.ftvRawList, List.append_eq_nil] at h
    simp [Esc.applyOnceList, applyOnceTy_id s t h.1, applyOnceList_id s ts h.2]

theorem applyOnceOptList_id (s : Esc.Subst) :
    ∀ ts : Option (List Esc.Ty), Esc.ftvRawOptList ts = [] → Esc.applyOnceOptList s ts = ts
  | none, _ => rfl
  | some ts, h => by
    simp only [Esc.ftvRawOptList] at h
    simp [Esc.applyOnceOptList, applyOnceList_id s ts h]

theorem applyOnceParams_id (s : Esc.Subst) :
    ∀ ps : List Esc.TFnParam, Esc.ftvRawParams ps = [] → Esc.applyOnceParams s ps = ps
  | [], _ => rfl
  | .mk pat t optional :: ps, h => by
    simp only [Esc.ftvRawParams, List.append_eq_nil] at h
    simp [Esc.applyOnceParams, applyOnceTy_id s t h.1, applyOnceParams_id s ps h.2]

theorem applyOnceTypeParam_id (s : Esc.Subst) :
    ∀ tp : Esc.TypeParam, Esc.ftvRawTypeParam tp = [] → Esc.applyOnceTypeParam s tp = tp
  | .mk name c d, h => by
    simp only [Esc.ftvRawTypeParam, List.append_eq_nil] at h
    simp [Esc.applyOnceTypeParam, applyOnceOpt_id s c h.1, applyOnceOpt_id s d h.2]

theorem applyOnceElems_id (s : Esc.Subst) :
    ∀ es : List Esc.TObjElem, Esc.ftvRawElems es = [] → Esc.applyOnceElems s es = es
  | [], _ => rfl
  | .call tps params ret :: es, h => by
    simp only [Esc.ftvRawElems, List.append_eq_nil] at h
    simp [Esc.applyOnceElems, applyOnceParams_id s params h.1.1, applyOnceTy_id s ret h.1.2,
      applyOnceElems_id s es h.2]
  | .constructor tps params ret :: es, h => by
    simp only [Esc.ftvRawElems, List.append_eq_nil] at h
    simp [Esc.applyOnceElems, applyOnceParams_id s params h.1.1, applyOnceTy_id s ret h.1.2,
      applyOnceElems_id s es h.2]
  | .index key m t :: es, h => by
    simp only [Esc.ftvRawElems, List.append_eq_nil] at h
    simp [Esc.applyOnceElems, applyOnceTy_id s t h.1, applyOnceElems_id s es h.2]
  | .prop name o m t :: es, h => by
    simp only [Esc.ftvRawElems, List.append_eq_nil] at h
    simp [Esc.applyOnceElems, applyOnceTy_id s t h.1, applyOnceElems_id s es h.2]
  | .method name tps params ret im :: es, h => by
    simp only [Esc.ftvRawElems, List.append_eq_nil] at h
    simp [Esc.applyOnceElems, applyOnceParams_id s params h.1.1, applyOnceTy_id s ret h.1.2,
      applyOnceElems_id s es h.2]
  | .getter name ret :: es, h => by
    simp only [Esc.ftvRawElems, List.append_eq_nil] at h
    simp [Esc.applyOnceElems, applyOnceTy_id s ret h.1, applyOnceElems_id s es h.2]
  | .setter name (.mk pat t optional) :: es, h => by
    simp only [Esc.ftvRawElems, List.append_eq_nil] at h
    simp [Esc.applyOnceElems, applyOnceTy_id s t h.1, applyOnceElems_id s es h.2]
end

/-- Iterating the one-pass traversal over a variable-free type is the
identity. -/
theorem applyIter_id (s : Esc.Subst) :
    ∀ (n : Nat) (u : Esc.Ty), Esc.ftvRaw u = [] → Esc.applyIter n s u = u
  | 0, u, _ => rfl
  | n + 1, u, hu => by
    simp only [Esc.applyIter, applyOnceTy_id s u hu]
    exact applyIter_id s n u hu

/-- The spec-level `apply` is the identity on a variable-free type. -/
theorem applyTy_id (s : Esc.Subst) (u : Esc.Ty) (hu : Esc.ftvRaw u = []) :
    Esc.applyTy s u = u :=
  applyIter_id s (s.length + 1) u hu

mutual
/-- For a resolved substitution — every right-hand side variable-free — a
second pass changes nothing: the first pass already resolves every bound
variable (type case). -/
theorem applyOnceTy_stable (s : Esc.Subst) (hr : ∀ p ∈ s, Esc.ftvRaw p.2 = []) :
    ∀ t : Esc.Ty, Esc.applyOnceTy s (Esc.applyOnceTy s t) = Esc.applyOnceTy s t
  | .mk (.var id c) mu => by
    cases hl : Esc.lookupSub s id with
    | some u =>
      have hu : Esc.ftvRaw u = [] := hr (id, u) (lookupSub_mem s id u hl)
      simp [Esc.applyOnceTy, hl, applyOnceTy_id s u hu]
    | none => simp [Esc.applyOnceTy, hl, applyOnceOpt_stable s hr c]
  | .mk (.app args ret targs) mu => by
    simp [Esc.applyOnceTy, applyOnceList_stable s hr args, applyOnceTy_stable s hr ret,
      applyOnceOptList_stable s hr targs]
  | .mk (.lam tps params ret) mu => by
    simp [Esc.applyOnceTy, applyOnceParams_stable s hr params, applyOnceTy_stable s hr ret]
  | .mk (.lit l) mu => by simp [Esc.applyOnceTy]
  | .mk (.keyword k) mu => by simp [Esc.applyOnceTy]
  | .mk (.union ts) mu => by simp [Esc.applyOnceTy, applyOnceList_stable s hr ts]
  | .mk (.intersection ts) mu => by simp [Esc.applyOnceTy, applyOnceList_stable s hr ts]
  | .mk (.object elems iface) mu => by simp [Esc.applyOnceTy, applyOnceElems_stable s hr elems]
  | .mk (.ref name targs) mu => by simp [Esc.applyOnceTy, applyOnceOptList_stable s hr targs]
  | .mk (.tuple ts) mu => by simp [Esc.applyOnceTy, applyOnceList_stable s hr ts]
  | .mk (.array t) mu => by simp [Esc.applyOnceTy, applyOnceTy_stable s hr t]
  | .mk (.rest t) mu => by simp [Esc.applyOnceTy, applyOnceTy_stable s hr t]
  | .mk .this mu => by simp [Esc.applyOnceTy]
  | .mk (.keyOf t) mu => by simp [Esc.applyOnceTy, applyOnceTy_stable s hr t]
  | .mk (.indexAccess o i) mu => by
    simp [Esc.applyOnceTy, applyOnceTy_stable s hr o, applyOnceTy_stable s hr i]
  | .mk (.mappedType t tp opt mtb) mu => by
    simp [Esc.applyOnceTy, applyOnceTy_stable s hr t, applyOnceTypeParam_stable s hr tp]
  | .mk (.conditionalType c e tt ff) mu => by
    simp [Esc.applyOnceTy, applyOnceTy_stable s hr c, applyOnceTy_stable s hr e,
      applyOnceTy_stable s hr tt, applyOnceTy_stable s hr ff]
  | .mk (.inferType name) mu => by simp [Esc.applyOnceTy]

theorem applyOnceOpt_stable (s : Esc.Subst) (hr : ∀ p ∈ s, Esc.ftvRaw p.2 = []) :
    ∀ c, Esc.applyOnceOpt s (Esc.applyOnceOpt s c) = Esc.applyOnceOpt s c
  | none => rfl
  | some t => by simp [Esc.applyOnceOpt, applyOnceTy_stable s hr t]

theorem applyOnceList_stable (s : Esc.Subst) (hr : ∀ p ∈ s, Esc.ftvRaw p.2 = []) :
    ∀ ts, Esc.applyOnceList s (Esc.applyOnceList s ts) = Esc.applyOnceList s ts
  | [] => rfl
  | t :: ts => by
    simp [Esc.applyOnceList, applyOnceTy_stable s hr t, applyOnceList_stable s hr ts]

theorem applyOnceOptList_stable (s : Esc.Subst) (hr : ∀ p ∈ s, Esc.ftvRaw p.2 = []) :
    ∀ ts, Esc.applyOnceOptList s (Esc.applyOnceOptList s ts) = Esc.applyOnceOptList s ts
  | none => rfl
  | some ts => by simp [Esc.applyOnceOptList, applyOnceList_stable s hr ts]

theorem applyOnceParams_stable (s : Esc.Subst) (hr : ∀ p ∈ s, Esc.ftvRaw p.2 = []) :
    ∀ ps, Esc.applyOnceParams s (Esc.applyOnceParams s ps) = Esc.applyOnceParams s ps
  | [] => rfl
  | .mk pat t optional :: rest => by
    simp [Esc.applyOnceParams, applyOnceTy_stable s hr t, applyOnceParams_stable s hr rest]

theorem applyOnceTypeParam_stable (s : Esc.Subst) (hr : ∀ p ∈ s, Esc.ftvRaw p.2 = []) :
    ∀ tp, Esc.applyOnceTypeParam s (Esc.applyOnceTypeParam s tp) = Esc.applyOnceTypeParam s tp
  | .mk name c d => by
    simp [Esc.applyOnceTypeParam, applyOnceOpt_stable s hr c, applyOnceOpt_stable s hr d]

theorem applyOnceElems_stable (s : Esc.Subst) (hr : ∀ p ∈ s, Esc.ftvRaw p.2 = []) :
    ∀ es, Esc.applyOnceElems s (Esc.applyOnceElems s es) = Esc.applyOnceElems s es
  | [] => rfl
  | .call tps params ret :: rest => by
    simp [Esc.applyOnceElems, applyOnceParams_stable s hr params, applyOnceTy_stable s hr ret,
      applyOnceElems_stable s hr rest]
  | .constructor tps params ret :: rest => by
    simp [Esc.applyOnceElems, applyOnceParams_stable s hr params, applyOnceTy_stable s hr ret,
      applyOnceElems_stable s hr rest]
  | .index key m t :: rest => by
    simp [Esc.applyOnceElems, applyOnceTy_stable s hr t, applyOnceElems_stable s hr rest]
  | .prop name o m t :: rest => by
    simp [Esc.applyOnceElems, applyOnceTy_stable s hr t, applyOnceElems_stable s hr rest]
  | .method name tps params ret im :: rest => by
    simp [Esc.applyOnceElems, applyOnceParams_stable s hr params, applyOnceTy_stable s hr ret,
      applyOnceElems_stable s hr rest]
  | .getter name ret :: rest => by
    simp [Esc.applyOnceElems, applyOnceTy_stable s hr ret, applyOnceElems_stable s hr rest]
  | .setter name (.mk pat t optional) :: rest => by
    simp [Esc.applyOnceElems, applyOnceTy_stable s hr t, applyOnceElems_stable s hr rest]
end

/-- For a resolved substitution every pass after the first changes nothing,
so the bounded iteration collapses to a single pass. -/
theorem applyIter_stable (s : Esc.Subst) (hr : ∀ p ∈ s, Esc.ftvRaw p.2 = []) :
    ∀ (n : Nat) (t : Esc.Ty), Esc.applyIter (n + 1) s t = Esc.applyOnceTy s t
  | 0, t => rfl
  | n + 1, t => by
    have h0 : Esc.applyIter (n + 1 + 1) s t
        = Esc.applyIter (n + 1) s (Esc.applyOnceTy s t) := rfl
    rw [h0, applyIter_stable s hr n (Esc.applyOnceTy s t), applyOnceTy_stable s hr t]

/-- For a resolved substitution the spec-level `apply` equals the one-pass
traversal. -/
theorem applyTy_eq_applyOnce (s : Esc.Subst) (hr : ∀ p ∈ s, Esc.ftvRaw p.2 = [])
    (t : Esc.Ty) : Esc.applyTy s t = Esc.applyOnceTy s t :=
  applyIter_stable s hr s.length t

mutual
/-- When no id is bound in both substitutions and `s1` is resolved, one pass
of the composition equals two sequential passes (type case). -/
theorem applyOnceTy_compose (s1 s2 : Esc.Subst)
    (h : ∀ id, Esc.lookupSub s1 id = none ∨ Esc.lookupSub s2 id = none)
    (h1 : ∀ p ∈ s1, Esc.ftvRaw p.2 = []) :
    ∀ t, Esc.applyOnceTy (Esc.compose_subs s2 s1) t
        = Esc.applyOnceTy s2 (Esc.applyOnceTy s1 t)
  | .mk (.var id c) mu => by
    rcases h id with hn1 | hn2
    · cases h2 : Esc.lookupSub s2 id with
      | some u =>
        simp [Esc.applyOnceTy, hn1, h2, lookupSub_compose s2 s1 id]
      | none =>
        simp [Esc.applyOnceTy, hn1, h2, lookupSub_compose s2 s1 id,
          applyOnceOpt_compose s1 s2 h h1 c]
    · cases hb : Esc.lookupSub s1 id with
      | some u =>
        have hu : Esc.ftvRaw u = [] := h1 (id, u) (lookupSub_mem s1 id u hb)
        simp [Esc.applyOnceTy, hn2, hb, lookupSub_compose s2 s1 id,
          applyTy_id s2 u hu, applyOnceTy_id s2 u hu]
      | none =>
        simp [Esc.applyOnceTy, hn2, hb, lookupSub_compose s2 s1 id,
          applyOnceOpt_compose s1 s2 h h1 c]
  | .mk (.app args ret targs) mu => by
    simp [Esc.applyOnceTy, applyOnceList_compose s1 s2 h h1 args,
      applyOnceTy_compose s1 s2 h h1 ret, applyOnceOptList_compose s1 s2 h h1 targs]
  | .mk (.lam tps params ret) mu => by
    simp [Esc.applyOnceTy, applyOnceParams_compose s1 s2 h h1 params,
      applyOnceTy_compose s1 s2 h h1 ret]
  | .mk (.lit l) mu => by simp [Esc.applyOnceTy]
  | .mk (.keyword k) mu => by simp [Esc.applyOnceTy]
  | .mk (.union ts) mu => by simp [Esc.applyOnceTy, applyOnceList_compose s1 s2 h h1 ts]
  | .mk (.intersection ts) mu => by
    simp [Esc.applyOnceTy, applyOnceList_compose s1 s2 h h1 ts]
  | .mk (.object elems iface) mu => by
    simp [Esc.applyOnceTy, applyOnceElems_compose s1 s2 h h1 elems]
  | .mk (.ref name targs) mu => by
    simp [Esc.applyOnceTy, applyOnceOptList_compose s1 s2 h h1 targs]
  | .mk (.tuple ts) mu => by simp [Esc.applyOnceTy, applyOnceList_compose s1 s2 h h1 ts]
  | .mk (.array t) mu => by simp [Esc.applyOnceTy, applyOnceTy_compose s1 s2 h h1 t]
  | .mk (.rest t) mu => by simp [Esc.applyOnceTy, applyOnceTy_compose s1 s2 h h1 t]
  | .mk .this mu => by simp [Esc.applyOnceTy]
  | .mk (.keyOf t) mu => by simp [Esc.applyOnceTy, applyOnceTy_compose s1 s2 h h1 t]
  | .mk (.indexAccess o i) mu => by
    simp [Esc.applyOnceTy, applyOnceTy_compose s1 s2 h h1 o, applyOnceTy_compose s1 s2 h h1 i]
  | .mk (.mappedType t tp opt mtb) mu => by
    simp [Esc.applyOnceTy, applyOnceTy_compose s1 s2 h h1 t,
      applyOnceTypeParam_compose s1 s2 h h1 tp]
  | .mk (.conditionalType c e tt ff) mu => by
    simp [Esc.applyOnceTy, applyOnceTy_compose s1 s2 h h1 c, applyOnceTy_compose s1 s2 h h1 e,
      applyOnceTy_compose s1 s2 h h1 tt, applyOnceTy_compose s1 s2 h h1 ff]
  | .mk (.inferType name) mu => by simp [Esc.applyOnceTy]

theorem applyOnceOpt_compose (s1 s2 : Esc.Subst)
    (h : ∀ id, Esc.lookupSub s1 id = none ∨ Esc.lookupSub s2 id = none)
    (h1 : ∀ p ∈ s1, Esc.ftvRaw p.2 = []) :
    ∀ c, Esc.applyOnceOpt (Esc.compose_subs s2 s1) c
        = Esc.applyOnceOpt s2 (Esc.applyOnceOpt s1 c)
  | none => rfl
  | some t => by simp [Esc.applyOnceOpt, applyOnceTy_compose s1 s2 h h1 t]

theorem applyOnceList_compose (s1 s2 : Esc.Subst)
    (h : ∀ id, Esc.lookupSub s1 id = none ∨ Esc.lookupSub s2 id = none)
    (h1 : ∀ p ∈ s1, Esc.ftvRaw p.2 = []) :
    ∀ ts, Esc.applyOnceList (Esc.compose_subs s2 s1) ts
        = Esc.applyOnceList s2 (Esc.applyOnceList s1 ts)
  | [] => rfl
  | t :: ts => by
    simp [Esc.applyOnceList, applyOnceTy_compose s1 s2 h h1 t,
      applyOnceList_compose s1 s2 h h1 ts]

theorem applyOnceOptList_compose (s1 s2 : Esc.Subst)
    (h : ∀ id, Esc.lookupSub s1 id = none ∨ Esc.lookupSub s2 id = none)
    (h1 : ∀ p ∈ s1, Esc.ftvRaw p.2 = []) :
    ∀ ts, Esc.applyOnceOptList (Esc.compose_subs s2 s1) ts
        = Esc.applyOnceOptList s2 (Esc.applyOnceOptList s1 ts)
  | none => rfl
  | some ts => by simp [Esc.applyOnceOptList, applyOnceList_compose s1 s2 h h1 ts]

theorem applyOnceParams_compose (s1 s2 : Esc.Subst)
    (h : ∀ id, Esc.lookupSub s1 id = none ∨ Esc.lookupSub s2 id = none)
    (h1 : ∀ p ∈ s1, Esc.ftvRaw p.2 = []) :
    ∀ ps, Esc.applyOnceParams (Esc.compose_subs s2 s1) ps
        = Esc.applyOnceParams s2 (Esc.applyOnceParams s1 ps)
  | [] => rfl
  | .mk pat t optional :: rest => by
    simp [Esc.applyOnceParams, applyOnceTy_compose s1 s2 h h1 t,
      applyOnceParams_compose s1 s2 h h1 rest]

theorem applyOnceTypeParam_compose (s1 s2 : Esc.Subst)
    (h : ∀ id, Esc.lookupSub s1 id = none ∨ Esc.lookupSub s2 id = none)
    (h1 : ∀ p ∈ s1, Esc.ftvRaw p.2 = []) :
    ∀ tp, Esc.applyOnceTypeParam (Esc.compose_subs s2 s1) tp
        = Esc.applyOnceTypeParam s2 (Esc.applyOnceTypeParam s1 tp)
  | .mk name c d => by
    simp [Esc.applyOnceTypeParam, applyOnceOpt_compose s1 s2 h h1 c,
      applyOnceOpt_compose s1 s2 h h1 d]

theorem applyOnceElems_compose (s1 s2 : Esc.Subst)
    (h : ∀ id, Esc.lookupSub s1 id = none ∨ Esc.lookupSub s2 id = none)
    (h1 : ∀ p ∈ s1, Esc.ftvRaw p.2 = []) :
    ∀ es, Esc.applyOnceElems (Esc.compose_subs s2 s1) es
        = Esc.applyOnceElems s2 (Esc.applyOnceElems s1 es)
  | [] => rfl
  | .call tps params ret :: rest => by
    simp [Esc.applyOnceElems, applyOnceParams_compose s1 s2 h h1 params,
      applyOnceTy_compose s1 s2 h h1 ret, applyOnceElems_compose s1 s2 h h1 rest]
  | .constructor tps params ret :: rest => by
    simp [Esc.applyOnceElems, applyOnceParams_compose s1 s2 h h1 params,
      applyOnceTy_compose s1 s2 h h1 ret, applyOnceElems_compose s1 s2 h h1 rest]
  | .index key m t :: rest => by
    simp [Esc.applyOnceElems, applyOnceTy_compose s1 s2 h h1 t,
      applyOnceElems_compose s1 s2 h h1 rest]
  | .prop name o m t :: rest => by
    simp [Esc.applyOnceElems, applyOnceTy_compose s1 s2 h h1 t,
      applyOnceElems_compose s1 s2 h h1 rest]
  | .method name tps params ret im :: rest => by
    simp [Esc.applyOnceElems, applyOnceParams_compose s1 s2 h h1 params,
      applyOnceTy_compose s1 s2 h h1 ret, applyOnceElems_compose s1 s2 h h1 rest]
  | .getter name ret :: rest => by
    simp [Esc.applyOnceElems, applyOnceTy_compose s1 s2 h h1 ret,
      applyOnceElems_compose s1 s2 h h1 rest]
  | .setter name param :: rest => by
    cases param with
    | mk pat t optional =>
      simp [Esc.applyOnceElems, applyOnceTy_compose s1 s2 h h1 t,
        applyOnceElems_compose s1 s2 h h1 rest]
end

/-- C2 (counterexample): when `s1` and `s2` both bind the same id, the
composed substitution takes `s2`'s entry, so applying the composition differs
from applying `s1` then `s2` — here the composition yields `string` while
sequential application yields `number`. -/
theorem c2_counterexample :
    Esc.applyTy
        (Esc.compose_subs [(0, Esc.Ty.from (.keyword .string))]
          [(0, Esc.Ty.from (.keyword .number))])
        (Esc.Ty.from (.var 0 none))
      ≠ Esc.applyTy [(0, Esc.Ty.from (.keyword .string))]
          (Esc.applyTy [(0, Esc.Ty.from (.keyword .number))] (Esc.Ty.from (.var 0 none))) := by
  decide

/-- C2 (amended): for resolved substitutions — every right-hand-side type free
of type variables, the form `compose_subs` itself maintains — whose domains
are disjoint, applying `compose_subs(s2, s1)` to any type equals applying
`s1` and then `s2`. -/
theorem c2_compose_subs_sequential :
    ∀ (s1 s2 : Esc.Subst),
      (∀ id, Esc.lookupSub s1 id = none ∨ Esc.lookupSub s2 id = none) →
      (∀ p ∈ s1, Esc.ftvRaw p.2 = []) →
      (∀ p ∈ s2, Esc.ftvRaw p.2 = []) →
      ∀ t, Esc.applyTy (Esc.compose_subs s2 s1) t = Esc.applyTy s2 (Esc.applyTy s1 t) := by
  intro s1 s2 h h1 h2 t
  have hc : ∀ p ∈ Esc.compose_subs s2 s1, Esc.ftvRaw p.2 = [] := by
    intro p hp
    simp only [Esc.compose_subs] at hp
    rcases List.mem_append.mp hp with hp2 | hp1
    · exact h2 p hp2
    · rcases List.mem_map.mp hp1 with ⟨q, hq, hqe⟩
      have hq2 : Esc.ftvRaw q.2 = [] := h1 q hq
      rw [← hqe]
      show Esc.ftvRaw (Esc.applyTy s2 q.2) = []
      rw [applyTy_id s2 q.2 hq2]
      exact hq2
  rw [applyTy_eq_applyOnce _ hc t, applyTy_eq_applyOnce s1 h1 t,
    applyTy_eq_applyOnce s2 h2 (Esc.applyOnceTy s1 t)]
  exact applyOnceTy_compose s1 s2 h h1 t

/-- Witness for C2 at concrete resolved substitutions with disjoint domains
and a concrete type. -/
theorem c2_witness :
    Esc.applyTy
        (Esc.compose_subs [(1, Esc.Ty.from (.keyword .string))]
          [(0, Esc.Ty.from (.keyword .number))])
        (Esc.Ty.from (.tuple [Esc.Ty.from (.var 0 none), Esc.Ty.from (.var 1 none),
          Esc.Ty.from (.var 2 none)]))
      = Esc.applyTy [(1, Esc.Ty.from (.keyword .string))]
          (Esc.applyTy [(0, Esc.Ty.from (.keyword .number))]
            (Esc.Ty.from (.tuple [Esc.Ty.from (.var 0 none), Esc.Ty.from (.var 1 none),
              Esc.Ty.from (.var 2 none)]))) :=
  c2_compose_subs_sequential [(0, Esc.Ty.from (.keyword .number))]
    [(1, Esc.Ty.from (.keyword .string))]
    (by
      intro id
      by_cases h0 : (0 : Int) = id
      · right
        simp [Esc.lookupSub, ← h0]
      · left
        simp [Esc.lookupSub, h0])
    (by decide) (by decide)
    (Esc.Ty.from (.tuple [Esc.Ty.from (.var 0 none), Esc.Ty.from (.var 1 none),
      Esc.Ty.from (.var 2 none)]))

/-- Membership through the accumulator loop of `Esc.dedupOcc`. -/
theorem esc_dedupOcc_go_mem :
    ∀ (ts acc : List Esc.Ty) (x : Esc.Ty),
      x ∈ Esc.dedupOcc.go acc ts ↔ x ∈ acc ∨ x ∈ ts := by
  intro ts
  induction ts with
  | nil => intro acc x; simp [Esc.dedupOcc.go]
  | cons t rest ih =>
    intro acc x
    by_cases ht : t ∈ acc
    · simp only [Esc.dedupOcc.go, ht, if_true, ih, List.mem_cons]
      constructor
      · rintro (hx | hx)
        · exact Or.inl hx
        · exact Or.inr (Or.inr hx)
      · rintro (hx | hx | hx)
        · exact Or.inl hx
        · exact Or.inl (hx ▸ ht)
        · exact Or.inr hx
    · simp only [Esc.dedupOcc.go, ht, if_false, ih, List.mem_cons]
      tauto

/-- `Esc.dedupOcc` preserves membership. -/
theorem esc_dedupOcc_mem (ts : List Esc.Ty) (x : Esc.Ty) :
    x ∈ Esc.dedupOcc ts ↔ x ∈ ts := by
  unfold Esc.dedupOcc
  rw [esc_dedupOcc_go_mem]
  simp

/-- The accumulator loop of `Esc.dedupOcc` produces no duplicates. -/
theorem esc_dedupOcc_go_nodup :
    ∀ (ts acc : List Esc.Ty), acc.Nodup → (Esc.dedupOcc.go acc ts).Nodup := by
  intro ts
  induction ts with
  | nil => intro acc h; simpa [Esc.dedupOcc.go] using h
  | cons t rest ih =>
    intro acc h
    by_cases ht : t ∈ acc
    · simpa [Esc.dedupOcc.go, ht] using ih acc h
    · simpa [Esc.dedupOcc.go, ht] using ih (t :: acc) (List.nodup_cons.mpr ⟨ht, h⟩)

/-- `Esc.dedupOcc` produces no duplicates. -/
theorem esc_dedupOcc_nodup (ts : List Esc.Ty) : (Esc.dedupOcc ts).Nodup :=
  esc_dedupOcc_go_nodup ts [] List.nodup_nil

/-- A keyword type never passes the literal filter. -/
theorem kw_not_lit (kws : List Esc.Ty) (t : Esc.Ty) :
    Esc.isKeywordTy t = true → Esc.isUnsubsumedLit kws t = false := by
  rcases t with ⟨k, mu⟩
  cases k <;> simp [Esc.isKeywordTy, Esc.isUnsubsumedLit, Esc.Ty.kind]

/-- A keyword type never passes the neither-literal-nor-keyword filter. -/
theorem kw_not_other (t : Esc.Ty) :
    Esc.isKeywordTy t = true → Esc.isOtherTy t = false := by
  rcases t with ⟨k, mu⟩
  cases k <;> simp [Esc.isKeywordTy, Esc.isOtherTy, Esc.Ty.kind]

/-- A literal type never passes the neither-literal-nor-keyword filter. -/
theorem lit_not_other (kws : List Esc.Ty) (t : Esc.Ty) :
    Esc.isUnsubsumedLit kws t = true → Esc.isOtherTy t = false := by
  rcases t with ⟨k, mu⟩
  cases k <;> simp [Esc.isUnsubsumedLit, Esc.isOtherTy, Esc.Ty.kind]

/-- C4: `union_many_types` flattens nested unions and then keeps exactly the
flattened members that are not `Never` and are not literal types whose
corresponding keyword type is also present in the flattened list; the kept
members are deduplicated, and the result is `Never`, the single member, or
their union according to how many remain. -/
theorem c4_union_many_types :
    ∀ ts : List Esc.Ty, ∃ kept : List Esc.Ty,
      kept.Nodup
      ∧ (∀ t : Esc.Ty, t ∈ kept ↔
          (t ∈ Esc.flattenList ts
           ∧ t.kind ≠ .keyword .never
           ∧ ¬ ∃ l, t.kind = .lit l
                ∧ Esc.Ty.from (.keyword (Esc.litKeyword l)) ∈ Esc.flattenList ts))
      ∧ Esc.union_many_types ts =
          (match kept with
           | [] => Esc.Ty.from (.keyword .never)
           | [t] => t
           | _ => Esc.Ty.from (.union kept)) := by
  intro ts
  refine ⟨((Esc.dedupOcc (Esc.flattenList ts)).filter Esc.isKeywordTy
      ++ (Esc.dedupOcc (Esc.flattenList ts)).filter
          (Esc.isUnsubsumedLit ((Esc.dedupOcc (Esc.flattenList ts)).filter Esc.isKeywordTy))
      ++ (Esc.dedupOcc (Esc.flattenList ts)).filter Esc.isOtherTy).filter Esc.isNotNever,
    ?_, ?_, ?_⟩
  · apply List.Nodup.filter
    have hn := esc_dedupOcc_nodup (Esc.flattenList ts)
    refine (List.nodup_append.mpr ⟨?_, hn.filter _, ?_⟩)
    · refine (List.nodup_append.mpr ⟨hn.filter _, hn.filter _, ?_⟩)
      intro x hx hy
      have px := (List.mem_filter.mp hx).2
      have py := (List.mem_filter.mp hy).2
      rw [kw_not_lit _ x px] at py
      exact Bool.false_ne_true py
    · intro x hx hy
      have py := (List.mem_filter.mp hy).2
      rcases List.mem_append.mp hx with hx | hx
      · have px := (List.mem_filter.mp hx).2
        rw [kw_not_other x px] at py
        exact Bool.false_ne_true py
      · have px := (List.mem_filter.mp hx).2
        rw [lit_not_other _ x px] at py
        exact Bool.false_ne_true py
  · intro t
    rcases t with ⟨k, mu⟩
    cases k <;>
      simp [Esc.isKeywordTy, Esc.isUnsubsumedLit, Esc.isOtherTy, Esc.isNotNever,
        Esc.Ty.kind, Esc.Ty.from, List.mem_filter, List.mem_append, esc_dedupOcc_mem]
  · rfl

/-- Membership through the accumulator loop of `Crochet.dedupOcc`. -/
theorem cro_dedupOcc_go_mem :
    ∀ (ts acc : List Crochet.CroTy) (x : Crochet.CroTy),
      x ∈ Crochet.dedupOcc.go acc ts ↔ x ∈ acc ∨ x ∈ ts := by
  intro ts
  induction ts with
  | nil => intro acc x; simp [Crochet.dedupOcc.go]
  | cons t rest ih =>
    intro acc x
    by_cases ht : t ∈ acc
    · simp only [Crochet.dedupOcc.go, ht, if_true, ih, List.mem_cons]
      constructor
      · rintro (hx | hx)
        · exact Or.inl hx
        · exact Or.inr (Or.inr hx)
      · rintro (hx | hx | hx)
        · exact Or.inl hx
        · exact Or.inl (hx ▸ ht)
        · exact Or.inr hx
    · simp only [Crochet.dedupOcc.go, ht, if_false, ih, List.mem_cons]
      tauto

/-- `Crochet.dedupOcc` preserves membership. -/
theorem cro_dedupOcc_mem (ts : List Crochet.CroTy) (x : Crochet.CroTy) :
    x ∈ Crochet.dedupOcc ts ↔ x ∈ ts := by
  unfold Crochet.dedupOcc
  rw [cro_dedupOcc_go_mem]
  simp

/-- When an object's elements contain no index signature, the key-collection
pass succeeds and returns the property names as string-literal types. -/
theorem collectKeys_noIndex :
    ∀ elems : List Crochet.CObjElem, Crochet.noIndex elems = true →
      Crochet.collectKeys elems = some (Crochet.propNameLits elems) := by
  intro elems
  induction elems with
  | nil => intro _; rfl
  | cons e rest ih =>
    intro h
    cases e <;> simp_all [Crochet.noIndex, Crochet.collectKeys, Crochet.propNameLits]

/-- Every member produced by `propNameLits` is a string-literal type. -/
theorem propNameLits_shape (elems : List Crochet.CObjElem) (u : Crochet.CroTy)
    (hu : u ∈ Crochet.propNameLits elems) : ∃ s, u = .lit (.str s) := by
  rcases List.mem_filterMap.mp hu with ⟨e, _, he⟩
  cases e <;>
    first
    | exact ⟨_, (Option.some.inj he).symm⟩
    | exact Option.noConfusion he

/-- Flattening is the identity on a list of string-literal types. -/
theorem flattenList_lits :
    ∀ l : List Crochet.CroTy, (∀ u ∈ l, ∃ s, u = Crochet.CroTy.lit (.str s)) →
      Crochet.flattenList l = l := by
  intro l
  induction l with
  | nil => intro _; rfl
  | cons t rest ih =>
    intro h
    rcases h t (List.mem_cons_self t rest) with ⟨s, hs⟩
    subst hs
    simp only [Crochet.flattenList, Crochet.flatten_types]
    rw [ih fun u hu => h u (List.mem_cons_of_mem _ hu)]
    rfl

/-- Over a set of string-literal types, the member filter of
`union_many_types` keeps everything: no `Never` and no base primitives are
present. -/
theorem croKeep_lits (S : List Crochet.CroTy)
    (hS : ∀ v ∈ S, ∃ s, v = Crochet.CroTy.lit (.str s)) :
    ∀ u ∈ S, Crochet.croKeep S u = true := by
  intro u hu
  rcases hS u hu with ⟨s, hs⟩
  subst hs
  simp only [Crochet.croKeep, Crochet.litBase, decide_eq_true_eq]
  intro hprim
  rcases hS _ hprim with ⟨s', hs'⟩
  cases hs'

/-- C1 (amended): for every object type whose elements contain no index
signature, `key_of` returns the simplified union of the string-literal types
of the object's property names (call and constructor elements contribute no
keys); the flattened members of the result are exactly the deduplicated
property-name literals; and for the alias `type t = {x: number, y: number}`
the result displays, after sorting, as `"x" | "y"`. -/
theorem c1_key_of_object :
    (∀ (fuel : Nat) (ctx : Crochet.CroCtx) (elems : List Crochet.CObjElem),
        Crochet.noIndex elems = true →
        Crochet.key_of (fuel + 1) (.object elems) ctx
          = .ok (Crochet.union_many_types (Crochet.propNameLits elems)))
    ∧ (∀ (fuel : Nat) (ctx : Crochet.CroCtx) (elems : List Crochet.CObjElem),
        Crochet.noIndex elems = true →
        Crochet.propNameLits elems ≠ [] →
        ∃ u, Crochet.key_of (fuel + 1) (.object elems) ctx = .ok u
          ∧ Crochet.flatten_types u = Crochet.dedupOcc (Crochet.propNameLits elems))
    ∧ (∃ u, Crochet.key_of 2 (.ref "t" none) Crochet.exCtxC1 = .ok u
          ∧ Crochet.croFmt u = "\"x\" | \"y\"") := by
  have hmain : ∀ (fuel : Nat) (ctx : Crochet.CroCtx) (elems : List Crochet.CObjElem),
      Crochet.noIndex elems = true →
      Crochet.key_of (fuel + 1) (.object elems) ctx
        = .ok (Crochet.union_many_types (Crochet.propNameLits elems)) := by
    intro fuel ctx elems h
    simp [Crochet.key_of, collectKeys_noIndex elems h]
  refine ⟨hmain, ?_, ?_⟩
  · intro fuel ctx elems h hne
    refine ⟨Crochet.union_many_types (Crochet.propNameLits elems), hmain fuel ctx elems h, ?_⟩
    have hflat := flattenList_lits (Crochet.propNameLits elems) (propNameLits_shape elems)
    have hSshape : ∀ v ∈ Crochet.dedupOcc (Crochet.propNameLits elems),
        ∃ s, v = Crochet.CroTy.lit (.str s) := by
      intro v hv
      exact propNameLits_shape elems v ((cro_dedupOcc_mem _ v).mp hv)
    have hfilter :
        (Crochet.dedupOcc (Crochet.propNameLits elems)).filter
            (Crochet.croKeep (Crochet.dedupOcc (Crochet.propNameLits elems)))
          = Crochet.dedupOcc (Crochet.propNameLits elems) :=
      List.filter_eq_self.mpr (croKeep_lits _ hSshape)
    simp only [Crochet.union_many_types]
    rw [hflat, hfilter]
    cases hS : Crochet.dedupOcc (Crochet.propNameLits elems) with
    | nil =>
      exfalso
      rcases List.exists_mem_of_ne_nil _ hne with ⟨v, hv⟩
      have := (cro_dedupOcc_mem (Crochet.propNameLits elems) v).mpr hv
      rw [hS] at this
      cases this
    | cons v vs =>
      cases vs with
      | nil =>
        rcases hSshape v (by rw [hS]; exact List.mem_cons_self v []) with ⟨s, hs⟩
        subst hs
        rfl
      | cons w ws =>
        show Crochet.flatten_types (.union (v :: w :: ws)) = v :: w :: ws
        have : ∀ u ∈ (v :: w :: ws), ∃ s, u = Crochet.CroTy.lit (.str s) := by
          intro u hu
          exact hSshape u (by rw [hS]; exact hu)
        simpa [Crochet.flatten_types] using flattenList_lits _ this
  · exact ⟨.union [.lit (.str "x"), .lit (.str "y")], rfl, rfl⟩

/-- Witness for C1 at a concrete single-property object type. -/
theorem c1_witness :
    Crochet.key_of 1 (.object [.prop "x" false false (.prim .num)]) Crochet.exCtxC1
        = .ok (Crochet.union_many_types
            (Crochet.propNameLits [.prop "x" false false (.prim .num)]))
    ∧ ∃ u, Crochet.key_of 1 (.object [.prop "x" false false (.prim .num)]) Crochet.exCtxC1
          = .ok u
        ∧ Crochet.flatten_types u
            = Crochet.dedupOcc (Crochet.propNameLits [.prop "x" false false (.prim .num)]) :=
  ⟨c1_key_of_object.1 0 Crochet.exCtxC1 [.prop "x" false false (.prim .num)] (by decide),
   c1_key_of_object.2.1 0 Crochet.exCtxC1 [.prop "x" false false (.prim .num)] (by decide)
     (by decide)⟩

/-- C1 (counterexample): an object type containing an index signature makes
`key_of` hit the `Index` `todo!()` and panic instead of returning the union
of its property names. -/
theorem c1_counterexample :
    Crochet.key_of 1
        (.object [.index (.mk (.ident "k" false) (.prim .str) false) false (.prim .num)])
        Crochet.exCtxC1
      = .panics := rfl

/-- C3 (amended): `key_of` of an intersection is the simplified union of
`key_of` of each member (whenever every member's `key_of` returns a result),
but `key_of` of a union hits a `todo!()` and panics. -/
theorem c3_key_of_intersection_union :
    (∀ (fuel : Nat) (ctx : Crochet.CroCtx) (ts ks : List Crochet.CroTy),
        Crochet.key_of_list (fun t => Crochet.key_of fuel t ctx) ts = .ok ks →
        Crochet.key_of (fuel + 1) (.intersection ts) ctx
          = .ok (Crochet.union_many_types ks))
    ∧ ∀ (fuel : Nat) (ctx : Crochet.CroCtx) (ts : List Crochet.CroTy),
        Crochet.key_of (fuel + 1) (.union ts) ctx = .panics := by
  constructor
  · intro fuel ctx ts ks h
    simp [Crochet.key_of, h]
  · intro fuel ctx ts
    rfl

/-- Witness for C3: the intersection of a single empty object type. -/
theorem c3_witness :
    Crochet.key_of 2 (.intersection [.object []]) Crochet.exCtxC1
      = .ok (Crochet.union_many_types [.keyword .never]) :=
  c3_key_of_intersection_union.1 1 Crochet.exCtxC1 [.object []] [.keyword .never] (by decide)

/-- C3 (counterexample): `key_of` of a union panics instead of returning a
result. -/
theorem c3_counterexample :
    Crochet.key_of 1 (.union [.prim .num]) Crochet.exCtxC1 = .panics := rfl

/-- C8 (counterexample): for the optional destructuring parameter
`{a, b}?`, parameter inference leaves both introduced bindings with their
plain fresh-variable types — neither becomes a union with `undefined`,
because the rewrite only targets a binding whose type equals the whole
parameter type. -/
theorem c8_counterexample :
    Esc.infer_fn_param (.object [.shorthand "a", .shorthand "b"]) true 1
      = .ok (.mk (.object [.assign "a" none, .assign "b" none])
          (Esc.Ty.from (.object
            [.prop (.stringKey "a") false false (Esc.Ty.from (.var 1 none)),
             .prop (.stringKey "b") false false (Esc.Ty.from (.var 2 none))] false))
          true,
        [("a", ⟨Esc.Ty.from (.var 1 none), false⟩),
         ("b", ⟨Esc.Ty.from (.var 2 none), false⟩)], 3) := by
  decide

/-- C8 (amended): the optional-parameter rewrite changes at most one binding —
one whose type equals the parameter's overall inferred type.  When no binding's
type equals the parameter type the assumption map is returned unchanged; when
the parameter is a plain identifier (a single binding whose type is the
parameter type) that binding's type becomes the union of its type with
`undefined`. -/
theorem c8_optional_param :
    (∀ (pa : Esc.Assump) (pt : Esc.Ty),
        (∀ p ∈ pa, p.2.t ≠ pt) → Esc.optional_rewrite pa pt = pa)
    ∧ (∀ (name : String) (t : Esc.Ty) (m : Bool),
        Esc.optional_rewrite [(name, ⟨t, m⟩)] t
          = [(name, ⟨Esc.Ty.from (.union [t, Esc.Ty.from (.keyword .undefined)]), m⟩)])
    ∧ Esc.infer_fn_param (.ident "x" false) true 5
        = .ok (.mk (.ident "x" false) (Esc.Ty.from (.var 5 none)) true,
            [("x", ⟨Esc.Ty.from (.union
                [Esc.Ty.from (.var 5 none), Esc.Ty.from (.keyword .undefined)]), false⟩)],
            6) := by
  refine ⟨?_, ?_, by decide⟩
  · intro pa pt h
    unfold Esc.optional_rewrite
    have : pa.find? (fun p => p.2.t = pt) = none := by
      rw [List.find?_eq_none]
      intro p hp
      simp [h p hp]
    rw [this]
  · intro name t m
    simp [Esc.optional_rewrite, Esc.insertAssump, List.find?]

/-- Witness for C8 at a concrete assumption map where no binding matches the
parameter type. -/
theorem c8_witness :
    Esc.optional_rewrite [("a", ⟨Esc.Ty.from (.var 1 none), false⟩)]
        (Esc.Ty.from (.keyword .number))
      = [("a", ⟨Esc.Ty.from (.var 1 none), false⟩)] :=
  c8_optional_param.1 [("a", ⟨Esc.Ty.from (.var 1 none), false⟩)]
    (Esc.Ty.from (.keyword .number)) (by decide)

/-- The free variables of a type do not depend on its `mutable` flag. -/
theorem ftvRaw_setMutable (r : Esc.Ty) (mu : Bool) :
    Esc.ftvRaw (r.setMutable mu) = Esc.ftvRaw r := by
  rcases r with ⟨k, m⟩
  cases k <;> rfl

/-- A list of variable-free types concatenates to an empty variable list. -/
theorem ftvRawList_nil_of_members :
    ∀ l : List Esc.Ty, (∀ t ∈ l, Esc.ftvRaw t = []) → Esc.ftvRawList l = [] := by
  intro l
  induction l with
  | nil => intro _; rfl
  | cons t rest ih =>
    intro h
    simp only [Esc.ftvRawList, List.append_eq_nil]
    exact ⟨h t (List.mem_cons_self t rest), ih fun u hu => h u (List.mem_cons_of_mem _ hu)⟩

/-- Conversely, the members of a list with no free variables have none. -/
theorem ftvRawList_members_of_nil :
    ∀ l : List Esc.Ty, Esc.ftvRawList l = [] → ∀ t ∈ l, Esc.ftvRaw t = [] := by
  intro l
  induction l with
  | nil => intro _ t ht; cases ht
  | cons u rest ih =>
    intro h t ht
    simp only [Esc.ftvRawList, List.append_eq_nil] at h
    rcases List.mem_cons.mp ht with ht | ht
    · exact ht ▸ h.1
    · exact ih h.2 t ht

mutual
/-- Applying a substitution that binds every free variable to a variable-free
type produces a variable-free type. -/
theorem applyOnceTy_no_ftv (s : Esc.Subst) :
    ∀ t : Esc.Ty,
      (∀ tv ∈ Esc.ftvRaw t, ∃ u, Esc.lookupSub s tv.id = some u ∧ Esc.ftvRaw u = []) →
      Esc.ftvRaw (Esc.applyOnceTy s t) = []
  | .mk (.var id c) mu, h => by
    rcases h ⟨id, c⟩ (by simp [Esc.ftvRaw]) with ⟨u, hu, hu0⟩
    simp [Esc.applyOnceTy, hu, hu0]
  | .mk (.app args ret targs) mu, h => by
    simp only [Esc.ftvRaw, List.mem_append] at h
    simp only [Esc.applyOnceTy, Esc.ftvRaw, List.append_eq_nil]
    exact ⟨⟨applyOnceList_no_ftv s args fun tv htv => h tv (Or.inl (Or.inl htv)),
      applyOnceTy_no_ftv s ret fun tv htv => h tv (Or.inl (Or.inr htv))⟩,
      applyOnceOptList_no_ftv s targs fun tv htv => h tv (Or.inr htv)⟩
  | .mk (.lam tps params ret) mu, h => by
    simp only [Esc.ftvRaw, List.mem_append] at h
    simp only [Esc.applyOnceTy, Esc.ftvRaw, List.append_eq_nil]
    exact ⟨applyOnceParams_no_ftv s params fun tv htv => h tv (Or.inl htv),
      applyOnceTy_no_ftv s ret fun tv htv => h tv (Or.inr htv)⟩
  | .mk (.lit l) mu, h => rfl
  | .mk (.keyword k) mu, h => rfl
  | .mk (.union ts) mu, h => by
    simp only [Esc.ftvRaw] at h
    simpa [Esc.applyOnceTy, Esc.ftvRaw] using applyOnceList_no_ftv s ts h
  | .mk (.intersection ts) mu, h => by
    simp only [Esc.ftvRaw] at h
    simpa [Esc.applyOnceTy, Esc.ftvRaw] using applyOnceList_no_ftv s ts h
  | .mk (.object elems iface) mu, h => by
    simp only [Esc.ftvRaw] at h
    simpa [Esc.applyOnceTy, Esc.ftvRaw] using applyOnceElems_no_ftv s elems h
  | .mk (.ref name targs) mu, h => by
    simp only [Esc.ftvRaw] at h
    simpa [Esc.applyOnceTy, Esc.ftvRaw] using applyOnceOptList_no_ftv s targs h
  | .mk (.tuple ts) mu, h => by
    simp only [Esc.ftvRaw] at h
    simpa [Esc.applyOnceTy, Esc.ftvRaw] using applyOnceList_no_ftv s ts h
  | .mk (.array t) mu, h => by
    simp only [Esc.ftvRaw] at h
    simpa [Esc.applyOnceTy, Esc.ftvRaw] using applyOnceTy_no_ftv s t h
  | .mk (.rest t) mu, h => by
    simp only [Esc.ftvRaw] at h
    simpa [Esc.applyOnceTy, Esc.ftvRaw] using applyOnceTy_no_ftv s t h
  | .mk .this mu, h => rfl
  | .mk (.keyOf t) mu, h => by
    simp only [Esc.ftvRaw] at h
    simpa [Esc.applyOnceTy, Esc.ftvRaw] using applyOnceTy_no_ftv s t h
  | .mk (.indexAccess o i) mu, h => by
    simp only [Esc.ftvRaw, List.mem_append] at h
    simp only [Esc.applyOnceTy, Esc.ftvRaw, List.append_eq_nil]
    exact ⟨applyOnceTy_no_ftv s o fun tv htv => h tv (Or.inl htv),
      applyOnceTy_no_ftv s i fun tv htv => h tv (Or.inr htv)⟩
  | .mk (.mappedType t tp opt mtb) mu, h => by
    simp only [Esc.ftvRaw, List.mem_append] at h
    simp only [Esc.applyOnceTy, Esc.ftvRaw, List.append_eq_nil]
    exact ⟨applyOnceTy_no_ftv s t fun tv htv => h tv (Or.inl htv),
      applyOnceTypeParam_no_ftv s tp fun tv htv => h tv (Or.inr htv)⟩
  | .mk (.conditionalType c e tt ff) mu, h => by
    simp only [Esc.ftvRaw, List.mem_append] at h
    simp only [Esc.applyOnceTy, Esc.ftvRaw, List.append_eq_nil]
    exact ⟨⟨⟨applyOnceTy_no_ftv s c fun tv htv => h tv (Or.inl (Or.inl (Or.inl htv))),
      applyOnceTy_no_ftv s e fun tv htv => h tv (Or.inl (Or.inl (Or.inr htv)))⟩,
      applyOnceTy_no_ftv s tt fun tv htv => h tv (Or.inl (Or.inr htv))⟩,
      applyOnceTy_no_ftv s ff fun tv htv => h tv (Or.inr htv)⟩
  | .mk (.inferType name) mu, h => rfl

theorem applyOnceOpt_no_ftv (s : Esc.Subst) :
    ∀ c : Option Esc.Ty,
      (∀ tv ∈ Esc.ftvRawOpt c, ∃ u, Esc.lookupSub s tv.id = some u ∧ Esc.ftvRaw u = []) →
      Esc.ftvRawOpt (Esc.applyOnceOpt s c) = []
  | none, _ => rfl
  | some t, h => by
    simp only [Esc.ftvRawOpt] at h
    simpa [Esc.applyOnceOpt, Esc.ftvRawOpt] using applyOnceTy_no_ftv s t h

theorem applyOnceList_no_ftv (s : Esc.Subst) :
    ∀ ts : List Esc.Ty,
      (∀ tv ∈ Esc.ftvRawList ts, ∃ u, Esc.lookupSub s tv.id = some u ∧ Esc.ftvRaw u = []) →
      Esc.ftvRawList (Esc.applyOnceList s ts) = []
  | [], _ => rfl
  | t :: ts, h => by
    simp only [Esc.ftvRawList, List.mem_append] at h
    simp only [Esc.applyOnceList, Esc.ftvRawList, List.append_eq_nil]
    exact ⟨applyOnceTy_no_ftv s t fun tv htv => h tv (Or.inl htv),
      applyOnceList_no_ftv s ts fun tv htv => h tv (Or.inr htv)⟩

theorem applyOnceOptList_no_ftv (s : Esc.Subst) :
    ∀ ts : Option (List Esc.Ty),
      (∀ tv ∈ Esc.ftvRawOptList ts, ∃ u, Esc.lookupSub s tv.id = some u ∧ Esc.ftvRaw u = []) →
      Esc.ftvRawOptList (Esc.applyOnceOptList s ts) = []
  | none, _ => rfl
  | some ts, h => by
    simp only [Esc.ftvRawOptList] at h
    simpa [Esc.applyOnceOptList, Esc.ftvRawOptList] using applyOnceList_no_ftv s ts h

theorem applyOnceParams_no_ftv (s : Esc.Subst) :
    ∀ ps : List Esc.TFnParam,
      (∀ tv ∈ Esc.ftvRawParams ps, ∃ u, Esc.lookupSub s tv.id = some u ∧ Esc.ftvRaw u = []) →
      Esc.ftvRawParams (Esc.applyOnceParams s ps) = []
  | [], _ => rfl
  | .mk pat t optional :: ps, h => by
    simp only [Esc.ftvRawParams, List.mem_append] at h
    simp only [Esc.applyOnceParams, Esc.ftvRawParams, List.append_eq_nil]
    exact ⟨applyOnceTy_no_ftv s t fun tv htv => h tv (Or.inl htv),
      applyOnceParams_no_ftv s ps fun tv htv => h tv (Or.inr htv)⟩

theorem applyOnceTypeParam_no_ftv (s : Esc.Subst) :
    ∀ tp : Esc.TypeParam,
      (∀ tv ∈ Esc.ftvRawTypeParam tp,
        ∃ u, Esc.lookupSub s tv.id = some u ∧ Esc.ftvRaw u = []) →
      Esc.ftvRawTypeParam (Esc.applyOnceTypeParam s tp) = []
  | .mk name c d, h => by
    simp only [Esc.ftvRawTypeParam, List.mem_append] at h
    simp only [Esc.applyOnceTypeParam, Esc.ftvRawTypeParam, List.append_eq_nil]
    exact ⟨applyOnceOpt_no_ftv s c fun tv htv => h tv (Or.inl htv),
      applyOnceOpt_no_ftv s d fun tv htv => h tv (Or.inr htv)⟩

theorem applyOnceElems_no_ftv (s : Esc.Subst) :
    ∀ es : List Esc.TObjElem,
      (∀ tv ∈ Esc.ftvRawElems es, ∃ u, Esc.lookupSub s tv.id = some u ∧ Esc.ftvRaw u = []) →
      Esc.ftvRawElems (Esc.applyOnceElems s es) = []
  | [], _ => rfl
  | .call tps params ret :: es, h => by
    simp only [Esc.ftvRawElems, List.mem_append] at h
    simp only [Esc.applyOnceElems, Esc.ftvRawElems, List.append_eq_nil]
    exact ⟨⟨applyOnceParams_no_ftv s params fun tv htv => h tv (Or.inl (Or.inl htv)),
      applyOnceTy_no_ftv s ret fun tv htv => h tv (Or.inl (Or.inr htv))⟩,
      applyOnceElems_no_ftv s es fun tv htv => h tv (Or.inr htv)⟩
  | .constructor tps params ret :: es, h => by
    simp only [Esc.ftvRawElems, List.mem_append] at h
    simp only [Esc.applyOnceElems, Esc.ftvRawElems, List.append_eq_nil]
    exact ⟨⟨applyOnceParams_no_ftv s params fun tv htv => h tv (Or.inl (Or.inl htv)),
      applyOnceTy_no_ftv s ret fun tv htv => h tv (Or.inl (Or.inr htv))⟩,
      applyOnceElems_no_ftv s es fun tv htv => h tv (Or.inr htv)⟩
  | .index key m t :: es, h => by
    simp only [Esc.ftvRawElems, List.mem_append] at h
    simp only [Esc.applyOnceElems, Esc.ftvRawElems, List.append_eq_nil]
    exact ⟨applyOnceTy_no_ftv s t fun tv htv => h tv (Or.inl htv),
      applyOnceElems_no_ftv s es fun tv htv => h tv (Or.inr htv)⟩
  | .prop name o m t :: es, h => by
    simp only [Esc.ftvRawElems, List.mem_append] at h
    simp only [Esc.applyOnceElems, Esc.ftvRawElems, List.append_eq_nil]
    exact ⟨applyOnceTy_no_ftv s t fun tv htv => h tv (Or.inl htv),
      applyOnceElems_no_ftv s es fun tv htv => h tv (Or.inr htv)⟩
  | .method name tps params ret im :: es, h => by
    simp only [Esc.ftvRawElems, List.mem_append] at h
    simp only [Esc.applyOnceElems, Esc.ftvRawElems, List.append_eq_nil]
    exact ⟨⟨applyOnceParams_no_ftv s params fun tv htv => h tv (Or.inl (Or.inl htv)),
      applyOnceTy_no_ftv s ret fun tv htv => h tv (Or.inl (Or.inr htv))⟩,
      applyOnceElems_no_ftv s es fun tv htv => h tv (Or.inr htv)⟩
  | .getter name ret :: es, h => by
    simp only [Esc.ftvRawElems, List.mem_append] at h
    simp only [Esc.applyOnceElems, Esc.ftvRawElems, List.append_eq_nil]
    exact ⟨applyOnceTy_no_ftv s ret fun tv htv => h tv (Or.inl htv),
      applyOnceElems_no_ftv s es fun tv htv => h tv (Or.inr htv)⟩
  | .setter name (.mk pat t optional) :: es, h => by
    simp only [Esc.ftvRawElems, List.mem_append] at h
    simp only [Esc.applyOnceElems, Esc.ftvRawElems, List.append_eq_nil]
    exact ⟨applyOnceTy_no_ftv s t fun tv htv => h tv (Or.inl htv),
      applyOnceElems_no_ftv s es fun tv htv => h tv (Or.inr htv)⟩
end

/-- Invariant of the per-key property map: every recorded type is
variable-free. -/
def PropMapNoFtv (m : List (String × List Esc.Ty)) : Prop :=
  ∀ p ∈ m, ∀ t ∈ p.2, Esc.ftvRaw t = []

/-- `insertPropType` preserves the variable-free invariant. -/
theorem insertPropType_no_ftv :
    ∀ (m : List (String × List Esc.Ty)) (k : String) (t : Esc.Ty),
      PropMapNoFtv m → Esc.ftvRaw t = [] → PropMapNoFtv (Esc.insertPropType m k t) := by
  intro m
  induction m with
  | nil =>
    intro k t _ ht
    intro p hp u hu
    simp only [Esc.insertPropType, List.mem_singleton] at hp
    subst hp
    rcases List.mem_singleton.mp hu with rfl
    exact ht
  | cons q rest ih =>
    intro k t hm ht p hp u hu
    rcases q with ⟨k', ts⟩
    by_cases hk : k' = k
    · simp only [Esc.insertPropType, hk, if_true] at hp
      rcases List.mem_cons.mp hp with hp | hp
      · subst hp
        by_cases htm : t ∈ ts
        · simp only [htm, if_true] at hu
          exact hm ⟨k', ts⟩ (List.mem_cons_self _ _) u hu
        · simp only [htm, if_false] at hu
          rcases List.mem_append.mp hu with hu | hu
          · exact hm ⟨k', ts⟩ (List.mem_cons_self _ _) u hu
          · rcases List.mem_singleton.mp hu with rfl
            exact ht
      · exact hm p (List.mem_cons_of_mem _ hp) u hu
    · simp only [Esc.insertPropType, hk, if_false] at hp
      rcases List.mem_cons.mp hp with hp | hp
      · rw [hp] at hu
        exact hm _ (List.mem_cons_self _ _) u hu
      · exact ih k t (fun q hq => hm q (List.mem_cons_of_mem _ hq)) ht p hp u hu

/-- `collectPropsElems` preserves the variable-free invariant when the
element list is variable-free. -/
theorem collectPropsElems_no_ftv :
    ∀ (es : List Esc.TObjElem) (m m' : List (String × List Esc.Ty)),
      Esc.ftvRawElems es = [] → PropMapNoFtv m →
      Esc.collectPropsElems es m = some m' → PropMapNoFtv m' := by
  intro es
  induction es with
  | nil =>
    intro m m' _ hm h
    cases h
    exact hm
  | cons e rest ih =>
    intro m m' h0 hm h
    cases e with
    | prop name o mtb t =>
      simp only [Esc.ftvRawElems, List.append_eq_nil] at h0
      simp only [Esc.collectPropsElems] at h
      exact ih _ m' h0.2 (insertPropType_no_ftv m _ t hm h0.1) h
    | call tps params ret => cases h
    | constructor tps params ret => cases h
    | index key mtb t => cases h
    | method name tps params ret im => cases h
    | getter name ret => cases h
    | setter name param => cases h

/-- `collectPropsObjs` preserves the variable-free invariant. -/
theorem collectPropsObjs_no_ftv :
    ∀ (ess : List (List Esc.TObjElem)) (m m' : List (String × List Esc.Ty)),
      (∀ es ∈ ess, Esc.ftvRawElems es = []) → PropMapNoFtv m →
      Esc.collectPropsObjs ess m = some m' → PropMapNoFtv m' := by
  intro ess
  induction ess with
  | nil =>
    intro m m' _ hm h
    cases h
    exact hm
  | cons es rest ih =>
    intro m m' h0 hm h
    simp only [Esc.collectPropsObjs] at h
    cases hmid : Esc.collectPropsElems es m with
    | none => rw [hmid] at h; cases h
    | some mid =>
      rw [hmid] at h
      exact ih mid m'
        (fun es' hes' => h0 es' (List.mem_cons_of_mem _ hes'))
        (collectPropsElems_no_ftv es m mid (h0 es (List.mem_cons_self _ _)) hm hmid) h

/-- Membership after insertion into the key-sorted list. -/
theorem mem_insertByKey (p q : String × List Esc.Ty) :
    ∀ l, p ∈ Esc.insertByKey q l → p = q ∨ p ∈ l := by
  intro l
  induction l with
  | nil =>
    intro h
    rcases List.mem_singleton.mp h with rfl
    exact Or.inl rfl
  | cons r rest ih =>
    intro h
    simp only [Esc.insertByKey] at h
    by_cases hle : strLe q.1 r.1
    · simp only [hle, if_true] at h
      rcases List.mem_cons.mp h with h | h
      · exact Or.inl h
      · exact Or.inr h
    · simp only [hle, if_false] at h
      rcases List.mem_cons.mp h with h | h
      · exact Or.inr (h ▸ List.mem_cons_self _ _)
      · rcases ih h with h | h
        · exact Or.inl h
        · exact Or.inr (List.mem_cons_of_mem _ h)

/-- Membership in the sorted per-key map comes from the unsorted one. -/
theorem mem_sortByKey (p : String × List Esc.Ty) :
    ∀ l, p ∈ Esc.sortByKey l → p ∈ l := by
  intro l
  induction l with
  | nil => intro h; cases h
  | cons q rest ih =>
    intro h
    rcases mem_insertByKey p q _ h with h | h
    · exact h ▸ List.mem_cons_self _ _
    · exact List.mem_cons_of_mem _ (ih h)

/-- `buildProp` of a variable-free per-key entry yields a property whose
type is variable-free. -/
theorem buildProp_no_ftv (p : String × List Esc.Ty)
    (hp : ∀ t ∈ p.2, Esc.ftvRaw t = []) :
    ∃ nm o mtb tt, Esc.buildProp p = Esc.TObjElem.prop nm o mtb tt ∧ Esc.ftvRaw tt = [] := by
  refine ⟨_, _, _, _, rfl, ?_⟩
  cases hts : p.2 with
  | nil => simp [hts, Esc.Ty.from, Esc.ftvRaw, Esc.ftvRawList]
  | cons t ts =>
    cases ts with
    | nil =>
      simp only [hts]
      exact hp t (hts ▸ List.mem_cons_self _ _)
    | cons t2 ts2 =>
      simp only [hts, Esc.Ty.from, Esc.ftvRaw]
      exact ftvRawList_nil_of_members _ fun u hu => hp u (hts ▸ hu)

/-- An element list built by mapping `buildProp` over variable-free entries
is variable-free. -/
theorem buildProps_no_ftv :
    ∀ ps : List (String × List Esc.Ty),
      (∀ p ∈ ps, ∀ t ∈ p.2, Esc.ftvRaw t = []) →
      Esc.ftvRawElems (ps.map Esc.buildProp) = [] := by
  intro ps
  induction ps with
  | nil => intro _; rfl
  | cons p rest ih =>
    intro h
    rcases buildProp_no_ftv p (h p (List.mem_cons_self _ _)) with ⟨nm, o, mtb, tt, hb, htt⟩
    rw [List.map_cons, hb]
    simp only [Esc.ftvRawElems, List.append_eq_nil]
    exact ⟨htt, ih fun q hq => h q (List.mem_cons_of_mem _ hq)⟩

/-- `simplify_intersection` of variable-free types is variable-free. -/
theorem simplify_intersection_no_ftv
    (inTypes : List Esc.Ty) (t' : Esc.Ty)
    (h0 : ∀ t ∈ inTypes, Esc.ftvRaw t = [])
    (h : Esc.simplify_intersection inTypes = some t') :
    Esc.ftvRaw t' = [] := by
  simp only [Esc.simplify_intersection] at h
  cases hm : Esc.collectPropsObjs (inTypes.filterMap Esc.objElemsOf) [] with
  | none => rw [hm] at h; cases h
  | some m =>
    rw [hm] at h
    have hminv : PropMapNoFtv m := by
      refine collectPropsObjs_no_ftv _ [] m ?_ (by intro p hp; cases hp) hm
      intro es hes
      rcases List.mem_filterMap.mp hes with ⟨t, htmem, hteq⟩
      rcases t with ⟨k, mu⟩
      cases k <;> simp only [Esc.objElemsOf, Esc.Ty.kind] at hteq <;> try cases hteq
      all_goals simpa [Esc.ftvRaw] using h0 _ htmem
    have hsorted : ∀ p ∈ Esc.sortByKey m, ∀ t ∈ p.2, Esc.ftvRaw t = [] :=
      fun p hp => hminv p (mem_sortByKey p m hp)
    have hbuilt : Esc.ftvRawElems ((Esc.sortByKey m).map Esc.buildProp) = [] :=
      buildProps_no_ftv _ hsorted
    have hout : ∀ u ∈ inTypes.filter Esc.isNotObjTy ++
        (if ((Esc.sortByKey m).map Esc.buildProp).isEmpty then []
         else [Esc.Ty.from (.object ((Esc.sortByKey m).map Esc.buildProp) false)]),
        Esc.ftvRaw u = [] := by
      intro u hu
      rcases List.mem_append.mp hu with hu | hu
      · exact h0 u (List.mem_filter.mp hu).1
      · by_cases hie : ((Esc.sortByKey m).map Esc.buildProp).isEmpty
        · rw [if_pos hie] at hu
          cases hu
        · rw [if_neg hie] at hu
          rcases List.mem_singleton.mp hu with rfl
          simpa [Esc.Ty.from, Esc.ftvRaw] using hbuilt
    have key : ∀ (L : List Esc.Ty), (∀ u ∈ L, Esc.ftvRaw u = []) →
        (match L with
         | [t] => some t
         | ts => some (Esc.Ty.from (.intersection ts))) = some t' →
        Esc.ftvRaw t' = [] := by
      intro L hL hmatch
      cases L with
      | nil =>
        cases hmatch
        simp [Esc.Ty.from, Esc.ftvRaw, Esc.ftvRawList]
      | cons u us =>
        cases us with
        | nil =>
          cases hmatch
          exact hL _ (List.mem_cons_self _ _)
        | cons u2 us2 =>
          cases hmatch
          simp only [Esc.Ty.from, Esc.ftvRaw]
          exact ftvRawList_nil_of_members _ fun v hv => hL v hv
    exact key _ hout h

set_option maxHeartbeats 1000000 in
mutual
/-- `norm_type` preserves variable-freeness (type case): normalizing a
variable-free type, when it succeeds, yields a variable-free type. -/
theorem normTy_no_ftv (m : List (Int × Esc.Ty)) :
    ∀ (t t' : Esc.Ty), Esc.normTy m t = some t' → Esc.ftvRaw t = [] → Esc.ftvRaw t' = []
  | .mk (.var id c) mu, t', h, h0 => by simp [Esc.ftvRaw] at h0
  | .mk (.app args ret targs) mu, t', h, h0 => by
    simp only [Esc.ftvRaw, List.append_eq_nil] at h0
    cases hargs : Esc.normList m args <;> cases hret : Esc.normTy m ret <;>
      simp only [Esc.normTy, hargs, hret, Option.some.injEq] at h <;>
      try exact Option.noConfusion h
    subst h
    simp only [Esc.ftvRaw, List.append_eq_nil]
    exact ⟨⟨normList_no_ftv m args _ hargs h0.1.1, normTy_no_ftv m ret _ hret h0.1.2⟩, h0.2⟩
  | .mk (.lam tps params ret) mu, t', h, h0 => by
    simp only [Esc.ftvRaw, List.append_eq_nil] at h0
    cases hps : Esc.normParams m params <;> cases hret : Esc.normTy m ret <;>
      simp only [Esc.normTy, hps, hret, Option.some.injEq] at h <;>
      try exact Option.noConfusion h
    subst h
    simp only [Esc.ftvRaw, List.append_eq_nil]
    exact ⟨normParams_no_ftv m params _ hps h0.1, normTy_no_ftv m ret _ hret h0.2⟩
  | .mk (.lit l) mu, t', h, h0 => by
    simp only [Esc.normTy, Option.some.injEq] at h <;>
      try exact Option.noConfusion h
    subst h
    rfl
  | .mk (.keyword k) mu, t', h, h0 => by
    simp only [Esc.normTy, Option.some.injEq] at h <;>
      try exact Option.noConfusion h
    subst h
    rfl
  | .mk (.union ts) mu, t', h, h0 => by
    simp only [Esc.ftvRaw] at h0
    cases hts : Esc.normList m ts <;>
      simp only [Esc.normTy, hts, Option.some.injEq] at h <;>
      try exact Option.noConfusion h
    subst h
    simpa [Esc.ftvRaw] using normList_no_ftv m ts _ hts h0
  | .mk (.intersection ts) mu, t', h, h0 => by
    simp only [Esc.ftvRaw] at h0
    cases hts : Esc.normList m ts with
    | none =>
      simp only [Esc.normTy, hts] at h
      exact Option.noConfusion h
    | some ts2 =>
      simp only [Esc.normTy, hts] at h
      cases hsi : Esc.simplify_intersection ts2 with
      | none =>
        simp only [hsi] at h
        exact Option.noConfusion h
      | some r =>
        simp only [hsi, Option.some.injEq] at h
        subst h
        rw [ftvRaw_setMutable]
        exact simplify_intersection_no_ftv _ _
          (ftvRawList_members_of_nil _ (normList_no_ftv m ts _ hts h0)) hsi
  | .mk (.object elems iface) mu, t', h, h0 => by
    simp only [Esc.ftvRaw] at h0
    cases hes : Esc.normElems m elems <;>
      simp only [Esc.normTy, hes, Option.some.injEq] at h <;>
      try exact Option.noConfusion h
    subst h
    simpa [Esc.ftvRaw] using normElems_no_ftv m elems _ hes h0
  | .mk (.ref name targs) mu, t', h, h0 => by
    simp only [Esc.ftvRaw] at h0
    cases hts : Esc.normOptList m targs <;>
      simp only [Esc.normTy, hts, Option.some.injEq] at h <;>
      try exact Option.noConfusion h
    subst h
    simpa [Esc.ftvRaw] using normOptList_no_ftv m targs _ hts h0
  | .mk (.tuple ts) mu, t', h, h0 => by
    simp only [Esc.ftvRaw] at h0
    cases hts : Esc.normList m ts <;>
      simp only [Esc.normTy, hts, Option.some.injEq] at h <;>
      try exact Option.noConfusion h
    subst h
    simpa [Esc.ftvRaw] using normList_no_ftv m ts _ hts h0
  | .mk (.array t) mu, t', h, h0 => by
    simp only [Esc.ftvRaw] at h0
    cases ht : Esc.normTy m t <;>
      simp only [Esc.normTy, ht, Option.some.injEq] at h <;>
      try exact Option.noConfusion h
    subst h
    simpa [Esc.ftvRaw] using normTy_no_ftv m t _ ht h0
  | .mk (.rest t) mu, t', h, h0 => by
    simp only [Esc.ftvRaw] at h0
    cases ht : Esc.normTy m t <;>
      simp only [Esc.normTy, ht, Option.some.injEq] at h <;>
      try exact Option.noConfusion h
    subst h
    simpa [Esc.ftvRaw] using normTy_no_ftv m t _ ht h0
  | .mk .this mu, t', h, h0 => by
    simp only [Esc.normTy, Option.some.injEq] at h <;>
      try exact Option.noConfusion h
    subst h
    rfl
  | .mk (.keyOf t) mu, t', h, h0 => by
    simp only [Esc.ftvRaw] at h0
    cases ht : Esc.normTy m t <;>
      simp only [Esc.normTy, ht, Option.some.injEq] at h <;>
      try exact Option.noConfusion h
    subst h
    simpa [Esc.ftvRaw] using normTy_no_ftv m t _ ht h0
  | .mk (.indexAccess o i) mu, t', h, h0 => by
    simp only [Esc.ftvRaw, List.append_eq_nil] at h0
    cases ho : Esc.normTy m o <;> cases hi : Esc.normTy m i <;>
      simp only [Esc.normTy, ho, hi, Option.some.injEq] at h <;>
      try exact Option.noConfusion h
    subst h
    simp only [Esc.ftvRaw, List.append_eq_nil]
    exact ⟨normTy_no_ftv m o _ ho h0.1, normTy_no_ftv m i _ hi h0.2⟩
  | .mk (.mappedType t tp opt mtb) mu, t', h, h0 => by
    simp only [Esc.ftvRaw, List.append_eq_nil] at h0
    cases ht : Esc.normTy m t <;> cases htp : Esc.normTypeParam m tp <;>
      simp only [Esc.normTy, ht, htp, Option.some.injEq] at h <;>
      try exact Option.noConfusion h
    subst h
    simp only [Esc.ftvRaw, List.append_eq_nil]
    exact ⟨normTy_no_ftv m t _ ht h0.1, normTypeParam_no_ftv m tp _ htp h0.2⟩
  | .mk (.conditionalType c e tt ff) mu, t', h, h0 => by
    simp only [Esc.ftvRaw, List.append_eq_nil] at h0
    cases hc : Esc.normTy m c <;> cases he : Esc.normTy m e <;>
      cases htt : Esc.normTy m tt <;> cases hff : Esc.normTy m ff <;>
      simp only [Esc.normTy, hc, he, htt, hff, Option.some.injEq] at h <;>
      try exact Option.noConfusion h
    subst h
    simp only [Esc.ftvRaw, List.append_eq_nil]
    exact ⟨⟨⟨normTy_no_ftv m c _ hc h0.1.1.1, normTy_no_ftv m e _ he h0.1.1.2⟩,
      normTy_no_ftv m tt _ htt h0.1.2⟩, normTy_no_ftv m ff _ hff h0.2⟩
  | .mk (.inferType name) mu, t', h, h0 => by
    simp only [Esc.normTy, Option.some.injEq] at h <;>
      try exact Option.noConfusion h
    subst h
    rfl

theorem normOpt_no_ftv (m : List (Int × Esc.Ty)) :
    ∀ (c : Option Esc.Ty) (c' : Option Esc.Ty), Esc.normOpt m c = some c' →
      Esc.ftvRawOpt c = [] → Esc.ftvRawOpt c' = []
  | none, c', h, h0 => by
    simp only [Esc.normOpt, Option.some.injEq] at h <;>
      try exact Option.noConfusion h
    subst h
    rfl
  | some t, c', h, h0 => by
    simp only [Esc.ftvRawOpt] at h0
    cases ht : Esc.normTy m t <;>
      simp only [Esc.normOpt, ht, Option.some.injEq] at h <;>
      try exact Option.noConfusion h
    subst h
    simpa [Esc.ftvRawOpt] using normTy_no_ftv m t _ ht h0

theorem normList_no_ftv (m : List (Int × Esc.Ty)) :
    ∀ (ts ts' : List Esc.Ty), Esc.normList m ts = some ts' →
      Esc.ftvRawList ts = [] → Esc.ftvRawList ts' = []
  | [], ts', h, h0 => by
    simp only [Esc.normList, Option.some.injEq] at h <;>
      try exact Option.noConfusion h
    subst h
    rfl
  | t :: ts, ts', h, h0 => by
    simp only [Esc.ftvRawList, List.append_eq_nil] at h0
    cases ht : Esc.normTy m t <;> cases hts : Esc.normList m ts <;>
      simp only [Esc.normList, ht, hts, Option.some.injEq] at h <;>
      try exact Option.noConfusion h
    subst h
    simp only [Esc.ftvRawList, List.append_eq_nil]
    exact ⟨normTy_no_ftv m t _ ht h0.1, normList_no_ftv m ts _ hts h0.2⟩

theorem normOptList_no_ftv (m : List (Int × Esc.Ty)) :
    ∀ (ts : Option (List Esc.Ty)) (ts' : Option (List Esc.Ty)),
      Esc.normOptList m ts = some ts' →
      Esc.ftvRawOptList ts = [] → Esc.ftvRawOptList ts' = []
  | none, ts', h, h0 => by
    simp only [Esc.normOptList, Option.some.injEq] at h <;>
      try exact Option.noConfusion h
    subst h
    rfl
  | some ts, ts', h, h0 => by
    simp only [Esc.ftvRawOptList] at h0
    cases hts : Esc.normList m ts <;>
      simp only [Esc.normOptList, hts, Option.some.injEq] at h <;>
      try exact Option.noConfusion h
    subst h
    simpa [Esc.ftvRawOptList] using normList_no_ftv m ts _ hts h0

theorem normParams_no_ftv (m : List (Int × Esc.Ty)) :
    ∀ (ps ps' : List Esc.TFnParam), Esc.normParams m ps = some ps' →
      Esc.ftvRawParams ps = [] → Esc.ftvRawParams ps' = []
  | [], ps', h, h0 => by
    simp only [Esc.normParams, Option.some.injEq] at h <;>
      try exact Option.noConfusion h
    subst h
    rfl
  | .mk pat t optional :: ps, ps', h, h0 => by
    simp only [Esc.ftvRawParams, List.append_eq_nil] at h0
    cases ht : Esc.normTy m t <;> cases hps : Esc.normParams m ps <;>
      simp only [Esc.normParams, ht, hps, Option.some.injEq] at h <;>
      try exact Option.noConfusion h
    subst h
    simp only [Esc.ftvRawParams, List.append_eq_nil]
    exact ⟨normTy_no_ftv m t _ ht h0.1, normParams_no_ftv m ps _ hps h0.2⟩

theorem normTypeParam_no_ftv (m : List (Int × Esc.Ty)) :
    ∀ (tp tp' : Esc.TypeParam), Esc.normTypeParam m tp = some tp' →
      Esc.ftvRawTypeParam tp = [] → Esc.ftvRawTypeParam tp' = []
  | .mk name c d, tp', h, h0 => by
    simp only [Esc.ftvRawTypeParam, List.append_eq_nil] at h0
    cases hc : Esc.normOpt m c <;> cases hd : Esc.normOpt m d <;>
      simp only [Esc.normTypeParam, hc, hd, Option.some.injEq] at h <;>
      try exact Option.noConfusion h
    subst h
    simp only [Esc.ftvRawTypeParam, List.append_eq_nil]
    exact ⟨normOpt_no_ftv m c _ hc h0.1, normOpt_no_ftv m d _ hd h0.2⟩

theorem normElems_no_ftv (m : List (Int × Esc.Ty)) :
    ∀ (es es' : List Esc.TObjElem), Esc.normElems m es = some es' →
      Esc.ftvRawElems es = [] → Esc.ftvRawElems es' = []
  | [], es', h, h0 => by
    simp only [Esc.normElems, Option.some.injEq] at h <;>
      try exact Option.noConfusion h
    subst h
    rfl
  | .call tps params ret :: es, es', h, h0 => by
    simp only [Esc.ftvRawElems, List.append_eq_nil] at h0
    cases hps : Esc.normParams m params <;> cases hret : Esc.normTy m ret <;>
      cases hes : Esc.normElems m es <;>
      simp only [Esc.normElems, hps, hret, hes, Option.some.injEq] at h <;>
      try exact Option.noConfusion h
    subst h
    simp only [Esc.ftvRawElems, List.append_eq_nil]
    exact ⟨⟨normParams_no_ftv m params _ hps h0.1.1, normTy_no_ftv m ret _ hret h0.1.2⟩,
      normElems_no_ftv m es _ hes h0.2⟩
  | .constructor tps params ret :: es, es', h, h0 => by
    simp only [Esc.ftvRawElems, List.append_eq_nil] at h0
    cases hps : Esc.normParams m params <;> cases hret : Esc.normTy m ret <;>
      cases hes : Esc.normElems m es <;>
      simp only [Esc.normElems, hps, hret, hes, Option.some.injEq] at h <;>
      try exact Option.noConfusion h
    subst h
    simp only [Esc.ftvRawElems, List.append_eq_nil]
    exact ⟨⟨normParams_no_ftv m params _ hps h0.1.1, normTy_no_ftv m ret _ hret h0.1.2⟩,
      normElems_no_ftv m es _ hes h0.2⟩
  | .index key mtb t :: es, es', h, h0 => by
    simp only [Esc.ftvRawElems, List.append_eq_nil] at h0
    cases ht : Esc.normTy m t <;> cases hes : Esc.normElems m es <;>
      simp only [Esc.normElems, ht, hes, Option.some.injEq] at h <;>
      try exact Option.noConfusion h
    subst h
    simp only [Esc.ftvRawElems, List.append_eq_nil]
    exact ⟨normTy_no_ftv m t _ ht h0.1, normElems_no_ftv m es _ hes h0.2⟩
  | .prop name o mtb t :: es, es', h, h0 => by
    simp only [Esc.ftvRawElems, List.append_eq_nil] at h0
    cases ht : Esc.normTy m t <;> cases hes : Esc.normElems m es <;>
      simp only [Esc.normElems, ht, hes, Option.some.injEq] at h <;>
      try exact Option.noConfusion h
    subst h
    simp only [Esc.ftvRawElems, List.append_eq_nil]
    exact ⟨normTy_no_ftv m t _ ht h0.1, normElems_no_ftv m es _ hes h0.2⟩
  | .method name tps params ret im :: es, es', h, h0 => Option.noConfusion h
  | .getter name ret :: es, es', h, h0 => Option.noConfusion h
  | .setter name param :: es, es', h, h0 => Option.noConfusion h
end

/-- Shape of `norm_type` on a lambda: success preserves the `Lam` head, its
`type_params` and the `mutable` flag. -/
theorem normTy_lam_shape (m : List (Int × Esc.Ty))
    (tps : Option (List Esc.TypeParam)) (params : List Esc.TFnParam) (ret : Esc.Ty)
    (mu : Bool) (r : Esc.Ty)
    (h : Esc.normTy m (.mk (.lam tps params ret) mu) = some r) :
    ∃ params' ret', r = .mk (.lam tps params' ret') mu := by
  cases hps : Esc.normParams m params <;> cases hret : Esc.normTy m ret <;>
    simp only [Esc.normTy, hps, hret, Option.some.injEq] at h <;>
    try exact Option.noConfusion h
  exact ⟨_, _, h.symm⟩

/-- Ids surviving the deduplication loop of `ftv`. -/
theorem dedupById_go_ids :
    ∀ (l : List Esc.TVar) (seen : List Int) (id : Int),
      id ∈ (Esc.dedupById.go seen l).map Esc.TVar.id ↔
        (id ∉ seen ∧ id ∈ l.map Esc.TVar.id) := by
  intro l
  induction l with
  | nil => intro seen id; simp [Esc.dedupById.go]
  | cons tv rest ih =>
    intro seen id
    by_cases ht : tv.id ∈ seen
    · simp only [Esc.dedupById.go, ht, if_true, ih, List.map_cons, List.mem_cons]
      constructor
      · rintro ⟨h1, h2⟩
        exact ⟨h1, Or.inr h2⟩
      · rintro ⟨h1, h2 | h2⟩
        · exact absurd (h2 ▸ ht) h1
        · exact ⟨h1, h2⟩
    · simp only [Esc.dedupById.go, ht, if_false, List.map_cons, List.mem_cons, ih]
      constructor
      · rintro (h1 | ⟨h1, h2⟩)
        · exact ⟨h1 ▸ ht, Or.inl h1⟩
        · exact ⟨fun hc => h1 (Or.inr hc), Or.inr h2⟩
      · rintro ⟨h1, h2 | h2⟩
        · exact Or.inl h2
        · by_cases hid : id = tv.id
          · exact Or.inl hid
          · exact Or.inr ⟨by simp [List.mem_cons, hid, h1], h2⟩

/-- `ftv` preserves the set of ids of the raw free-variable list. -/
theorem ftv_ids (t : Esc.Ty) (id : Int) :
    id ∈ (Esc.ftv t).map Esc.TVar.id ↔ id ∈ (Esc.ftvRaw t).map Esc.TVar.id := by
  unfold Esc.ftv Esc.dedupById
  rw [dedupById_go_ids]
  simp

/-- Looking up any collected id in the generated letter substitution yields a
(variable-free) reference to a generated type parameter. -/
theorem lookup_letterSubAux :
    ∀ (tvs : List Esc.TVar) (i : Nat) (id : Int),
      id ∈ tvs.map Esc.TVar.id →
      ∃ nm, Esc.lookupSub (Esc.letterSubAux i tvs) id = some (Esc.Ty.from (.ref nm none)) := by
  intro tvs
  induction tvs with
  | nil => intro i id h; cases h
  | cons tv rest ih =>
    intro i id h
    by_cases hid : tv.id = id
    · exact ⟨Esc.letterName i, by simp [Esc.letterSubAux, Esc.lookupSub, hid]⟩
    · rcases List.mem_cons.mp h with h | h
      · exact absurd h.symm hid
      · rcases ih (i + 1) id h with ⟨nm, hnm⟩
        exact ⟨nm, by simp [Esc.letterSubAux, Esc.lookupSub, hid, hnm]⟩

/-- A variable-free type has an empty renumbering map. -/
theorem get_mapping_nil (t : Esc.Ty) (h : Esc.ftvRaw t = []) :
    Esc.get_mapping t = [] := by
  simp [Esc.get_mapping, Esc.ftv, h, Esc.dedupById, Esc.dedupById.go]

/-- The generated type-parameter list of a non-empty variable list is
non-empty. -/
theorem letterParams_ne_nil (tvs : List Esc.TVar) (h : tvs ≠ []) :
    (Esc.letterParams tvs).isEmpty = false := by
  cases tvs with
  | nil => exact absurd rfl h
  | cons tv rest => rfl

/-- C6: when the substituted type is a lambda with free type variables,
`close_over` (if it returns) produces a lambda whose `type_params` are
exactly the generated parameters `A`, `B`, `C`, … — one per free variable, in
order of occurrence, keeping each variable's constraint — and whose body
contains no free type variables at all. -/
theorem c6_close_over :
    ∀ (s : Esc.Subst) (t : Esc.Ty) (ctx : Esc.Context) (tp : Option (List Esc.TypeParam))
      (params : List Esc.TFnParam) (ret : Esc.Ty) (mu : Bool) (tOut : Esc.Ty),
      Esc.applyTy s t = .mk (.lam tp params ret) mu →
      Esc.ftv (Esc.applyTy s t) ≠ [] →
      Esc.close_over s t ctx = some tOut →
      (∃ params' ret' mu', tOut = .mk (.lam
          (some (Esc.letterParams (Esc.ftv (Esc.applyTy s t)))) params' ret') mu')
      ∧ Esc.ftvRaw tOut = [] := by
  intro s t ctx tp params ret mu tOut h1 h2 h3
  rw [h1] at h2
  rw [h1]
  simp only [Esc.close_over, h1] at h3
  have hie : (Esc.ftv (Esc.Ty.mk (.lam tp params ret) mu)).isEmpty = false := by
    cases hv : Esc.ftv (Esc.Ty.mk (.lam tp params ret) mu) with
    | nil => exact absurd hv h2
    | cons a b => rfl
  rw [hie] at h3
  simp only [Bool.false_eq_true, if_false] at h3
  rw [letterParams_ne_nil _ h2] at h3
  simp only [Bool.false_eq_true, if_false] at h3
  set tvs := Esc.ftv (Esc.Ty.mk (.lam tp params ret) mu) with htvs
  set sub := Esc.letterSub tvs with hsub
  -- the substituted, re-parameterized lambda: one pass of `apply`
  have happly1 : Esc.applyOnceTy sub
      (Esc.Ty.from (.lam (some (Esc.letterParams tvs)) params ret))
      = .mk (.lam (some (Esc.letterParams tvs)) (Esc.applyOnceParams sub params)
          (Esc.applyOnceTy sub ret)) false := rfl
  have hcover : ∀ tv ∈ Esc.ftvRaw
      (Esc.Ty.from (.lam (some (Esc.letterParams tvs)) params ret)),
      ∃ u, Esc.lookupSub sub tv.id = some u ∧ Esc.ftvRaw u = [] := by
    intro tv htv
    have htv' : tv ∈ Esc.ftvRaw (Esc.Ty.mk (.lam tp params ret) mu) := htv
    have hid : tv.id ∈ (Esc.ftvRaw (Esc.Ty.mk (.lam tp params ret) mu)).map Esc.TVar.id :=
      List.mem_map.mpr ⟨tv, htv', rfl⟩
    have hid2 : tv.id ∈ tvs.map Esc.TVar.id := (ftv_ids _ _).mpr hid
    rcases lookup_letterSubAux tvs 0 tv.id hid2 with ⟨nm, hnm⟩
    exact ⟨Esc.Ty.from (.ref nm none), hnm, rfl⟩
  have hT3 : Esc.ftvRaw (Esc.Ty.mk (.lam (some (Esc.letterParams tvs))
      (Esc.applyOnceParams sub params) (Esc.applyOnceTy sub ret)) false) = [] := by
    rw [← happly1]
    exact applyOnceTy_no_ftv sub _ hcover
  -- all further passes of `apply` fix the variable-free one-pass result
  have happly : Esc.applyTy sub
      (Esc.Ty.from (.lam (some (Esc.letterParams tvs)) params ret))
      = .mk (.lam (some (Esc.letterParams tvs)) (Esc.applyOnceParams sub params)
          (Esc.applyOnceTy sub ret)) false := by
    rw [show Esc.applyTy sub (Esc.Ty.from (.lam (some (Esc.letterParams tvs)) params ret))
        = Esc.applyIter sub.length sub (Esc.applyOnceTy sub
            (Esc.Ty.from (.lam (some (Esc.letterParams tvs)) params ret))) from rfl]
    rw [happly1]
    exact applyIter_id sub sub.length _ hT3
  rw [happly] at h3
  unfold Esc.normalize at h3
  rw [get_mapping_nil _ hT3] at h3
  constructor
  · rcases normTy_lam_shape [] _ _ _ _ _ h3 with ⟨params', ret', hshape⟩
    exact ⟨params', ret', false, hshape⟩
  · exact normTy_no_ftv [] _ _ h3 hT3

/-- Witness for C6 at the lambda of the source's own `test_close_over`:
`(a: t1, b: t2) => t1` closes over to `<A, B>(a: A, b: B) => A`. -/
theorem c6_witness :
    (∃ params' ret' mu',
      Esc.Ty.from (.lam
          (some [.mk "A" none none, .mk "B" none none])
          [.mk (.ident "a" false) (Esc.Ty.from (.ref "A" none)) false,
           .mk (.ident "b" false) (Esc.Ty.from (.ref "B" none)) false]
          (Esc.Ty.from (.ref "A" none)))
        = Esc.Ty.mk (.lam
            (some (Esc.letterParams (Esc.ftv (Esc.applyTy []
              (Esc.Ty.from (.lam none
                [.mk (.ident "a" false) (Esc.Ty.from (.var 1 none)) false,
                 .mk (.ident "b" false) (Esc.Ty.from (.var 2 none)) false]
                (Esc.Ty.from (.var 1 none))))))))
            params' ret') mu')
    ∧ Esc.ftvRaw (Esc.Ty.from (.lam
        (some [.mk "A" none none, .mk "B" none none])
        [.mk (.ident "a" false) (Esc.Ty.from (.ref "A" none)) false,
         .mk (.ident "b" false) (Esc.Ty.from (.ref "B" none)) false]
        (Esc.Ty.from (.ref "A" none)))) = [] :=
  c6_close_over []
    (Esc.Ty.from (.lam none
      [.mk (.ident "a" false) (Esc.Ty.from (.var 1 none)) false,
       .mk (.ident "b" false) (Esc.Ty.from (.var 2 none)) false]
      (Esc.Ty.from (.var 1 none))))
    .mk none
    [.mk (.ident "a" false) (Esc.Ty.from (.var 1 none)) false,
     .mk (.ident "b" false) (Esc.Ty.from (.var 2 none)) false]
    (Esc.Ty.from (.var 1 none)) false
    (Esc.Ty.from (.lam
      (some [.mk "A" none none, .mk "B" none none])
      [.mk (.ident "a" false) (Esc.Ty.from (.ref "A" none)) false,
       .mk (.ident "b" false) (Esc.Ty.from (.ref "B" none)) false]
      (Esc.Ty.from (.ref "A" none))))
    (by decide) (by decide) (by decide)
